import Mathlib

set_option maxHeartbeats 1000000
set_option maxRecDepth 4000

/-!
Verification development for the core storage engine of the repository:
record manager (heap file handle over slotted pages with a free-page list),
multi-granularity lock manager (no-wait strict 2PL), transaction manager
(write-set capture and logical undo on abort), and the update / index-scan
executors.  Each C++ component is shallowly embedded as an executable Lean
function; machine `int` page/slot numbers are modelled as `Nat`/`Int`,
byte buffers as `List Nat`, exceptions as an explicit error result that is
returned together with the state reached at the throw point.
-/

namespace RmDb

/-- Transaction lifecycle states (transaction.h). -/
inductive TransactionState where
  | GROWING
  | SHRINKING
  | COMMITTED
  | ABORTED
deriving DecidableEq

/-- Lock modes, with the source's spellings (lock_manager.h): EXLUCSIVE is X
and S_IX is SIX. -/
inductive LockMode where
  | INTENTION_SHARED
  | INTENTION_EXCLUSIVE
  | SHARED
  | EXLUCSIVE
  | S_IX
deriving DecidableEq

/-- Abort reasons carried by TransactionAbortException (the source spells
LOCK_ON_SHIRINKING with the extra I). -/
inductive AbortReason where
  | LOCK_ON_SHIRINKING
  | UPGRADE_CONFLICT
  | DEADLOCK_PREVENTION
deriving DecidableEq

/-- Record identifier: (page_no, slot_no).  Page 0 is the file-header page,
data pages start at 1. -/
structure Rid where
  page_no : Nat
  slot_no : Nat
deriving DecidableEq

/-- Lockable-object granularities. -/
inductive LockDataType where
  | TABLE
  | RECORD
deriving DecidableEq

/-- A lockable object: a whole table or a single record.  The C++ fd (an int
file descriptor) is represented by the table's file name, which the source
itself uses interchangeably via disk_manager_->get_file_name(fd_). -/
inductive LockDataId where
  | table (fd : String)
  | record (fd : String) (rid : Rid)
deriving DecidableEq

/-- The type_ field of a LockDataId. -/
def LockDataId.type_ : LockDataId → LockDataType
  | .table _ => .TABLE
  | .record _ _ => .RECORD

/-- One entry of a lock request queue (lock_manager.h LockRequest). -/
structure LockRequest where
  txn_id_ : Nat
  lock_mode_ : LockMode
  granted_ : Bool
deriving DecidableEq

/-- Write-set entries (txn_defs.h WriteRecord): INSERT_TUPLE carries no
before-image; DELETE_TUPLE and UPDATE_TUPLE carry the before-image bytes. -/
inductive WriteRecord where
  | INSERT_TUPLE (tab_name : String) (rid : Rid)
  | DELETE_TUPLE (tab_name : String) (rid : Rid) (before : List Nat)
  | UPDATE_TUPLE (tab_name : String) (rid : Rid) (before : List Nat)
deriving DecidableEq

/-- A transaction: id, state, lock set and (append-ordered) write set.
The C++ lock_set_ is an unordered_set of LockDataId; it is modelled as a
duplicate-free insertion-ordered list. -/
structure Txn where
  txn_id : Nat
  state : TransactionState
  lock_set : List LockDataId
  write_set : List WriteRecord
deriving DecidableEq

/-- Errors: the storage exceptions and TransactionAbortException, merged in
one type because both cross the same interfaces. -/
inductive Err where
  | PageNotExist (page_no : Nat)
  | RecordNotFound (page_no slot_no : Nat)
  | InternalError (msg : String)
  | TxnAbort (txn_id : Nat) (reason : AbortReason)
deriving DecidableEq

/-- The lock table: association list from LockDataId to its request queue
(the C++ unordered_map; order of entries is irrelevant to lookups). -/
abbrev LockTable := List (LockDataId × List LockRequest)

/-- Queue lookup (unordered_map::find). -/
def lookupQ : LockTable → LockDataId → Option (List LockRequest)
  | [], _ => none
  | (k, v) :: rest, id => if k = id then some v else lookupQ rest id

/-- The queue an operation sees for id, defaulting to empty. -/
def queueOf (lt : LockTable) (id : LockDataId) : List LockRequest :=
  (lookupQ lt id).getD []

/-- unordered_map::operator[]: make sure a (possibly empty) queue exists. -/
def ensureQ (lt : LockTable) (id : LockDataId) : LockTable :=
  if (lookupQ lt id).isSome then lt else lt ++ [(id, [])]

/-- Replace the queue stored for id (in-place mutation of the mapped value). -/
def setQ : LockTable → LockDataId → List LockRequest → LockTable
  | [], _, _ => []
  | (k, v) :: rest, id, q => if k = id then (k, q) :: rest else (k, v) :: setQ rest id q

/-- unordered_map::erase of the entry for id. -/
def eraseQ : LockTable → LockDataId → LockTable
  | [], _ => []
  | (k, v) :: rest, id => if k = id then rest else (k, v) :: eraseQ rest id

/-- First request of the given transaction in the queue (the C++ loop scans
the queue and acts on the first match). -/
def findTxnReq : List LockRequest → Nat → Option LockRequest
  | [], _ => none
  | r :: rest, tid => if r.txn_id_ = tid then some r else findTxnReq rest tid

/-- In-place mode update of the first request of the given transaction. -/
def updateFirstReq : List LockRequest → Nat → LockMode → List LockRequest
  | [], _, _ => []
  | r :: rest, tid, m =>
    if r.txn_id_ = tid then { r with lock_mode_ := m } :: rest
    else r :: updateFirstReq rest tid m

/-- unordered_set::insert for the transaction lock set. -/
def lockSetInsert (ls : List LockDataId) (id : LockDataId) : List LockDataId :=
  if id ∈ ls then ls else ls ++ [id]

/-- The compatibility test used by LockManager::compatible_with_granted
(the compat lambda, lock_manager.cpp:24-45), translated branch by branch. -/
def compat (a b : LockMode) : Bool :=
  if a = .EXLUCSIVE ∨ b = .EXLUCSIVE then false
  else if a = .S_IX ∨ b = .S_IX then
    (if a = .S_IX then b else a) = .INTENTION_SHARED
  else if a = .SHARED ∨ b = .SHARED then
    let other := if a = .SHARED then b else a
    other = .SHARED ∨ other = .INTENTION_SHARED
  else if a = .INTENTION_EXCLUSIVE ∨ b = .INTENTION_EXCLUSIVE then
    let other := if a = .INTENTION_EXCLUSIVE then b else a
    other = .INTENTION_EXCLUSIVE ∨ other = .INTENTION_SHARED
  else true

/-- LockManager::compatible_with_granted (lock_manager.cpp:23-53): the
requested mode must be compatible with every granted request of every other
transaction in the queue. -/
def compatible_with_granted (rq : List LockRequest) (self : Nat) (requested : LockMode) : Bool :=
  rq.all fun req =>
    if req.granted_ = false then true
    else if req.txn_id_ = self then true
    else compat requested req.lock_mode_

/-- The IS/IX/S/SIX/X compatibility matrix exactly as the spec tabulates it
(spec section 4.3, rows hold, columns request).  This is the spec-side
definition compared against the source's compat. -/
def compatSpec (held requested : LockMode) : Bool :=
  match held, requested with
  | .INTENTION_SHARED, .EXLUCSIVE => false
  | .INTENTION_SHARED, _ => true
  | .INTENTION_EXCLUSIVE, .INTENTION_SHARED => true
  | .INTENTION_EXCLUSIVE, .INTENTION_EXCLUSIVE => true
  | .INTENTION_EXCLUSIVE, _ => false
  | .SHARED, .INTENTION_SHARED => true
  | .SHARED, .SHARED => true
  | .SHARED, _ => false
  | .S_IX, .INTENTION_SHARED => true
  | .S_IX, _ => false
  | .EXLUCSIVE, _ => false

/-- Spec-side form of the queue compatibility check: the requested mode is
compatible (per the spec matrix) with every granted request of other
transactions. -/
def compatAllSpec (rq : List LockRequest) (self : Nat) (requested : LockMode) : Bool :=
  rq.all fun req =>
    if req.granted_ ∧ req.txn_id_ ≠ self then compatSpec req.lock_mode_ requested else true

/-- The combine_mode lambda of LockManager::lock_internal
(lock_manager.cpp:72-121), translated branch by branch; ty is the
granularity of the locked object. -/
def combine_mode (ty : LockDataType) (cur req : LockMode) : Option LockMode :=
  if cur = .EXLUCSIVE then some cur
  else if req = .INTENTION_SHARED then some cur
  else
    match ty with
    | .RECORD =>
      if cur = req then some cur
      else if cur = .SHARED ∧ req = .EXLUCSIVE then some .EXLUCSIVE
      else none
    | .TABLE =>
      if cur = req then some cur
      else if cur = .INTENTION_SHARED then
        if req = .SHARED then some .SHARED
        else if req = .INTENTION_EXCLUSIVE then some .INTENTION_EXCLUSIVE
        else if req = .S_IX then some .S_IX
        else if req = .EXLUCSIVE then some .EXLUCSIVE
        else none
      else if cur = .INTENTION_EXCLUSIVE then
        if req = .SHARED then some .S_IX
        else if req = .S_IX then some .S_IX
        else if req = .EXLUCSIVE then some .EXLUCSIVE
        else none
      else if cur = .SHARED then
        if req = .INTENTION_EXCLUSIVE then some .S_IX
        else if req = .S_IX then some .S_IX
        else if req = .EXLUCSIVE then some .EXLUCSIVE
        else none
      else if cur = .S_IX then
        if req = .SHARED then some .S_IX
        else if req = .INTENTION_EXCLUSIVE then some .S_IX
        else if req = .EXLUCSIVE then some .EXLUCSIVE
        else none
      else none

/-- The upgrade lattice as the claim/spec words it: X absorbs everything, an
IS request is absorbed by the current mode, a request equal to the current
mode joins to itself, and otherwise on tables the join is taken in the
lattice IS < S, IX < SIX < X (so the strict strengthenings listed by the
spec: S+IX = IX+S = SIX, S+X = IX+X = SIX+X = X, IS+req = req, and the
joins with SIX itself); on records only S+X = X is a defined strict
strengthening.  This is the spec-side definition compared against the
source's combine_mode. -/
def combineSpec (ty : LockDataType) (cur req : LockMode) : Option LockMode :=
  if cur = .EXLUCSIVE then some .EXLUCSIVE
  else if req = .INTENTION_SHARED then some cur
  else if cur = req then some cur
  else
    match ty with
    | .RECORD =>
      if cur = .SHARED ∧ req = .EXLUCSIVE then some .EXLUCSIVE else none
    | .TABLE =>
      match cur, req with
      | .INTENTION_SHARED, r => some r
      | .SHARED, .INTENTION_EXCLUSIVE => some .S_IX
      | .INTENTION_EXCLUSIVE, .SHARED => some .S_IX
      | .SHARED, .EXLUCSIVE => some .EXLUCSIVE
      | .INTENTION_EXCLUSIVE, .EXLUCSIVE => some .EXLUCSIVE
      | .S_IX, .EXLUCSIVE => some .EXLUCSIVE
      | .SHARED, .S_IX => some .S_IX
      | .INTENTION_EXCLUSIVE, .S_IX => some .S_IX
      | .S_IX, .SHARED => some .S_IX
      | .S_IX, .INTENTION_EXCLUSIVE => some .S_IX
      | _, _ => none

/-- LockManager::lock_internal (lock_manager.cpp:55-167).  The result is the
C++ return value or the thrown exception, together with the transaction and
the lock table as they stand when the function exits (also on throw: the
only mutation before a throw is the operator[] queue creation). -/
def lock_internal (txnOpt : Option Txn) (lt : LockTable) (id : LockDataId) (mode : LockMode) :
    Except Err Bool × Option Txn × LockTable :=
  match txnOpt with
  | none => (.ok true, none, lt)
  | some txn =>
    if txn.state = .SHRINKING then
      (.error (.TxnAbort txn.txn_id .LOCK_ON_SHIRINKING), some txn, lt)
    else
      let lt1 := ensureQ lt id
      let rq := queueOf lt1 id
      match findTxnReq rq txn.txn_id with
      | some req =>
        if req.granted_ = false then
          (.error (.TxnAbort txn.txn_id .DEADLOCK_PREVENTION), some txn, lt1)
        else
          match combine_mode id.type_ req.lock_mode_ mode with
          | none => (.error (.TxnAbort txn.txn_id .UPGRADE_CONFLICT), some txn, lt1)
          | some new_mode =>
            if new_mode = req.lock_mode_ then (.ok true, some txn, lt1)
            else if compatible_with_granted rq txn.txn_id new_mode then
              (.ok true, some txn, setQ lt1 id (updateFirstReq rq txn.txn_id new_mode))
            else
              (.error (.TxnAbort txn.txn_id .UPGRADE_CONFLICT), some txn, lt1)
      | none =>
        if compatible_with_granted rq txn.txn_id mode then
          (.ok true,
           some { txn with lock_set := lockSetInsert txn.lock_set id },
           setQ lt1 id (rq ++ [⟨txn.txn_id, mode, true⟩]))
        else
          (.error (.TxnAbort txn.txn_id .DEADLOCK_PREVENTION), some txn, lt1)

/-- LockManager::lock_shared_on_record. -/
def lock_shared_on_record (txnOpt : Option Txn) (lt : LockTable) (rid : Rid) (tab_fd : String) :
    Except Err Bool × Option Txn × LockTable :=
  lock_internal txnOpt lt (.record tab_fd rid) .SHARED

/-- LockManager::lock_exclusive_on_record. -/
def lock_exclusive_on_record (txnOpt : Option Txn) (lt : LockTable) (rid : Rid) (tab_fd : String) :
    Except Err Bool × Option Txn × LockTable :=
  lock_internal txnOpt lt (.record tab_fd rid) .EXLUCSIVE

/-- LockManager::lock_shared_on_table. -/
def lock_shared_on_table (txnOpt : Option Txn) (lt : LockTable) (tab_fd : String) :
    Except Err Bool × Option Txn × LockTable :=
  lock_internal txnOpt lt (.table tab_fd) .SHARED

/-- LockManager::lock_IS_on_table. -/
def lock_IS_on_table (txnOpt : Option Txn) (lt : LockTable) (tab_fd : String) :
    Except Err Bool × Option Txn × LockTable :=
  lock_internal txnOpt lt (.table tab_fd) .INTENTION_SHARED

/-- LockManager::lock_IX_on_table. -/
def lock_IX_on_table (txnOpt : Option Txn) (lt : LockTable) (tab_fd : String) :
    Except Err Bool × Option Txn × LockTable :=
  lock_internal txnOpt lt (.table tab_fd) .INTENTION_EXCLUSIVE

/-- LockManager::unlock (lock_manager.cpp:245-280): remove every request of
the transaction from the queue, drop the queue if it becomes empty, remove
the id from the lock set, and move a GROWING transaction to SHRINKING.  If
no queue exists for the id the call is an idempotent success that changes
nothing.  The C++ bool result is always true and is omitted. -/
def unlock (txnOpt : Option Txn) (lt : LockTable) (id : LockDataId) : Option Txn × LockTable :=
  match txnOpt with
  | none => (none, lt)
  | some txn =>
    match lookupQ lt id with
    | none => (some txn, lt)
    | some rq =>
      let rq1 := rq.filter fun r => r.txn_id_ ≠ txn.txn_id
      let lt1 := if rq1.isEmpty then eraseQ lt id else setQ lt id rq1
      let txn1 := { txn with lock_set := txn.lock_set.filter fun lid => lid ≠ id }
      let txn2 :=
        if txn1.state = .GROWING then { txn1 with state := .SHRINKING } else txn1
      (some txn2, lt1)

/-- The source compat test coincides with the spec's compatibility matrix
(compat is symmetric, the matrix is read rows-hold / columns-request). -/
theorem compat_eq_compatSpec (a b : LockMode) : compat a b = compatSpec b a := by
  cases a <;> cases b <;> rfl

/-- The queue-wide check of the source equals the spec-side one. -/
theorem compatible_with_granted_eq_compatAllSpec (rq : List LockRequest) (self : Nat)
    (m : LockMode) : compatible_with_granted rq self m = compatAllSpec rq self m := by
  induction rq with
  | nil => rfl
  | cons r rest ih =>
    simp only [compatible_with_granted, compatAllSpec, List.all_cons] at *
    rw [ih]
    cases hg : r.granted_ <;> by_cases ht : r.txn_id_ = self <;>
      simp [hg, ht, compat_eq_compatSpec]

/-- The source combine_mode lambda coincides with the spec-worded upgrade
lattice. -/
theorem combine_mode_eq_combineSpec (ty : LockDataType) (cur req : LockMode) :
    combine_mode ty cur req = combineSpec ty cur req := by
  cases ty <;> cases cur <;> cases req <;> rfl

/-- Appending a fresh queue does not change what is looked up for its id. -/
theorem lookupQ_append_of_none (lt : LockTable) (id : LockDataId) (q : List LockRequest)
    (h : lookupQ lt id = none) : lookupQ (lt ++ [(id, q)]) id = some q := by
  induction lt with
  | nil => simp [lookupQ]
  | cons kv rest ih =>
    obtain ⟨k, v⟩ := kv
    by_cases hk : k = id
    · simp [lookupQ, hk] at h
    · simp only [lookupQ, hk, if_neg hk, List.cons_append] at h ⊢
      exact ih h

/-- operator[] does not change the queue value seen for the id. -/
theorem queueOf_ensureQ (lt : LockTable) (id : LockDataId) :
    queueOf (ensureQ lt id) id = queueOf lt id := by
  unfold ensureQ
  by_cases h : (lookupQ lt id).isSome
  · simp [h]
  · have hn : lookupQ lt id = none := by
      cases hl : lookupQ lt id with
      | none => rfl
      | some q => rw [hl] at h; simp at h
    simp [h, queueOf, hn, lookupQ_append_of_none lt id [] hn]

/-- C8: a lock request by a non-null transaction whose state is SHRINKING
throws TransactionAbortException with reason LOCK_ON_SHIRINKING — for any
lockable object and any mode — and leaves the lock table and the
transaction unchanged (the throw happens before the queue is even looked
up); a lock request with a null transaction returns success without
acquiring anything. -/
theorem claim_C8 (txn : Txn) (lt : LockTable) (id : LockDataId) (m : LockMode)
    (h : txn.state = .SHRINKING) :
    lock_internal (some txn) lt id m
      = (.error (.TxnAbort txn.txn_id .LOCK_ON_SHIRINKING), some txn, lt)
    ∧ lock_internal none lt id m = (.ok true, none, lt) := by
  refine ⟨?_, rfl⟩
  simp [lock_internal, h]

/-- Witness for C8 at a concrete SHRINKING transaction. -/
theorem claim_C8_witness :
    lock_internal (some ⟨7, .SHRINKING, [], []⟩) [] (.table "t") .SHARED
      = (.error (.TxnAbort 7 .LOCK_ON_SHIRINKING), some ⟨7, .SHRINKING, [], []⟩, [])
    ∧ lock_internal none [] (.table "t") .SHARED = (.ok true, none, []) :=
  claim_C8 ⟨7, .SHRINKING, [], []⟩ [] (.table "t") .SHARED rfl

/-- C10: unlocking an id for which the lock table holds no queue returns
success and changes nothing: the lock table, the transaction's lock set and
the transaction's state (in particular a GROWING transaction stays
GROWING). -/
theorem claim_C10 (txn : Txn) (lt : LockTable) (id : LockDataId)
    (h : lookupQ lt id = none) :
    unlock (some txn) lt id = (some txn, lt) := by
  simp [unlock, h]

/-- Witness for C10: a GROWING transaction unlocking an id with no queue. -/
theorem claim_C10_witness :
    unlock (some ⟨3, .GROWING, [.table "t"], []⟩) [] (.record "t" ⟨1, 0⟩)
      = (some ⟨3, .GROWING, [.table "t"], []⟩, []) :=
  claim_C10 ⟨3, .GROWING, [.table "t"], []⟩ [] (.record "t" ⟨1, 0⟩) rfl

/-- C3: for a (non-SHRINKING) transaction with no existing request on the
id, a lock request of mode m succeeds — appending a granted request and
inserting the id into the lock set — exactly when m is compatible, per the
spec's compatibility matrix, with every granted request of other
transactions; otherwise it throws DEADLOCK_PREVENTION synchronously (the
embedding is a pure total function, so no blocking is possible) leaving the
queue value and the transaction (hence its lock set) unchanged. -/
theorem claim_C3 (txn : Txn) (lt : LockTable) (id : LockDataId) (m : LockMode)
    (hstate : txn.state ≠ .SHRINKING)
    (hnew : findTxnReq (queueOf lt id) txn.txn_id = none) :
    (compatAllSpec (queueOf lt id) txn.txn_id m = true →
      lock_internal (some txn) lt id m =
        (.ok true, some { txn with lock_set := lockSetInsert txn.lock_set id },
         setQ (ensureQ lt id) id (queueOf lt id ++ [⟨txn.txn_id, m, true⟩])))
    ∧ (compatAllSpec (queueOf lt id) txn.txn_id m = false →
      lock_internal (some txn) lt id m =
        (.error (.TxnAbort txn.txn_id .DEADLOCK_PREVENTION), some txn, ensureQ lt id)
      ∧ queueOf (ensureQ lt id) id = queueOf lt id) := by
  have hq := queueOf_ensureQ lt id
  constructor
  · intro hc
    simp [lock_internal, hstate, hq, hnew, compatible_with_granted_eq_compatAllSpec, hc]
  · intro hc
    refine ⟨?_, hq⟩
    simp [lock_internal, hstate, hq, hnew, compatible_with_granted_eq_compatAllSpec, hc]

/-- Witness for C3: a fresh S request on a table whose queue holds another
transaction's granted S is appended as granted and recorded in the lock
set. -/
theorem claim_C3_witness :
    lock_internal (some ⟨1, .GROWING, [], []⟩)
        [(.table "t", [⟨2, .SHARED, true⟩])] (.table "t") .SHARED
      = (.ok true, some ⟨1, .GROWING, [.table "t"], []⟩,
         [(.table "t", [⟨2, .SHARED, true⟩, ⟨1, .SHARED, true⟩])]) := by
  have h := (claim_C3 ⟨1, .GROWING, [], []⟩ [(.table "t", [⟨2, .SHARED, true⟩])]
      (.table "t") .SHARED (by decide) (by decide)).1 (by decide)
  exact h.trans (by rfl)

/-- C4: for a transaction already holding a granted request of mode cur on
an object, a request of mode req is resolved by the spec's upgrade lattice
combineSpec: an undefined join throws UPGRADE_CONFLICT; a join equal to cur
succeeds with no change; a strictly stronger join succeeds — the held
request's mode becoming the join — exactly when the join is compatible with
every other transaction's granted request, and throws UPGRADE_CONFLICT
otherwise. -/
theorem claim_C4 (txn : Txn) (lt : LockTable) (id : LockDataId) (m cur : LockMode)
    (hstate : txn.state ≠ .SHRINKING)
    (hheld : findTxnReq (queueOf lt id) txn.txn_id = some ⟨txn.txn_id, cur, true⟩) :
    (combineSpec id.type_ cur m = none →
      lock_internal (some txn) lt id m =
        (.error (.TxnAbort txn.txn_id .UPGRADE_CONFLICT), some txn, ensureQ lt id))
    ∧ (combineSpec id.type_ cur m = some cur →
      lock_internal (some txn) lt id m = (.ok true, some txn, ensureQ lt id))
    ∧ (∀ nm, combineSpec id.type_ cur m = some nm → nm ≠ cur →
        (compatAllSpec (queueOf lt id) txn.txn_id nm = true →
          lock_internal (some txn) lt id m =
            (.ok true, some txn,
             setQ (ensureQ lt id) id (updateFirstReq (queueOf lt id) txn.txn_id nm)))
        ∧ (compatAllSpec (queueOf lt id) txn.txn_id nm = false →
          lock_internal (some txn) lt id m =
            (.error (.TxnAbort txn.txn_id .UPGRADE_CONFLICT), some txn, ensureQ lt id))) := by
  have hq := queueOf_ensureQ lt id
  refine ⟨?_, ?_, ?_⟩
  · intro hc
    simp [lock_internal, hstate, hq, hheld, combine_mode_eq_combineSpec, hc]
  · intro hc
    simp [lock_internal, hstate, hq, hheld, combine_mode_eq_combineSpec, hc]
  · intro nm hc hne
    constructor <;> intro hcf <;>
      simp [lock_internal, hstate, hq, hheld, combine_mode_eq_combineSpec, hc, hne, hcf,
        compatible_with_granted_eq_compatAllSpec]

/-- Witness for C4, the claim's highlighted case: a transaction holding
table IX that requests S ends up holding SIX. -/
theorem claim_C4_witness :
    lock_internal (some ⟨1, .GROWING, [.table "x"], []⟩)
        [(.table "x", [⟨1, .INTENTION_EXCLUSIVE, true⟩])] (.table "x") .SHARED
      = (.ok true, some ⟨1, .GROWING, [.table "x"], []⟩,
         [(.table "x", [⟨1, .S_IX, true⟩])]) := by
  have h := ((claim_C4 ⟨1, .GROWING, [.table "x"], []⟩
      [(.table "x", [⟨1, .INTENTION_EXCLUSIVE, true⟩])] (.table "x") .SHARED
      .INTENTION_EXCLUSIVE (by decide) (by decide)).2.2 .S_IX (by decide) (by decide)).1
      (by decide)
  exact h.trans (by rfl)

/-! ## Record manager (rm_file_handle.cpp)

A heap file holds fixed-length records on slotted data pages.  Page 0 is
the file header and is not represented as data; data page p (p from 1 to
num_pages - 1) is stored at list index p - 1.  Byte buffers are lists of
Nat; memcpy of n bytes is modelled as taking exactly n bytes (zero-padded
if the source is shorter, which corresponds to memory the C++ code would
read out of bounds and never happens on well-formed inputs). -/

/-- Sentinel terminating the free-page chain (RM_NO_PAGE). -/
def RM_NO_PAGE : Int := -1

/-- A data page: header {num_records, next_free_page_no}, slot bitmap and
slot payload array. -/
structure RmPage where
  num_records : Nat
  next_free_page_no : Int
  bitmap : List Bool
  slots : List (List Nat)
deriving DecidableEq

/-- A heap file: header fields and the data pages (page_no p at index
p - 1).  num_pages counts the header page, as in the C++ file header.  The
name stands in for both the fd and disk_manager_->get_file_name(fd_). -/
structure RmFile where
  name : String
  record_size : Nat
  num_records_per_page : Nat
  first_free_page_no : Int
  pages : List RmPage
deriving DecidableEq

/-- file_hdr_.num_pages: the header page plus the data pages. -/
def RmFile.num_pages (f : RmFile) : Nat := f.pages.length + 1

/-- The data page with the given page_no (only meaningful for
1 ≤ page_no < num_pages, the range every operation checks first). -/
def RmFile.getPage (f : RmFile) (p : Nat) : RmPage :=
  f.pages.getD (p - 1) ⟨0, RM_NO_PAGE, [], []⟩

/-- Replace the data page with the given page_no. -/
def RmFile.setPage (f : RmFile) (p : Nat) (pg : RmPage) : RmFile :=
  { f with pages := f.pages.set (p - 1) pg }

/-- Whether fetch_page_handle can return a data page: the C++ code rejects
page_no ≥ num_pages; page_no 0 is the file-header page which has no data
representation here, so the model also rejects it (the claims only concern
data pages). -/
def RmFile.fetch_ok (f : RmFile) (p : Nat) : Bool := 1 ≤ p && p < f.num_pages

/-- Bitmap::is_set. -/
def Bitmap.is_set (bm : List Bool) (i : Nat) : Bool := bm.getD i false

/-- Bitmap::set. -/
def Bitmap.set (bm : List Bool) (i : Nat) : List Bool := bm.set i true

/-- Bitmap::reset. -/
def Bitmap.reset (bm : List Bool) (i : Nat) : List Bool := bm.set i false

/-- Scan a list of candidate indices for the first clear bit. -/
def firstClearIn (bm : List Bool) : List Nat → Option Nat
  | [] => none
  | i :: rest => if Bitmap.is_set bm i then firstClearIn bm rest else some i

/-- Bitmap::first_bit(false, bm, n): the lowest index of a clear bit among
0..n-1, or n if every one of those bits is set. -/
def Bitmap.first_bit_clear (bm : List Bool) (n : Nat) : Nat :=
  (firstClearIn bm (List.range n)).getD n

/-- memcpy of exactly n bytes out of src. -/
def memcpyBytes (n : Nat) (src : List Nat) : List Nat :=
  (src ++ List.replicate n 0).take n

/-- The payload stored in a slot, read at record_size width (get_slot +
memcpy). -/
def RmPage.readSlot (pg : RmPage) (rs : Nat) (s : Nat) : List Nat :=
  memcpyBytes rs (pg.slots.getD s [])

/-- Overwrite a slot with record_size bytes of buf. -/
def RmPage.writeSlot (pg : RmPage) (rs : Nat) (s : Nat) (buf : List Nat) : RmPage :=
  { pg with slots := pg.slots.set s (memcpyBytes rs buf) }

/-- The execution context handed to the record manager: the C++ Context*
may be null; a non-null context has a (possibly null) transaction pointer
and a (possibly null) lock-manager pointer. -/
structure Ctx where
  txn : Option Txn
  hasLockMgr : Bool
deriving DecidableEq

/-- should_record_write (rm_file_handle.cpp:24-27): capture a write-set
entry iff context and its transaction are non-null and the transaction is
GROWING. -/
def should_record_write (ctxOpt : Option Ctx) : Bool :=
  match ctxOpt with
  | none => false
  | some c =>
    match c.txn with
    | none => false
    | some t => t.state = .GROWING

/-- The guard on every locking block of the record manager:
context, its transaction and its lock manager are all non-null. -/
def wantsLocks (ctxOpt : Option Ctx) : Bool :=
  match ctxOpt with
  | none => false
  | some c => c.txn.isSome && c.hasLockMgr

/-- One lock call made through the context (mutating the transaction the
context points to). -/
def ctxLock1 (ctxOpt : Option Ctx) (lt : LockTable) (id : LockDataId) (m : LockMode) :
    Except Err Bool × Option Ctx × LockTable :=
  match ctxOpt with
  | none => (.ok true, none, lt)
  | some c =>
    match lock_internal c.txn lt id m with
    | (r, t2, lt2) => (r, some { c with txn := t2 }, lt2)

/-- A sequence of lock calls, stopping at the first failure. -/
def ctxLockMany (ctxOpt : Option Ctx) (lt : LockTable) :
    List (LockDataId × LockMode) → Except Err Unit × Option Ctx × LockTable
  | [] => (.ok (), ctxOpt, lt)
  | (id, m) :: rest =>
    match ctxLock1 ctxOpt lt id m with
    | (.ok _, c2, lt2) => ctxLockMany c2 lt2 rest
    | (.error e, c2, lt2) => (.error e, c2, lt2)

/-- The locking prologue of an operation: runs the given lock requests when
context, transaction and lock manager are all present, else does nothing. -/
def lockPhase (ctxOpt : Option Ctx) (lt : LockTable) (ids : List (LockDataId × LockMode)) :
    Except Err Unit × Option Ctx × LockTable :=
  if wantsLocks ctxOpt then ctxLockMany ctxOpt lt ids else (.ok (), ctxOpt, lt)

/-- Locks taken by get_record: table IS then record S. -/
def get_record_lockIds (fname : String) (rid : Rid) : List (LockDataId × LockMode) :=
  [(.table fname, .INTENTION_SHARED), (.record fname rid, .SHARED)]

/-- Locks taken by insert_record: table IX. -/
def insert_record_lockIds (fname : String) : List (LockDataId × LockMode) :=
  [(.table fname, .INTENTION_EXCLUSIVE)]

/-- Locks taken by delete_record and update_record: table IX then record X. -/
def write_lockIds (fname : String) (rid : Rid) : List (LockDataId × LockMode) :=
  [(.table fname, .INTENTION_EXCLUSIVE), (.record fname rid, .EXLUCSIVE)]

/-- Append a write record to the context's transaction
(txn_->append_write_record). -/
def ctxAppendWrite (ctxOpt : Option Ctx) (wr : WriteRecord) : Option Ctx :=
  match ctxOpt with
  | none => none
  | some c =>
    match c.txn with
    | none => some c
    | some t => some { c with txn := some { t with write_set := t.write_set ++ [wr] } }

/-- RmFileHandle::get_record (rm_file_handle.cpp:35-68): lock, fetch the
page, require the slot bit, return a copy of the slot bytes.  The state at
the exit point (also on throw) is returned alongside the result. -/
def get_record (f : RmFile) (lt : LockTable) (ctxOpt : Option Ctx) (rid : Rid) :
    Except Err (List Nat) × RmFile × LockTable × Option Ctx :=
  match lockPhase ctxOpt lt (get_record_lockIds f.name rid) with
  | (.error e, c2, lt2) => (.error e, f, lt2, c2)
  | (.ok _, c2, lt2) =>
    if ¬ f.fetch_ok rid.page_no then (.error (.PageNotExist rid.page_no), f, lt2, c2)
    else
      let pg := f.getPage rid.page_no
      if ¬ Bitmap.is_set pg.bitmap rid.slot_no then
        (.error (.RecordNotFound rid.page_no rid.slot_no), f, lt2, c2)
      else
        (.ok (pg.readSlot f.record_size rid.slot_no), f, lt2, c2)

/-- RmFileHandle::create_new_page_handle (rm_file_handle.cpp:311-336):
append a fresh empty data page (its page_no is the old num_pages), zero its
header and bitmap, and point first_free_page_no at it.  Slot payloads are
uninitialized in C++ and modelled as zero bytes; they are never read while
their bit is clear. -/
def create_new_page (f : RmFile) : RmFile × Nat :=
  let pg : RmPage :=
    { num_records := 0
      next_free_page_no := RM_NO_PAGE
      bitmap := List.replicate f.num_records_per_page false
      slots := List.replicate f.num_records_per_page (List.replicate f.record_size 0) }
  let new_no := f.num_pages
  ({ f with pages := f.pages ++ [pg], first_free_page_no := ↑new_no }, new_no)

/-- RmFileHandle::create_page_handle (rm_file_handle.cpp:344-359): take the
head of the free list, or allocate a new page when the list is empty. -/
def create_page_handle (f : RmFile) : Except Err (RmFile × Nat) :=
  if f.first_free_page_no = RM_NO_PAGE then .ok (create_new_page f)
  else if f.fetch_ok f.first_free_page_no.toNat then .ok (f, f.first_free_page_no.toNat)
  else .error (.PageNotExist f.first_free_page_no.toNat)

/-- RmFileHandle::insert_record(buf, context) (rm_file_handle.cpp:76-129):
lock table IX, take a non-full page, insert at its first clear bit, unlink
the page from the free-list head when it becomes full, and capture an
INSERT_TUPLE write record when should_record_write holds. -/
def insert_record (f : RmFile) (lt : LockTable) (ctxOpt : Option Ctx) (buf : List Nat) :
    Except Err Rid × RmFile × LockTable × Option Ctx :=
  match lockPhase ctxOpt lt (insert_record_lockIds f.name) with
  | (.error e, c2, lt2) => (.error e, f, lt2, c2)
  | (.ok _, c2, lt2) =>
    match create_page_handle f with
    | .error e => (.error e, f, lt2, c2)
    | .ok (f1, p) =>
      let pg := f1.getPage p
      let slot_no := Bitmap.first_bit_clear pg.bitmap f1.num_records_per_page
      if slot_no = f1.num_records_per_page then
        (.error (.InternalError "No free slot available"), f1, lt2, c2)
      else
        let pg1 := pg.writeSlot f1.record_size slot_no buf
        let pg2 := { pg1 with bitmap := Bitmap.set pg1.bitmap slot_no,
                              num_records := pg1.num_records + 1 }
        let f2 := f1.setPage p pg2
        let f3 :=
          if pg2.num_records = f2.num_records_per_page then
            { f2 with first_free_page_no := pg2.next_free_page_no }
          else f2
        let rid : Rid := ⟨p, slot_no⟩
        let c3 :=
          if should_record_write c2 then
            ctxAppendWrite c2 (.INSERT_TUPLE f.name rid)
          else c2
        (.ok rid, f3, lt2, c3)

/-- RmFileHandle::insert_record(rid, buf) (rm_file_handle.cpp:136-182), the
undo path: validate the page and slot, require the target bit clear, write
the record, and advance the free-list head if this page was the head and
just became full.  No locks, no write-set capture. -/
def insert_record_at (f : RmFile) (rid : Rid) (buf : List Nat) :
    Except Err Unit × RmFile :=
  if rid.page_no ≤ 0 ∨ rid.page_no ≥ f.num_pages then
    (.error (.PageNotExist rid.page_no), f)
  else if rid.slot_no ≥ f.num_records_per_page then
    (.error (.InternalError "insert_record(rid): invalid slot_no"), f)
  else
    let pg := f.getPage rid.page_no
    if Bitmap.is_set pg.bitmap rid.slot_no then
      (.error (.InternalError "insert_record(rid): slot already occupied"), f)
    else
      let pg1 := pg.writeSlot f.record_size rid.slot_no buf
      let pg2 := { pg1 with bitmap := Bitmap.set pg1.bitmap rid.slot_no,
                            num_records := pg1.num_records + 1 }
      let f1 := f.setPage rid.page_no pg2
      let f2 :=
        if pg2.num_records = f1.num_records_per_page then
          if f1.first_free_page_no = ↑rid.page_no then
            { f1 with first_free_page_no := pg2.next_free_page_no }
          else f1
        else f1
      (.ok (), f2)

/-- RmFileHandle::release_page_handle (rm_file_handle.cpp:364-375): a page
that just regained a free slot is pushed on the head of the free list. -/
def release_page_handle (f : RmFile) (p : Nat) : RmFile :=
  let pg := f.getPage p
  let f1 := f.setPage p { pg with next_free_page_no := f.first_free_page_no }
  { f1 with first_free_page_no := ↑p }

/-- RmFileHandle::delete_record (rm_file_handle.cpp:189-234): lock table IX
and record X, require the slot bit, capture a DELETE_TUPLE write record
with the before-image when should_record_write holds, clear the bit, and
put the page back on the free list if it had been full. -/
def delete_record (f : RmFile) (lt : LockTable) (ctxOpt : Option Ctx) (rid : Rid) :
    Except Err Unit × RmFile × LockTable × Option Ctx :=
  match lockPhase ctxOpt lt (write_lockIds f.name rid) with
  | (.error e, c2, lt2) => (.error e, f, lt2, c2)
  | (.ok _, c2, lt2) =>
    if ¬ f.fetch_ok rid.page_no then (.error (.PageNotExist rid.page_no), f, lt2, c2)
    else
      let pg := f.getPage rid.page_no
      if ¬ Bitmap.is_set pg.bitmap rid.slot_no then
        (.error (.RecordNotFound rid.page_no rid.slot_no), f, lt2, c2)
      else
        let was_full := pg.num_records = f.num_records_per_page
        let c3 :=
          if should_record_write c2 then
            ctxAppendWrite c2
              (.DELETE_TUPLE f.name rid (pg.readSlot f.record_size rid.slot_no))
          else c2
        let pg1 := { pg with bitmap := Bitmap.reset pg.bitmap rid.slot_no,
                             num_records := pg.num_records - 1 }
        let f1 := f.setPage rid.page_no pg1
        let f2 := if was_full then release_page_handle f1 rid.page_no else f1
        (.ok (), f2, lt2, c3)

/-- RmFileHandle::update_record (rm_file_handle.cpp:243-279): lock table IX
and record X, require the slot bit, capture an UPDATE_TUPLE write record
with the before-image when should_record_write holds, overwrite the slot. -/
def update_record (f : RmFile) (lt : LockTable) (ctxOpt : Option Ctx) (rid : Rid)
    (buf : List Nat) : Except Err Unit × RmFile × LockTable × Option Ctx :=
  match lockPhase ctxOpt lt (write_lockIds f.name rid) with
  | (.error e, c2, lt2) => (.error e, f, lt2, c2)
  | (.ok _, c2, lt2) =>
    if ¬ f.fetch_ok rid.page_no then (.error (.PageNotExist rid.page_no), f, lt2, c2)
    else
      let pg := f.getPage rid.page_no
      if ¬ Bitmap.is_set pg.bitmap rid.slot_no then
        (.error (.RecordNotFound rid.page_no rid.slot_no), f, lt2, c2)
      else
        let c3 :=
          if should_record_write c2 then
            ctxAppendWrite c2
              (.UPDATE_TUPLE f.name rid (pg.readSlot f.record_size rid.slot_no))
          else c2
        let pg1 := pg.writeSlot f.record_size rid.slot_no buf
        (.ok (), f.setPage rid.page_no pg1, lt2, c3)

/-- RmFileHandle::is_record.  Modelled from the spec: the source file for
this helper is not under src (only its callers are); spec section 4.1 says
"is_record(rid) returns whether the bit is set". -/
def RmFile.is_record (f : RmFile) (rid : Rid) : Bool :=
  f.fetch_ok rid.page_no && Bitmap.is_set (f.getPage rid.page_no).bitmap rid.slot_no

/-- The write set seen through a context (empty when there is no
transaction to hold one). -/
def ctxWS (ctxOpt : Option Ctx) : List WriteRecord :=
  match ctxOpt with
  | some c =>
    match c.txn with
    | some t => t.write_set
    | none => []
  | none => []

/-- The capture condition exactly as the claim words it: the context is
non-null, its transaction pointer is non-null, and that transaction is
GROWING. -/
def capturesWrite (ctxOpt : Option Ctx) : Prop :=
  ∃ c t, ctxOpt = some c ∧ c.txn = some t ∧ t.state = TransactionState.GROWING

theorem should_record_write_iff (ctxOpt : Option Ctx) :
    should_record_write ctxOpt = true ↔ capturesWrite ctxOpt := by
  cases ctxOpt with
  | none => simp [should_record_write, capturesWrite]
  | some c =>
    cases ht : c.txn with
    | none => simp [should_record_write, capturesWrite, ht]
    | some t =>
      simp only [should_record_write, ht, capturesWrite, decide_eq_true_eq]
      constructor
      · intro hs
        exact ⟨c, t, rfl, ht, hs⟩
      · rintro ⟨c2, t2, hc, ht2, hst⟩
        cases hc
        rw [ht] at ht2
        cases ht2
        exact hst

/-- lock_internal returns the transaction it was given up to its lock set:
id, state and write set are untouched. -/
theorem lock_internal_txn_inv (txnOpt : Option Txn) (lt : LockTable) (id : LockDataId)
    (m : LockMode) :
    ((lock_internal txnOpt lt id m).2.1).map Txn.txn_id = txnOpt.map Txn.txn_id
    ∧ ((lock_internal txnOpt lt id m).2.1).map Txn.state = txnOpt.map Txn.state
    ∧ ((lock_internal txnOpt lt id m).2.1).map Txn.write_set = txnOpt.map Txn.write_set := by
  unfold lock_internal
  cases txnOpt with
  | none => exact ⟨rfl, rfl, rfl⟩
  | some t =>
    dsimp only
    repeat' split
    all_goals exact ⟨rfl, rfl, rfl⟩

/-- A context keeps its capture condition and its write set across a lock
call. -/
theorem ctxLock1_shape (ctxOpt : Option Ctx) (lt : LockTable) (id : LockDataId) (m : LockMode) :
    should_record_write (ctxLock1 ctxOpt lt id m).2.1 = should_record_write ctxOpt
    ∧ ctxWS (ctxLock1 ctxOpt lt id m).2.1 = ctxWS ctxOpt := by
  cases ctxOpt with
  | none => exact ⟨rfl, rfl⟩
  | some c =>
    have h := lock_internal_txn_inv c.txn lt id m
    rcases hl : lock_internal c.txn lt id m with ⟨r, t2, lt2⟩
    rw [hl] at h
    obtain ⟨-, hstate, hws⟩ := h
    simp only [ctxLock1, hl]
    cases ht : c.txn with
    | none =>
      rw [ht] at hstate hws
      cases t2 with
      | none => simp [should_record_write, ctxWS, ht]
      | some t2v => simp at hstate
    | some tv =>
      rw [ht] at hstate hws
      cases t2 with
      | none => simp at hstate
      | some t2v =>
        simp only [Option.map_some] at hstate hws
        cases hstate'' : t2v.state
        all_goals simp_all [should_record_write, ctxWS, ht]

/-- ctxLockMany keeps the capture condition and the write set. -/
theorem ctxLockMany_shape (ids : List (LockDataId × LockMode)) :
    ∀ (ctxOpt : Option Ctx) (lt : LockTable),
      should_record_write (ctxLockMany ctxOpt lt ids).2.1 = should_record_write ctxOpt
      ∧ ctxWS (ctxLockMany ctxOpt lt ids).2.1 = ctxWS ctxOpt := by
  induction ids with
  | nil => intro ctxOpt lt; exact ⟨rfl, rfl⟩
  | cons idm rest ih =>
    intro ctxOpt lt
    obtain ⟨id, m⟩ := idm
    have h1 := ctxLock1_shape ctxOpt lt id m
    rcases hl : ctxLock1 ctxOpt lt id m with ⟨r, c2, lt2⟩
    rw [hl] at h1
    cases r with
    | ok v =>
      have h2 := ih c2 lt2
      simp only [ctxLockMany, hl]
      exact ⟨h2.1.trans h1.1, h2.2.trans h1.2⟩
    | error e => simpa only [ctxLockMany, hl] using h1

/-- The locking prologue keeps the capture condition and the write set. -/
theorem lockPhase_shape (ctxOpt : Option Ctx) (lt : LockTable)
    (ids : List (LockDataId × LockMode)) :
    should_record_write (lockPhase ctxOpt lt ids).2.1 = should_record_write ctxOpt
    ∧ ctxWS (lockPhase ctxOpt lt ids).2.1 = ctxWS ctxOpt := by
  unfold lockPhase
  split
  · exact ctxLockMany_shape ids ctxOpt lt
  · exact ⟨rfl, rfl⟩

/-- Appending through a context with a live transaction appends to its
write set. -/
theorem ctxWS_append (ctxOpt : Option Ctx) (wr : WriteRecord)
    (h : should_record_write ctxOpt = true) :
    ctxWS (ctxAppendWrite ctxOpt wr) = ctxWS ctxOpt ++ [wr] := by
  cases ctxOpt with
  | none => simp [should_record_write] at h
  | some c =>
    cases ht : c.txn with
    | none => simp [should_record_write, ht] at h
    | some t => simp [ctxAppendWrite, ctxWS, ht]

/-- A context's should_record_write is either true or it is not captured. -/
theorem should_record_write_false_of_not (ctxOpt : Option Ctx) (h : ¬ capturesWrite ctxOpt) :
    should_record_write ctxOpt = false := by
  rcases hb : should_record_write ctxOpt with _ | _
  · rfl
  · exact absurd ((should_record_write_iff ctxOpt).mp hb) h

/-- C2: a successful insert_record, delete_record or update_record appends
exactly one WriteRecord to the context transaction's write set if the
context is non-null with a non-null transaction in GROWING state, and
appends nothing otherwise; for delete and update the appended before-image
is the byte copy of the slot payload taken from the pre-call state (before
the slot is mutated), and for insert the record carries the returned rid. -/
theorem claim_C2 (f : RmFile) (lt : LockTable) (ctxOpt : Option Ctx) (rid : Rid)
    (buf : List Nat) :
    (∀ r f' lt' c', insert_record f lt ctxOpt buf = (.ok r, f', lt', c') →
      (capturesWrite ctxOpt → ctxWS c' = ctxWS ctxOpt ++ [.INSERT_TUPLE f.name r])
      ∧ (¬ capturesWrite ctxOpt → ctxWS c' = ctxWS ctxOpt))
    ∧ (∀ f' lt' c', delete_record f lt ctxOpt rid = (.ok (), f', lt', c') →
      (capturesWrite ctxOpt →
        ctxWS c' = ctxWS ctxOpt
          ++ [.DELETE_TUPLE f.name rid
                ((f.getPage rid.page_no).readSlot f.record_size rid.slot_no)])
      ∧ (¬ capturesWrite ctxOpt → ctxWS c' = ctxWS ctxOpt))
    ∧ (∀ f' lt' c', update_record f lt ctxOpt rid buf = (.ok (), f', lt', c') →
      (capturesWrite ctxOpt →
        ctxWS c' = ctxWS ctxOpt
          ++ [.UPDATE_TUPLE f.name rid
                ((f.getPage rid.page_no).readSlot f.record_size rid.slot_no)])
      ∧ (¬ capturesWrite ctxOpt → ctxWS c' = ctxWS ctxOpt)) := by
  refine ⟨?_, ?_, ?_⟩
  · -- insert_record
    intro r f' lt' c' hok
    have hsh := lockPhase_shape ctxOpt lt (insert_record_lockIds f.name)
    rcases hlp : lockPhase ctxOpt lt (insert_record_lockIds f.name) with ⟨lr, c2, lt2⟩
    rw [hlp] at hsh
    unfold insert_record at hok
    rw [hlp] at hok
    cases lr with
    | error e => simp at hok
    | ok v =>
      dsimp only at hok
      rcases hcp : create_page_handle f with ce | ⟨f1, p⟩ <;> rw [hcp] at hok <;>
        dsimp only at hok
      · simp at hok
      · split at hok
        · simp at hok
        · simp only [Prod.mk.injEq, Except.ok.injEq] at hok
          obtain ⟨hr, -, -, hc⟩ := hok
          subst hr
          constructor
          · intro hcap
            have hs : should_record_write c2 = true := by
              rw [hsh.1, should_record_write_iff]; exact hcap
            rw [← hc]
            simp only [hs, if_true]
            rw [ctxWS_append c2 _ hs, hsh.2]
          · intro hncap
            have hs : should_record_write c2 = false :=
              hsh.1.trans (should_record_write_false_of_not ctxOpt hncap)
            rw [← hc]
            simp only [hs, Bool.false_eq_true, if_false]
            exact hsh.2
  · -- delete_record
    intro f' lt' c' hok
    have hsh := lockPhase_shape ctxOpt lt (write_lockIds f.name rid)
    rcases hlp : lockPhase ctxOpt lt (write_lockIds f.name rid) with ⟨lr, c2, lt2⟩
    rw [hlp] at hsh
    unfold delete_record at hok
    rw [hlp] at hok
    cases lr with
    | error e => simp at hok
    | ok v =>
      dsimp only at hok
      split at hok
      · simp at hok
      · split at hok
        · simp at hok
        · simp only [Prod.mk.injEq] at hok
          obtain ⟨-, -, -, hc⟩ := hok
          constructor
          · intro hcap
            have hs : should_record_write c2 = true := by
              rw [hsh.1, should_record_write_iff]; exact hcap
            rw [← hc]
            simp only [hs, if_true]
            rw [ctxWS_append c2 _ hs, hsh.2]
          · intro hncap
            have hs : should_record_write c2 = false :=
              hsh.1.trans (should_record_write_false_of_not ctxOpt hncap)
            rw [← hc]
            simp only [hs, Bool.false_eq_true, if_false]
            exact hsh.2
  · -- update_record
    intro f' lt' c' hok
    have hsh := lockPhase_shape ctxOpt lt (write_lockIds f.name rid)
    rcases hlp : lockPhase ctxOpt lt (write_lockIds f.name rid) with ⟨lr, c2, lt2⟩
    rw [hlp] at hsh
    unfold update_record at hok
    rw [hlp] at hok
    cases lr with
    | error e => simp at hok
    | ok v =>
      dsimp only at hok
      split at hok
      · simp at hok
      · split at hok
        · simp at hok
        · simp only [Prod.mk.injEq] at hok
          obtain ⟨-, -, -, hc⟩ := hok
          constructor
          · intro hcap
            have hs : should_record_write c2 = true := by
              rw [hsh.1, should_record_write_iff]; exact hcap
            rw [← hc]
            simp only [hs, if_true]
            rw [ctxWS_append c2 _ hs, hsh.2]
          · intro hncap
            have hs : should_record_write c2 = false :=
              hsh.1.trans (should_record_write_false_of_not ctxOpt hncap)
            rw [← hc]
            simp only [hs, Bool.false_eq_true, if_false]
            exact hsh.2

/-- Witness for C2 at a concrete delete: a GROWING transaction deleting
slot (1,0) whose payload is the byte 5 captures exactly one DELETE_TUPLE
with that before-image. -/
theorem claim_C2_witness :
    ctxWS (delete_record ⟨"t", 1, 2, 1, [⟨1, RM_NO_PAGE, [true, false], [[5], [0]]⟩]⟩ []
        (some ⟨some ⟨1, .GROWING, [], []⟩, true⟩) ⟨1, 0⟩).2.2.2
      = ctxWS (some ⟨some ⟨1, .GROWING, [], []⟩, true⟩)
        ++ [.DELETE_TUPLE "t" ⟨1, 0⟩ [5]] := by
  have h := ((claim_C2 ⟨"t", 1, 2, 1, [⟨1, RM_NO_PAGE, [true, false], [[5], [0]]⟩]⟩ []
      (some ⟨some ⟨1, .GROWING, [], []⟩, true⟩) ⟨1, 0⟩ []).2.1 _ _ _ rfl).1
      ⟨_, _, rfl, rfl, rfl⟩
  exact h

/-- C9: for a rid whose page number is in data-page range and an otherwise
untroubled locking prologue, get_record, delete_record and update_record
throw RecordNotFound exactly when the rid's slot bit is clear, and when
they throw this way the file — bitmap, record count, slot payloads and
free list — is returned unchanged. -/
theorem claim_C9 (f : RmFile) (lt : LockTable) (ctxOpt : Option Ctx) (rid : Rid)
    (hp : f.fetch_ok rid.page_no = true)
    (hg : ∃ c2 lt2, lockPhase ctxOpt lt (get_record_lockIds f.name rid) = (.ok (), c2, lt2))
    (hw : ∃ c2 lt2, lockPhase ctxOpt lt (write_lockIds f.name rid) = (.ok (), c2, lt2)) :
    (((get_record f lt ctxOpt rid).1 = .error (.RecordNotFound rid.page_no rid.slot_no)
        ↔ Bitmap.is_set (f.getPage rid.page_no).bitmap rid.slot_no = false)
      ∧ (get_record f lt ctxOpt rid).2.1 = f)
    ∧ (((delete_record f lt ctxOpt rid).1 = .error (.RecordNotFound rid.page_no rid.slot_no)
        ↔ Bitmap.is_set (f.getPage rid.page_no).bitmap rid.slot_no = false)
      ∧ (Bitmap.is_set (f.getPage rid.page_no).bitmap rid.slot_no = false →
          (delete_record f lt ctxOpt rid).2.1 = f))
    ∧ (∀ buf,
        ((update_record f lt ctxOpt rid buf).1
            = .error (.RecordNotFound rid.page_no rid.slot_no)
          ↔ Bitmap.is_set (f.getPage rid.page_no).bitmap rid.slot_no = false)
        ∧ (Bitmap.is_set (f.getPage rid.page_no).bitmap rid.slot_no = false →
            (update_record f lt ctxOpt rid buf).2.1 = f)) := by
  obtain ⟨cg, ltg, hlpg⟩ := hg
  obtain ⟨cw, ltw, hlpw⟩ := hw
  refine ⟨?_, ?_, ?_⟩
  · unfold get_record
    rw [hlpg]
    dsimp only
    by_cases hb : Bitmap.is_set (f.getPage rid.page_no).bitmap rid.slot_no <;>
      simp [hp, hb]
  · unfold delete_record
    rw [hlpw]
    dsimp only
    by_cases hb : Bitmap.is_set (f.getPage rid.page_no).bitmap rid.slot_no <;>
      simp [hp, hb]
  · intro buf
    unfold update_record
    rw [hlpw]
    dsimp only
    by_cases hb : Bitmap.is_set (f.getPage rid.page_no).bitmap rid.slot_no <;>
      simp [hp, hb]

/-- Witness for C9 at a concrete file whose slot (1,1) is clear. -/
theorem claim_C9_witness :
    (((get_record ⟨"t", 1, 2, 1, [⟨1, RM_NO_PAGE, [true, false], [[7], [0]]⟩]⟩ [] none
          ⟨1, 1⟩).1 = .error (.RecordNotFound 1 1)
        ↔ Bitmap.is_set
            ((⟨"t", 1, 2, 1, [⟨1, RM_NO_PAGE, [true, false], [[7], [0]]⟩]⟩ :
              RmFile).getPage 1).bitmap 1 = false)
      ∧ (get_record ⟨"t", 1, 2, 1, [⟨1, RM_NO_PAGE, [true, false], [[7], [0]]⟩]⟩ [] none
          ⟨1, 1⟩).2.1 = ⟨"t", 1, 2, 1, [⟨1, RM_NO_PAGE, [true, false], [[7], [0]]⟩]⟩)
    ∧ (((delete_record ⟨"t", 1, 2, 1, [⟨1, RM_NO_PAGE, [true, false], [[7], [0]]⟩]⟩ [] none
          ⟨1, 1⟩).1 = .error (.RecordNotFound 1 1)
        ↔ Bitmap.is_set
            ((⟨"t", 1, 2, 1, [⟨1, RM_NO_PAGE, [true, false], [[7], [0]]⟩]⟩ :
              RmFile).getPage 1).bitmap 1 = false)
      ∧ (Bitmap.is_set
            ((⟨"t", 1, 2, 1, [⟨1, RM_NO_PAGE, [true, false], [[7], [0]]⟩]⟩ :
              RmFile).getPage 1).bitmap 1 = false →
          (delete_record ⟨"t", 1, 2, 1, [⟨1, RM_NO_PAGE, [true, false], [[7], [0]]⟩]⟩ [] none
            ⟨1, 1⟩).2.1 = ⟨"t", 1, 2, 1, [⟨1, RM_NO_PAGE, [true, false], [[7], [0]]⟩]⟩))
    ∧ (∀ buf,
        ((update_record ⟨"t", 1, 2, 1, [⟨1, RM_NO_PAGE, [true, false], [[7], [0]]⟩]⟩ [] none
            ⟨1, 1⟩ buf).1 = .error (.RecordNotFound 1 1)
          ↔ Bitmap.is_set
              ((⟨"t", 1, 2, 1, [⟨1, RM_NO_PAGE, [true, false], [[7], [0]]⟩]⟩ :
                RmFile).getPage 1).bitmap 1 = false)
        ∧ (Bitmap.is_set
              ((⟨"t", 1, 2, 1, [⟨1, RM_NO_PAGE, [true, false], [[7], [0]]⟩]⟩ :
                RmFile).getPage 1).bitmap 1 = false →
            (update_record ⟨"t", 1, 2, 1, [⟨1, RM_NO_PAGE, [true, false], [[7], [0]]⟩]⟩ []
              none ⟨1, 1⟩ buf).2.1
              = ⟨"t", 1, 2, 1, [⟨1, RM_NO_PAGE, [true, false], [[7], [0]]⟩]⟩)) :=
  claim_C9 ⟨"t", 1, 2, 1, [⟨1, RM_NO_PAGE, [true, false], [[7], [0]]⟩]⟩ [] none ⟨1, 1⟩
    rfl ⟨none, [], rfl⟩ ⟨none, [], rfl⟩

/-! ## Heap invariants (claim C5)

popcount faithfulness, record-count bound and free-list membership.  The
free list is the chain threaded through next_free_page_no starting at
first_free_page_no; it is computed with fuel, one unit per visited page
plus one for the terminating sentinel. -/

/-- popcount of a bitmap. -/
def countTrue : List Bool → Nat
  | [] => 0
  | b :: rest => (cond b 1 0) + countTrue rest

/-- Whether the data page with the given page_no is full. -/
def RmFile.isFull (f : RmFile) (p : Nat) : Bool :=
  (f.getPage p).num_records = f.num_records_per_page

/-- next_free_page_no of the data page with the given page_no. -/
def RmFile.nextOf (f : RmFile) (p : Nat) : Int :=
  (f.getPage p).next_free_page_no

/-- Follow the free-page chain for at most fuel steps, collecting page
numbers; none means the chain left the valid range or did not terminate. -/
def chain (f : RmFile) : Int → Nat → Option (List Nat)
  | _, 0 => none
  | q, fuel + 1 =>
    if q = RM_NO_PAGE then some []
    else if 1 ≤ q ∧ q ≤ (f.pages.length : Int) then
      match chain f (f.nextOf q.toNat) fuel with
      | none => none
      | some l => some (q.toNat :: l)
    else none

/-- The free list of the file, computed with enough fuel for any duplicate
free chain over the file's pages. -/
def RmFile.freeChain (f : RmFile) : Option (List Nat) :=
  chain f f.first_free_page_no (f.pages.length + 1)

/-- The free list is a duplicate-free list of valid non-full pages
containing every non-full page: the spec's P2 (free-list membership) plus
the structural facts needed for it to be stable. -/
structure FreeListWF (f : RmFile) (L : List Nat) : Prop where
  chain_eq : f.freeChain = some L
  nodup : L.Nodup
  mem_valid : ∀ p ∈ L, 1 ≤ p ∧ p ≤ f.pages.length
  mem_not_full : ∀ p ∈ L, f.isFull p = false
  not_full_mem : ∀ p, 1 ≤ p → p ≤ f.pages.length → f.isFull p = false → p ∈ L

/-- Structural page well-formedness: bitmap and slot array sized to
num_records_per_page, slots holding record_size bytes. -/
def RmFile.WFpages (f : RmFile) : Prop :=
  ∀ pg ∈ f.pages,
    pg.bitmap.length = f.num_records_per_page
    ∧ pg.slots.length = f.num_records_per_page
    ∧ ∀ s ∈ pg.slots, s.length = f.record_size

/-- Invariant I1: popcount(bitmap) = num_records on every data page. -/
def RmFile.I1 (f : RmFile) : Prop :=
  ∀ pg ∈ f.pages, countTrue pg.bitmap = pg.num_records

/-- Invariant I2: num_records ≤ num_records_per_page on every data page. -/
def RmFile.I2 (f : RmFile) : Prop :=
  ∀ pg ∈ f.pages, pg.num_records ≤ f.num_records_per_page

/-- The heap invariant of claim C5 (plus the structural sizing it rests
on): I1, I2, and free-list membership exactly for the non-full pages. -/
def RmFile.Inv (f : RmFile) : Prop :=
  f.WFpages ∧ f.I1 ∧ f.I2 ∧ ∃ L, FreeListWF f L

/-! ### List helper lemmas -/

theorem lGetD_set_self {α : Type} (l : List α) (i : Nat) (a d : α) (h : i < l.length) :
    (l.set i a).getD i d = a := by
  induction l generalizing i with
  | nil => simp at h
  | cons x xs ih =>
    cases i with
    | zero => rfl
    | succ j =>
      simp only [List.set_cons_succ, List.getD_cons_succ]
      exact ih j (by simpa using h)

theorem lGetD_set_ne {α : Type} (l : List α) (i j : Nat) (a d : α) (h : i ≠ j) :
    (l.set i a).getD j d = l.getD j d := by
  induction l generalizing i j with
  | nil => simp [List.set]
  | cons x xs ih =>
    cases i with
    | zero =>
      cases j with
      | zero => exact absurd rfl h
      | succ j2 => rfl
    | succ i2 =>
      cases j with
      | zero => rfl
      | succ j2 =>
        simp only [List.set_cons_succ, List.getD_cons_succ]
        exact ih i2 j2 (fun he => h (by rw [he]))

theorem lGetD_append_left {α : Type} (l l2 : List α) (i : Nat) (d : α) (h : i < l.length) :
    (l ++ l2).getD i d = l.getD i d := by
  induction l generalizing i with
  | nil => simp at h
  | cons x xs ih =>
    cases i with
    | zero => rfl
    | succ j =>
      simp only [List.cons_append, List.getD_cons_succ]
      exact ih j (by simpa using h)

theorem lGetD_append_length {α : Type} (l : List α) (a d : α) :
    (l ++ [a]).getD l.length d = a := by
  induction l with
  | nil => rfl
  | cons x xs ih => simp [ih]

theorem countTrue_le_length (bm : List Bool) : countTrue bm ≤ bm.length := by
  induction bm with
  | nil => exact Nat.le_refl 0
  | cons b rest ih =>
    cases b <;> simp [countTrue] <;> omega

theorem countTrue_set_true (bm : List Bool) (i : Nat) (hi : i < bm.length)
    (hb : bm.getD i false = false) :
    countTrue (bm.set i true) = countTrue bm + 1 := by
  induction bm generalizing i with
  | nil => simp at hi
  | cons x xs ih =>
    cases i with
    | zero =>
      simp only [List.getD_cons_zero] at hb
      subst hb
      simp only [List.set_cons_zero, countTrue, cond_true, cond_false]
      omega
    | succ j =>
      simp only [List.getD_cons_succ] at hb
      simp only [List.set_cons_succ, countTrue]
      rw [ih j (by simpa using hi) hb]
      omega

theorem countTrue_set_false (bm : List Bool) (i : Nat) (hb : bm.getD i false = true) :
    countTrue (bm.set i false) + 1 = countTrue bm := by
  induction bm generalizing i with
  | nil => simp [List.getD] at hb
  | cons x xs ih =>
    cases i with
    | zero =>
      simp only [List.getD_cons_zero] at hb
      subst hb
      simp only [List.set_cons_zero, countTrue, cond_true, cond_false]
      omega
    | succ j =>
      simp only [List.getD_cons_succ] at hb
      simp only [List.set_cons_succ, countTrue]
      rw [← ih j hb]
      omega

theorem is_set_lt (bm : List Bool) (i : Nat) (h : Bitmap.is_set bm i = true) :
    i < bm.length := by
  induction bm generalizing i with
  | nil => simp [Bitmap.is_set, List.getD] at h
  | cons x xs ih =>
    cases i with
    | zero => simp
    | succ j =>
      simp only [Bitmap.is_set, List.getD_cons_succ] at h
      simpa using ih j h

theorem countTrue_lt_of_clear (bm : List Bool) (i : Nat) (hi : i < bm.length)
    (hb : bm.getD i false = false) : countTrue bm < bm.length := by
  induction bm generalizing i with
  | nil => simp at hi
  | cons x xs ih =>
    cases i with
    | zero =>
      simp only [List.getD_cons_zero] at hb
      subst hb
      have := countTrue_le_length xs
      simp [countTrue]
      omega
    | succ j =>
      simp only [List.getD_cons_succ] at hb
      have := ih j (by simpa using hi) hb
      cases x <;> simp [countTrue] <;> omega

theorem memcpyBytes_length (n : Nat) (src : List Nat) : (memcpyBytes n src).length = n := by
  simp [memcpyBytes]

theorem firstClearIn_spec (bm : List Bool) (l : List Nat) (i : Nat)
    (h : firstClearIn bm l = some i) : i ∈ l ∧ Bitmap.is_set bm i = false := by
  induction l with
  | nil => simp [firstClearIn] at h
  | cons x rest ih =>
    unfold firstClearIn at h
    split at h
    · obtain ⟨hm, hb⟩ := ih h
      exact ⟨List.mem_cons_of_mem x hm, hb⟩
    · rename_i hset
      have hxi : x = i := by injection h
      subst hxi
      exact ⟨List.mem_cons_self _ _, by simpa using hset⟩

theorem first_bit_clear_spec (bm : List Bool) (n : Nat)
    (h : Bitmap.first_bit_clear bm n ≠ n) :
    Bitmap.first_bit_clear bm n < n
    ∧ Bitmap.is_set bm (Bitmap.first_bit_clear bm n) = false := by
  cases hf : firstClearIn bm (List.range n) with
  | none =>
    exfalso
    apply h
    unfold Bitmap.first_bit_clear
    rw [hf]
    rfl
  | some i =>
    obtain ⟨hm, hb⟩ := firstClearIn_spec bm (List.range n) i hf
    have he : Bitmap.first_bit_clear bm n = i := by
      unfold Bitmap.first_bit_clear
      rw [hf]
      rfl
    rw [he]
    exact ⟨List.mem_range.mp hm, hb⟩

/-! ### Small arithmetic facts

Proved once so the page-level proofs below can cite them by name instead of
re-deriving them inside large contexts. -/

theorem int_natCast_ne_no_page (p : Nat) (_hp : 1 ≤ p) : ¬((p : Int) = RM_NO_PAGE) := by
  unfold RM_NO_PAGE
  exact fun hc => Int.noConfusion hc

theorem int_natCast_range (p n : Nat) (hp1 : 1 ≤ p) (hp2 : p ≤ n) :
    1 ≤ (p : Int) ∧ (p : Int) ≤ (n : Int) :=
  ⟨Int.ofNat_le.mpr hp1, Int.ofNat_le.mpr hp2⟩

theorem int_toNat_natCast (p : Nat) : ((p : Int)).toNat = p := rfl

theorem toNat_bounds (q : Int) (len : Nat) (h : 1 ≤ q ∧ q ≤ (len : Int)) :
    1 ≤ q.toNat ∧ q.toNat ≤ len := by omega

theorem pred_ne_pred (p q : Nat) (hp : 1 ≤ p) (hq : 1 ≤ q) (h : p ≠ q) :
    p - 1 ≠ q - 1 := fun hc =>
  h (((Nat.succ_pred_eq_of_pos hp).symm.trans
    (congrArg Nat.succ hc)).trans (Nat.succ_pred_eq_of_pos hq))

theorem pred_lt_of_le (p n : Nat) (hp : 1 ≤ p) (h : p ≤ n) : p - 1 < n :=
  Nat.lt_of_lt_of_le (Nat.pred_lt (Nat.one_le_iff_ne_zero.mp hp)) h

theorem eq_pred_of_succ_eq (a b n : Nat) (h : a + 1 = b) (hb : b = n) : a = n - 1 := by
  rw [← hb, ← h, Nat.add_sub_cancel]

theorem pred_eq_iff_of_ne (n m : Nat) (hle : n ≤ m) (hne : n ≠ m) :
    (n - 1 = m ↔ n = m) :=
  ⟨fun hc => absurd hc (Nat.ne_of_lt (Nat.lt_of_le_of_lt (Nat.sub_le n 1)
      (Nat.lt_of_le_of_ne hle hne))),
   fun hc => absurd hc hne⟩

theorem succ_eq_iff_of_lt (n m : Nat) (h : n < m) (hne : n + 1 ≠ m) :
    (n + 1 = m ↔ n = m) :=
  ⟨fun hc => absurd hc hne, fun hc => absurd hc (Nat.ne_of_lt h)⟩

theorem sub_one_ne_of_eq_pos (n m : Nat) (h : n = m) (hm : 0 < m) : n - 1 ≠ m := by
  subst h
  exact Nat.ne_of_lt (Nat.pred_lt (Nat.pos_iff_ne_zero.mp hm))

theorem le_pred_of_le (n m : Nat) (h : n ≤ m) : n - 1 ≤ m :=
  Nat.le_trans (Nat.sub_le n 1) h

theorem not_out_of_range (p n : Nat) (h1 : 1 ≤ p) (h2 : p ≤ n) :
    ¬ (p ≤ 0 ∨ p ≥ n + 1) := fun hc =>
  hc.elim (fun h0 => Nat.not_succ_le_zero 0 (Nat.le_trans h1 h0))
    (fun hg => Nat.not_succ_le_self n (Nat.le_trans hg h2))

theorem bitmap_set_length (bm : List Bool) (i : Nat) :
    (Bitmap.set bm i).length = bm.length := by
  simp [Bitmap.set]

theorem bitmap_reset_length (bm : List Bool) (i : Nat) :
    (Bitmap.reset bm i).length = bm.length := by
  simp [Bitmap.reset]

theorem writeSlot_slots_length (pg : RmPage) (rs s : Nat) (buf : List Nat) :
    ((pg.writeSlot rs s buf).slots).length = pg.slots.length := by
  simp [RmPage.writeSlot]

theorem replicate_false_set_length (per slot : Nat) :
    (Bitmap.set (List.replicate per false) slot).length = per := by
  simp [Bitmap.set]

theorem replicate_set_length {α : Type} (per : Nat) (d : α) (slot : Nat) (v : α) :
    ((List.replicate per d).set slot v).length = per := by
  simp

/-! ### Chain lemmas -/

theorem chain_congr (f f2 : RmFile) (avoid : Nat)
    (hlen : f2.pages.length = f.pages.length)
    (hnext : ∀ p, 1 ≤ p → p ≤ f.pages.length → p ≠ avoid → f2.nextOf p = f.nextOf p) :
    ∀ fuel q L, chain f q fuel = some L → avoid ∉ L → chain f2 q fuel = some L := by
  intro fuel
  induction fuel with
  | zero => intro q L h; simp [chain] at h
  | succ k ih =>
    intro q L h hav
    unfold chain at h ⊢
    rw [hlen]
    split at h
    · rename_i hq0
      cases h
      rw [if_pos hq0]
    · rename_i hq0
      rw [if_neg hq0]
      split at h
      · rename_i hqv
        rw [if_pos hqv]
        cases hc : chain f (f.nextOf q.toNat) k with
        | none => rw [hc] at h; cases h
        | some l =>
          rw [hc] at h
          cases h
          have hmem : avoid ∉ l := fun hm => hav (List.mem_cons_of_mem _ hm)
          have hne : q.toNat ≠ avoid := fun he => hav (he ▸ List.mem_cons_self _ _)
          have hv := toNat_bounds q f.pages.length hqv
          rw [hnext q.toNat hv.1 hv.2 hne, ih (f.nextOf q.toNat) l hc hmem]
      · cases h

theorem chain_fuel_succ (f : RmFile) :
    ∀ fuel q L, chain f q fuel = some L → chain f q (fuel + 1) = some L := by
  intro fuel
  induction fuel with
  | zero => intro q L h; simp [chain] at h
  | succ k ih =>
    intro q L h
    unfold chain at h
    split at h
    · cases h
      rename_i hq0
      unfold chain
      rw [if_pos hq0]
    · rename_i hq0
      split at h
      · rename_i hqv
        cases hc : chain f (f.nextOf q.toNat) k with
        | none => rw [hc] at h; cases h
        | some l =>
          rw [hc] at h
          cases h
          unfold chain
          rw [if_neg hq0, if_pos hqv, ih (f.nextOf q.toNat) l hc]
      · cases h

theorem chain_fuel_mono (f : RmFile) (fuel fuel2 : Nat) (q : Int) (L : List Nat)
    (h : chain f q fuel = some L) (hle : fuel ≤ fuel2) : chain f q fuel2 = some L := by
  induction fuel2 with
  | zero =>
    have : fuel = 0 := Nat.le_zero.mp hle
    subst this
    exact h
  | succ k ih =>
    rcases Nat.lt_or_ge fuel (k + 1) with hlt | hge
    · exact chain_fuel_succ f k q L (ih (Nat.lt_succ_iff.mp hlt))
    · have : fuel = k + 1 := Nat.le_antisymm hle hge
      subst this
      exact h

theorem chain_fuel_exact (f : RmFile) :
    ∀ fuel q L, chain f q fuel = some L → chain f q (L.length + 1) = some L := by
  intro fuel
  induction fuel with
  | zero => intro q L h; simp [chain] at h
  | succ k ih =>
    intro q L h
    unfold chain at h
    split at h
    · cases h
      rename_i hq0
      unfold chain
      rw [if_pos hq0]
    · rename_i hq0
      split at h
      · rename_i hqv
        cases hc : chain f (f.nextOf q.toNat) k with
        | none => rw [hc] at h; cases h
        | some l =>
          rw [hc] at h
          cases h
          unfold chain
          rw [if_neg hq0, if_pos hqv]
          simp only [List.length_cons]
          rw [ih (f.nextOf q.toNat) l hc]
      · cases h

/-- A duplicate-free list of valid pages avoiding one valid page is
strictly shorter than the page count. -/
theorem nodup_length_lt (L : List Nat) (len p : Nat) (hnd : L.Nodup)
    (hv : ∀ q ∈ L, 1 ≤ q ∧ q ≤ len) (hp1 : 1 ≤ p) (hpl : p ≤ len) (hnp : p ∉ L) :
    L.length < len := by
  have hsub : L.toFinset ⊆ (Finset.Icc 1 len).erase p := by
    intro q hq
    rw [List.mem_toFinset] at hq
    rw [Finset.mem_erase, Finset.mem_Icc]
    exact ⟨fun he => hnp (he ▸ hq), hv q hq⟩
  have hcard := Finset.card_le_card hsub
  rw [List.toFinset_card_of_nodup hnd] at hcard
  rw [Finset.card_erase_of_mem (by rw [Finset.mem_Icc]; exact ⟨hp1, hpl⟩)] at hcard
  rw [Nat.card_Icc] at hcard
  omega

theorem lGetD_mem {α : Type} (l : List α) (i : Nat) (d : α) (h : i < l.length) :
    l.getD i d ∈ l := by
  induction l generalizing i with
  | nil => simp at h
  | cons x xs ih =>
    cases i with
    | zero => exact List.mem_cons_self _ _
    | succ j => exact List.mem_cons_of_mem _ (ih j (by simpa using h))

theorem mem_of_mem_set {α : Type} (l : List α) (i : Nat) (b a : α) (h : a ∈ l.set i b) :
    a ∈ l ∨ a = b := by
  induction l generalizing i with
  | nil => simp at h
  | cons x xs ih =>
    cases i with
    | zero =>
      rcases List.mem_cons.mp h with h1 | h1
      · exact Or.inr h1
      · exact Or.inl (List.mem_cons_of_mem _ h1)
    | succ j =>
      rcases List.mem_cons.mp h with h1 | h1
      · exact Or.inl (h1 ▸ List.mem_cons_self _ _)
      · rcases ih j h1 with h2 | h2
        · exact Or.inl (List.mem_cons_of_mem _ h2)
        · exact Or.inr h2

theorem getPage_mem (f : RmFile) (p : Nat) (h1 : 1 ≤ p) (h2 : p ≤ f.pages.length) :
    f.getPage p ∈ f.pages :=
  lGetD_mem _ _ _ (pred_lt_of_le p f.pages.length h1 h2)

theorem setPage_pages (f : RmFile) (p : Nat) (pg : RmPage) :
    (f.setPage p pg).pages = f.pages.set (p - 1) pg := rfl

theorem setPage_length (f : RmFile) (p : Nat) (pg : RmPage) :
    (f.setPage p pg).pages.length = f.pages.length := by
  simp [RmFile.setPage]

theorem getPage_setPage_self (f : RmFile) (p : Nat) (pg : RmPage) (h1 : 1 ≤ p)
    (h2 : p ≤ f.pages.length) : (f.setPage p pg).getPage p = pg :=
  lGetD_set_self _ _ _ _ (pred_lt_of_le p f.pages.length h1 h2)

theorem getPage_setPage_ne (f : RmFile) (p q : Nat) (pg : RmPage) (h1 : 1 ≤ p)
    (hq : 1 ≤ q) (hne : p ≠ q) : (f.setPage p pg).getPage q = f.getPage q :=
  lGetD_set_ne _ _ _ _ _ (pred_ne_pred p q h1 hq hne)

/-- A page-local rewrite that keeps the page header's next pointer, the
fullness status and the file header preserves the whole invariant: the free
chain is untouched and memberships carry over page by page. -/
theorem setPage_local_Inv (f : RmFile) (p : Nat) (pg2 : RmPage)
    (hp1 : 1 ≤ p) (hp2 : p ≤ f.pages.length) (hInv : f.Inv)
    (hbm : pg2.bitmap.length = f.num_records_per_page)
    (hsl : pg2.slots.length = f.num_records_per_page)
    (hsb : ∀ s ∈ pg2.slots, s.length = f.record_size)
    (hcount : countTrue pg2.bitmap = pg2.num_records)
    (hle : pg2.num_records ≤ f.num_records_per_page)
    (hnext : pg2.next_free_page_no = (f.getPage p).next_free_page_no)
    (hfull : pg2.num_records = f.num_records_per_page
      ↔ (f.getPage p).num_records = f.num_records_per_page) :
    (f.setPage p pg2).Inv := by
  obtain ⟨hWF, hI1, hI2, L, hFL⟩ := hInv
  have hlen := setPage_length f p pg2
  refine ⟨?_, ?_, ?_, L, ?_, hFL.nodup, ?_, ?_, ?_⟩
  · intro pg hm
    rcases mem_of_mem_set _ _ _ _ hm with hm1 | hm1
    · exact hWF pg hm1
    · subst hm1; exact ⟨hbm, hsl, hsb⟩
  · intro pg hm
    rcases mem_of_mem_set _ _ _ _ hm with hm1 | hm1
    · exact hI1 pg hm1
    · subst hm1; exact hcount
  · intro pg hm
    rcases mem_of_mem_set _ _ _ _ hm with hm1 | hm1
    · exact hI2 pg hm1
    · subst hm1; exact hle
  · -- chain is unchanged
    unfold RmFile.freeChain
    rw [hlen]
    have hfirst : (f.setPage p pg2).first_free_page_no = f.first_free_page_no := rfl
    rw [hfirst]
    refine chain_congr f (f.setPage p pg2) 0 hlen ?_ _ _ _ hFL.chain_eq ?_
    · intro q hq1 hq2 _
      by_cases hqp : p = q
      · subst hqp
        unfold RmFile.nextOf
        rw [getPage_setPage_self f p pg2 hp1 hp2, hnext]
      · unfold RmFile.nextOf
        rw [getPage_setPage_ne f p q pg2 hp1 hq1 hqp]
    · intro h0
      exact absurd (hFL.mem_valid 0 h0).1 (by decide)
  · intro q hq
    rw [hlen]
    exact hFL.mem_valid q hq
  · intro q hq
    have hv := hFL.mem_valid q hq
    by_cases hqp : p = q
    · subst hqp
      have := hFL.mem_not_full p hq
      unfold RmFile.isFull at this ⊢
      rw [getPage_setPage_self f p pg2 hp1 hp2]
      simp only [decide_eq_false_iff_not] at this ⊢
      exact fun hc => this (hfull.mp hc)
    · have := hFL.mem_not_full q hq
      unfold RmFile.isFull at this ⊢
      rw [getPage_setPage_ne f p q pg2 hp1 hv.1 hqp]
      exact this
  · intro q hq1 hq2 hnf
    rw [hlen] at hq2
    by_cases hqp : p = q
    · subst hqp
      refine hFL.not_full_mem p hq1 hq2 ?_
      unfold RmFile.isFull at hnf ⊢
      rw [getPage_setPage_self f p pg2 hp1 hp2] at hnf
      simp only [decide_eq_false_iff_not] at hnf ⊢
      exact fun hc => hnf (hfull.mpr hc)
    · refine hFL.not_full_mem q hq1 hq2 ?_
      unfold RmFile.isFull at hnf ⊢
      rw [getPage_setPage_ne f p q pg2 hp1 hq1 hqp] at hnf
      exact hnf

theorem fetch_ok_bounds (f : RmFile) (p : Nat) (h : f.fetch_ok p = true) :
    1 ≤ p ∧ p ≤ f.pages.length := by
  simp only [RmFile.fetch_ok, RmFile.num_pages, Bool.and_eq_true, decide_eq_true_eq] at h
  omega

theorem update_record_ok_inv (f : RmFile) (lt : LockTable) (c : Option Ctx) (rid : Rid)
    (buf : List Nat) (f' : RmFile) (lt' : LockTable) (c' : Option Ctx)
    (h : update_record f lt c rid buf = (.ok (), f', lt', c')) :
    f.fetch_ok rid.page_no = true
    ∧ Bitmap.is_set (f.getPage rid.page_no).bitmap rid.slot_no = true
    ∧ f' = f.setPage rid.page_no
        ((f.getPage rid.page_no).writeSlot f.record_size rid.slot_no buf) := by
  rcases hlp : lockPhase c lt (write_lockIds f.name rid) with ⟨lr, c2, lt2⟩
  unfold update_record at h
  rw [hlp] at h
  cases lr with
  | error e => simp at h
  | ok v =>
    dsimp only at h
    split at h
    · simp at h
    · rename_i hfetch
      split at h
      · simp at h
      · rename_i hbit
        simp only [Prod.mk.injEq] at h
        obtain ⟨-, hf, -, -⟩ := h
        exact ⟨by simpa using hfetch, by simpa using hbit, hf.symm⟩

/-- update_record preserves the heap invariant. -/
theorem update_record_Inv (f : RmFile) (lt : LockTable) (c : Option Ctx) (rid : Rid)
    (buf : List Nat) (f' : RmFile) (lt' : LockTable) (c' : Option Ctx)
    (hInv : f.Inv) (h : update_record f lt c rid buf = (.ok (), f', lt', c')) :
    f'.Inv := by
  obtain ⟨hfetch, hbit, hf⟩ := update_record_ok_inv f lt c rid buf f' lt' c' h
  subst hf
  obtain ⟨hp1, hp2⟩ := fetch_ok_bounds f rid.page_no hfetch
  have hmem := getPage_mem f rid.page_no hp1 hp2
  obtain ⟨hbm, hsl, hsb⟩ := hInv.1 _ hmem
  refine setPage_local_Inv f rid.page_no _ hp1 hp2 hInv ?_ ?_ ?_ ?_ ?_ rfl Iff.rfl
  · exact hbm
  · exact (writeSlot_slots_length _ _ _ _).trans hsl
  · intro s hs
    rcases mem_of_mem_set _ _ _ _ hs with hs1 | hs1
    · exact hsb s hs1
    · rw [hs1]; exact memcpyBytes_length _ _
  · exact hInv.2.1 (f.getPage rid.page_no) hmem
  · exact hInv.2.2.1 (f.getPage rid.page_no) hmem

theorem delete_record_ok_inv (f : RmFile) (lt : LockTable) (c : Option Ctx) (rid : Rid)
    (f' : RmFile) (lt' : LockTable) (c' : Option Ctx)
    (h : delete_record f lt c rid = (.ok (), f', lt', c')) :
    f.fetch_ok rid.page_no = true
    ∧ Bitmap.is_set (f.getPage rid.page_no).bitmap rid.slot_no = true
    ∧ f' = (if (f.getPage rid.page_no).num_records = f.num_records_per_page
            then release_page_handle
                   (f.setPage rid.page_no
                     { f.getPage rid.page_no with
                       bitmap := Bitmap.reset (f.getPage rid.page_no).bitmap rid.slot_no
                       num_records := (f.getPage rid.page_no).num_records - 1 })
                   rid.page_no
            else f.setPage rid.page_no
                   { f.getPage rid.page_no with
                     bitmap := Bitmap.reset (f.getPage rid.page_no).bitmap rid.slot_no
                     num_records := (f.getPage rid.page_no).num_records - 1 }) := by
  rcases hlp : lockPhase c lt (write_lockIds f.name rid) with ⟨lr, c2, lt2⟩
  unfold delete_record at h
  rw [hlp] at h
  cases lr with
  | error e => simp at h
  | ok v =>
    dsimp only at h
    split at h
    · simp at h
    · rename_i hfetch
      split at h
      · simp at h
      · rename_i hbit
        simp only [Prod.mk.injEq] at h
        obtain ⟨-, hf, -, -⟩ := h
        exact ⟨by simpa using hfetch, by simpa using hbit, hf.symm⟩

/-- Putting a page that just left fullness at the head of the free list
preserves the invariant (the delete_record full-to-non-full transition). -/
theorem prepend_free_Inv (f : RmFile) (p : Nat) (pg2 : RmPage)
    (hp1 : 1 ≤ p) (hp2 : p ≤ f.pages.length) (hInv : f.Inv)
    (hbm : pg2.bitmap.length = f.num_records_per_page)
    (hsl : pg2.slots.length = f.num_records_per_page)
    (hsb : ∀ s ∈ pg2.slots, s.length = f.record_size)
    (hcount : countTrue pg2.bitmap = pg2.num_records)
    (hle : pg2.num_records ≤ f.num_records_per_page)
    (hwasfull : (f.getPage p).num_records = f.num_records_per_page)
    (hnotfull : pg2.num_records ≠ f.num_records_per_page)
    (hnext : pg2.next_free_page_no = f.first_free_page_no) :
    (⟨f.name, f.record_size, f.num_records_per_page, ↑p,
      f.pages.set (p - 1) pg2⟩ : RmFile).Inv := by
  obtain ⟨hWF, hI1, hI2, L, hFL⟩ := hInv
  have hpnL : p ∉ L := by
    intro hm
    have := hFL.mem_not_full p hm
    unfold RmFile.isFull at this
    simp only [decide_eq_false_iff_not] at this
    exact this hwasfull
  set g : RmFile := ⟨f.name, f.record_size, f.num_records_per_page, ↑p,
    f.pages.set (p - 1) pg2⟩ with hg
  have hglen : g.pages.length = f.pages.length := by simp [hg]
  have hgget_ne : ∀ q, 1 ≤ q → p ≠ q → g.getPage q = f.getPage q := by
    intro q hq1 hqp
    show (f.pages.set (p - 1) pg2).getD (q - 1) _ = _
    exact lGetD_set_ne _ _ _ _ _ (pred_ne_pred p q hp1 hq1 hqp)
  have hgget_self : g.getPage p = pg2 := by
    show (f.pages.set (p - 1) pg2).getD (p - 1) _ = _
    exact lGetD_set_self _ _ _ _ (pred_lt_of_le p f.pages.length hp1 hp2)
  have hnextg : ∀ q, 1 ≤ q → q ≤ f.pages.length → q ≠ p → g.nextOf q = f.nextOf q := by
    intro q hq1 hq2 hqp
    unfold RmFile.nextOf
    rw [hgget_ne q hq1 (fun he => hqp he.symm)]
  have hchainL : chain g f.first_free_page_no (f.pages.length + 1) = some L :=
    chain_congr f g p hglen hnextg _ _ _ hFL.chain_eq hpnL
  have hLlt : L.length < f.pages.length :=
    nodup_length_lt L f.pages.length p hFL.nodup hFL.mem_valid hp1 hp2 hpnL
  have hchainLfuel : chain g f.first_free_page_no f.pages.length = some L :=
    chain_fuel_mono g _ _ _ _ (chain_fuel_exact g _ _ _ hchainL) (by omega)
  refine ⟨?_, ?_, ?_, p :: L, ?_, ?_, ?_, ?_, ?_⟩
  · intro pg hm
    rcases mem_of_mem_set _ _ _ _ hm with hm1 | hm1
    · exact hWF pg hm1
    · subst hm1; exact ⟨hbm, hsl, hsb⟩
  · intro pg hm
    rcases mem_of_mem_set _ _ _ _ hm with hm1 | hm1
    · exact hI1 pg hm1
    · subst hm1; exact hcount
  · intro pg hm
    rcases mem_of_mem_set _ _ _ _ hm with hm1 | hm1
    · exact hI2 pg hm1
    · subst hm1; exact hle
  · -- the chain of g is p :: L
    show chain g g.first_free_page_no (g.pages.length + 1) = some (p :: L)
    have hfg : g.first_free_page_no = (p : Int) := rfl
    rw [hfg, hglen]
    unfold chain
    rw [hglen]
    rw [if_neg (int_natCast_ne_no_page p hp1),
      if_pos (int_natCast_range p f.pages.length hp1 hp2)]
    rw [int_toNat_natCast p]
    have hng : g.nextOf p = f.first_free_page_no := by
      unfold RmFile.nextOf
      rw [hgget_self, hnext]
    rw [hng, hchainLfuel]
  · exact List.nodup_cons.mpr ⟨hpnL, hFL.nodup⟩
  · intro q hq
    rw [hglen]
    rcases List.mem_cons.mp hq with hq1 | hq1
    · subst hq1; exact ⟨hp1, hp2⟩
    · exact hFL.mem_valid q hq1
  · intro q hq
    rcases List.mem_cons.mp hq with hq1 | hq1
    · subst hq1
      unfold RmFile.isFull
      rw [hgget_self]
      simpa using hnotfull
    · have hv := hFL.mem_valid q hq1
      have hqp : q ≠ p := fun he => hpnL (he ▸ hq1)
      have := hFL.mem_not_full q hq1
      unfold RmFile.isFull at this ⊢
      rw [hgget_ne q hv.1 (fun he => hqp he.symm)]
      exact this
  · intro q hq1 hq2 hnf
    rw [hglen] at hq2
    by_cases hqp : q = p
    · subst hqp; exact List.mem_cons_self _ _
    · refine List.mem_cons_of_mem _ (hFL.not_full_mem q hq1 hq2 ?_)
      unfold RmFile.isFull at hnf ⊢
      rw [hgget_ne q hq1 (fun he => hqp he.symm)] at hnf
      exact hnf

/-- delete_record preserves the heap invariant. -/
theorem delete_record_Inv (f : RmFile) (lt : LockTable) (c : Option Ctx) (rid : Rid)
    (f' : RmFile) (lt' : LockTable) (c' : Option Ctx)
    (hInv : f.Inv) (h : delete_record f lt c rid = (.ok (), f', lt', c')) :
    f'.Inv := by
  obtain ⟨hfetch, hbit, hf⟩ := delete_record_ok_inv f lt c rid f' lt' c' h
  obtain ⟨hp1, hp2⟩ := fetch_ok_bounds f rid.page_no hfetch
  have hmem := getPage_mem f rid.page_no hp1 hp2
  obtain ⟨hbm, hsl, hsb⟩ := hInv.1 _ hmem
  have hcnt := hInv.2.1 _ hmem
  have hslot_lt : rid.slot_no < (f.getPage rid.page_no).bitmap.length :=
    is_set_lt _ _ hbit
  have hcount2 := countTrue_set_false (f.getPage rid.page_no).bitmap rid.slot_no hbit
  subst hf
  split
  · -- the page was full: it is prepended to the free list
    rename_i hwasfull
    have hrel :
        release_page_handle
            (f.setPage rid.page_no
              { f.getPage rid.page_no with
                bitmap := Bitmap.reset (f.getPage rid.page_no).bitmap rid.slot_no
                num_records := (f.getPage rid.page_no).num_records - 1 })
            rid.page_no
          = (⟨f.name, f.record_size, f.num_records_per_page, ↑rid.page_no,
              f.pages.set (rid.page_no - 1)
                { f.getPage rid.page_no with
                  bitmap := Bitmap.reset (f.getPage rid.page_no).bitmap rid.slot_no
                  num_records := (f.getPage rid.page_no).num_records - 1
                  next_free_page_no := f.first_free_page_no }⟩ : RmFile) := by
      unfold release_page_handle
      rw [getPage_setPage_self f rid.page_no _ hp1 hp2]
      show RmFile.mk _ _ _ _ ((f.pages.set _ _).set _ _) = _
      rw [List.set_set]
      rfl
    rw [hrel]
    refine prepend_free_Inv f rid.page_no _ hp1 hp2 hInv ?_ ?_ ?_ ?_ ?_ hwasfull ?_ rfl
    · exact (bitmap_reset_length _ _).trans hbm
    · exact hsl
    · exact hsb
    · show countTrue (Bitmap.reset (f.getPage rid.page_no).bitmap rid.slot_no)
        = (f.getPage rid.page_no).num_records - 1
      exact eq_pred_of_succ_eq _ _ _ hcount2 hcnt
    · show (f.getPage rid.page_no).num_records - 1 ≤ f.num_records_per_page
      exact le_pred_of_le _ _ (Nat.le_of_eq hwasfull)
    · show (f.getPage rid.page_no).num_records - 1 ≠ f.num_records_per_page
      refine sub_one_ne_of_eq_pos _ _ hwasfull ?_
      rw [← hbm]
      exact Nat.lt_of_le_of_lt (Nat.zero_le _) hslot_lt
  · -- the page stays non-full: a purely local change
    rename_i hnotfull
    refine setPage_local_Inv f rid.page_no _ hp1 hp2 hInv ?_ ?_ ?_ ?_ ?_ rfl ?_
    · exact (bitmap_reset_length _ _).trans hbm
    · exact hsl
    · exact hsb
    · show countTrue (Bitmap.reset (f.getPage rid.page_no).bitmap rid.slot_no)
        = (f.getPage rid.page_no).num_records - 1
      exact eq_pred_of_succ_eq _ _ _ hcount2 hcnt
    · show (f.getPage rid.page_no).num_records - 1 ≤ f.num_records_per_page
      exact le_pred_of_le _ _ (hInv.2.2.1 _ hmem)
    · show (f.getPage rid.page_no).num_records - 1 = f.num_records_per_page
        ↔ (f.getPage rid.page_no).num_records = f.num_records_per_page
      exact pred_eq_iff_of_ne _ _ (hInv.2.2.1 _ hmem) hnotfull

theorem set_append_last {α : Type} (l : List α) (a b : α) :
    (l ++ [a]).set l.length b = l ++ [b] := by
  induction l with
  | nil => rfl
  | cons x xs ih => simp [ih]

theorem countTrue_replicate_false (n : Nat) : countTrue (List.replicate n false) = 0 := by
  induction n with
  | zero => rfl
  | succ k ih => simpa [List.replicate, countTrue] using ih

theorem create_page_handle_cases (f f1 : RmFile) (p : Nat)
    (h : create_page_handle f = .ok (f1, p)) :
    (f.first_free_page_no = RM_NO_PAGE ∧ f1 = (create_new_page f).1 ∧ p = f.pages.length + 1)
    ∨ (f.first_free_page_no = (p : Int) ∧ f1 = f ∧ f.fetch_ok p = true) := by
  unfold create_page_handle at h
  split at h
  · rename_i h0
    left
    have h2 : (create_new_page f).1 = f1 ∧ (create_new_page f).2 = p := by
      cases h; exact ⟨rfl, rfl⟩
    exact ⟨h0, h2.1.symm, h2.2 ▸ rfl⟩
  · rename_i h0
    split at h
    · rename_i hf
      right
      have h2 : f1 = f ∧ p = f.first_free_page_no.toNat := by
        cases h; exact ⟨rfl, rfl⟩
      obtain ⟨hf1, hp⟩ := h2
      have hb := fetch_ok_bounds f f.first_free_page_no.toNat hf
      have : f.first_free_page_no = (p : Int) := by omega
      exact ⟨this, hf1, hp ▸ hf⟩
    · cases h

/-- Unlinking the free-list head when writing makes it full preserves the
invariant (the insert_record page-fills-up transition). -/
theorem unlink_head_Inv (f : RmFile) (p : Nat) (pg2 : RmPage)
    (hp1 : 1 ≤ p) (hp2 : p ≤ f.pages.length) (hInv : f.Inv)
    (hbm : pg2.bitmap.length = f.num_records_per_page)
    (hsl : pg2.slots.length = f.num_records_per_page)
    (hsb : ∀ s ∈ pg2.slots, s.length = f.record_size)
    (hcount : countTrue pg2.bitmap = pg2.num_records)
    (hle : pg2.num_records ≤ f.num_records_per_page)
    (hfirst : f.first_free_page_no = (p : Int))
    (hfull2 : pg2.num_records = f.num_records_per_page)
    (hnext : pg2.next_free_page_no = (f.getPage p).next_free_page_no) :
    (⟨f.name, f.record_size, f.num_records_per_page, (f.getPage p).next_free_page_no,
      f.pages.set (p - 1) pg2⟩ : RmFile).Inv := by
  obtain ⟨hWF, hI1, hI2, L, hFL⟩ := hInv
  -- the old chain must start with p
  have hch := hFL.chain_eq
  unfold RmFile.freeChain at hch
  rw [hfirst] at hch
  unfold chain at hch
  rw [if_neg (int_natCast_ne_no_page p hp1),
    if_pos (int_natCast_range p f.pages.length hp1 hp2)] at hch
  rw [int_toNat_natCast p] at hch
  rcases hct : chain f (f.nextOf p) f.pages.length with _ | t
  · rw [hct] at hch; cases hch
  · rw [hct] at hch
    have hLpt : L = p :: t := by
      injection hch with h2
      exact h2.symm
  -- facts about t
    subst hLpt
    have hnodup := List.nodup_cons.mp hFL.nodup
    set g : RmFile := ⟨f.name, f.record_size, f.num_records_per_page,
      (f.getPage p).next_free_page_no, f.pages.set (p - 1) pg2⟩ with hg
    have hglen : g.pages.length = f.pages.length := by simp [hg]
    have hgget_ne : ∀ q, 1 ≤ q → p ≠ q → g.getPage q = f.getPage q := by
      intro q hq1 hqp
      show (f.pages.set (p - 1) pg2).getD (q - 1) _ = _
      exact lGetD_set_ne _ _ _ _ _ (pred_ne_pred p q hp1 hq1 hqp)
    have hgget_self : g.getPage p = pg2 := by
      show (f.pages.set (p - 1) pg2).getD (p - 1) _ = _
      exact lGetD_set_self _ _ _ _ (pred_lt_of_le p f.pages.length hp1 hp2)
    have hnextg : ∀ q, 1 ≤ q → q ≤ f.pages.length → q ≠ p → g.nextOf q = f.nextOf q := by
      intro q hq1 hq2 hqp
      unfold RmFile.nextOf
      rw [hgget_ne q hq1 (fun he => hqp he.symm)]
    have hchaing : chain g (f.nextOf p) f.pages.length = some t :=
      chain_congr f g p hglen hnextg _ _ _ hct hnodup.1
    refine ⟨?_, ?_, ?_, t, ?_, hnodup.2, ?_, ?_, ?_⟩
    · intro pg hm
      rcases mem_of_mem_set _ _ _ _ hm with hm1 | hm1
      · exact hWF pg hm1
      · subst hm1; exact ⟨hbm, hsl, hsb⟩
    · intro pg hm
      rcases mem_of_mem_set _ _ _ _ hm with hm1 | hm1
      · exact hI1 pg hm1
      · subst hm1; exact hcount
    · intro pg hm
      rcases mem_of_mem_set _ _ _ _ hm with hm1 | hm1
      · exact hI2 pg hm1
      · subst hm1; exact hle
    · show chain g g.first_free_page_no (g.pages.length + 1) = some t
      have hfg : g.first_free_page_no = f.nextOf p := rfl
      rw [hfg, hglen]
      exact chain_fuel_succ g _ _ _ hchaing
    · intro q hq
      rw [hglen]
      exact hFL.mem_valid q (List.mem_cons_of_mem _ hq)
    · intro q hq
      have hv := hFL.mem_valid q (List.mem_cons_of_mem _ hq)
      have hqp : q ≠ p := fun he => hnodup.1 (he ▸ hq)
      have := hFL.mem_not_full q (List.mem_cons_of_mem _ hq)
      unfold RmFile.isFull at this ⊢
      rw [hgget_ne q hv.1 (fun he => hqp he.symm)]
      exact this
    · intro q hq1 hq2 hnf
      rw [hglen] at hq2
      by_cases hqp : q = p
      · subst hqp
        unfold RmFile.isFull at hnf
        rw [hgget_self] at hnf
        simp only [decide_eq_false_iff_not] at hnf
        exact absurd hfull2 hnf
      · have hmem : q ∈ p :: t := by
          refine hFL.not_full_mem q hq1 hq2 ?_
          unfold RmFile.isFull at hnf ⊢
          rw [hgget_ne q hq1 (fun he => hqp he.symm)] at hnf
          exact hnf
        rcases List.mem_cons.mp hmem with he | hm
        · exact absurd he hqp
        · exact hm

/-- When the free list is empty, every data page is full. -/
theorem all_full_of_empty_chain (f : RmFile) (L : List Nat) (hFL : FreeListWF f L)
    (hfirst : f.first_free_page_no = RM_NO_PAGE) :
    ∀ q, 1 ≤ q → q ≤ f.pages.length → f.isFull q = true := by
  have hch := hFL.chain_eq
  unfold RmFile.freeChain at hch
  rw [hfirst] at hch
  unfold chain at hch
  rw [if_pos rfl] at hch
  have hL : L = [] := by injection hch with h2; exact h2.symm
  subst hL
  intro q hq1 hq2
  rcases hb : f.isFull q with _ | _
  · exact absurd (hFL.not_full_mem q hq1 hq2 hb) (List.not_mem_nil q)
  · rfl

/-- Appending a full fresh page with an empty free list preserves the
invariant (insert_record allocating a page that immediately fills). -/
theorem append_page_full_Inv (f : RmFile) (pg2 : RmPage) (hInv : f.Inv)
    (hfirst : f.first_free_page_no = RM_NO_PAGE)
    (hbm : pg2.bitmap.length = f.num_records_per_page)
    (hsl : pg2.slots.length = f.num_records_per_page)
    (hsb : ∀ s ∈ pg2.slots, s.length = f.record_size)
    (hcount : countTrue pg2.bitmap = pg2.num_records)
    (hfull2 : pg2.num_records = f.num_records_per_page) :
    (⟨f.name, f.record_size, f.num_records_per_page, RM_NO_PAGE,
      f.pages ++ [pg2]⟩ : RmFile).Inv := by
  obtain ⟨hWF, hI1, hI2, L, hFL⟩ := hInv
  have hallfull := all_full_of_empty_chain f L hFL hfirst
  refine ⟨?_, ?_, ?_, [], ?_, List.nodup_nil, ?_, ?_, ?_⟩
  · intro pg hm
    rcases List.mem_append.mp hm with hm1 | hm1
    · exact hWF pg hm1
    · rw [List.mem_singleton.mp hm1]; exact ⟨hbm, hsl, hsb⟩
  · intro pg hm
    rcases List.mem_append.mp hm with hm1 | hm1
    · exact hI1 pg hm1
    · rw [List.mem_singleton.mp hm1]; exact hcount
  · intro pg hm
    rcases List.mem_append.mp hm with hm1 | hm1
    · exact hI2 pg hm1
    · rw [List.mem_singleton.mp hm1]
      show pg2.num_records ≤ f.num_records_per_page
      exact Nat.le_of_eq hfull2
  · show chain _ RM_NO_PAGE _ = some []
    unfold chain
    rw [if_pos rfl]
  · intro q hq
    exact absurd hq (List.not_mem_nil q)
  · intro q hq
    exact absurd hq (List.not_mem_nil q)
  · intro q hq1 hq2 hnf
    exfalso
    simp only [List.length_append, List.length_singleton] at hq2
    rcases Nat.lt_or_ge q (f.pages.length + 1) with hlt | hge
    · have hq2f : q ≤ f.pages.length := Nat.lt_succ_iff.mp hlt
      have := hallfull q hq1 hq2f
      unfold RmFile.isFull at this hnf
      have hgq : (f.pages ++ [pg2]).getD (q - 1) ⟨0, RM_NO_PAGE, [], []⟩
          = f.pages.getD (q - 1) ⟨0, RM_NO_PAGE, [], []⟩ :=
        lGetD_append_left _ _ _ _ (pred_lt_of_le q f.pages.length hq1 hq2f)
      rw [show (⟨f.name, f.record_size, f.num_records_per_page, RM_NO_PAGE,
        f.pages ++ [pg2]⟩ : RmFile).getPage q
          = f.getPage q from hgq] at hnf
      rw [this] at hnf
      cases hnf
    · have hq2e : q = f.pages.length + 1 := Nat.le_antisymm hq2 hge
      subst hq2e
      unfold RmFile.isFull at hnf
      have hgq : (f.pages ++ [pg2]).getD (f.pages.length + 1 - 1) ⟨0, RM_NO_PAGE, [], []⟩
          = pg2 := by
        simpa using lGetD_append_length f.pages pg2 ⟨0, RM_NO_PAGE, [], []⟩
      rw [show (⟨f.name, f.record_size, f.num_records_per_page, RM_NO_PAGE,
        f.pages ++ [pg2]⟩ : RmFile).getPage (f.pages.length + 1) = pg2 from hgq] at hnf
      simp only [decide_eq_false_iff_not] at hnf
      exact hnf hfull2

/-- Appending a non-full fresh page with an empty free list makes it the
whole free list (insert_record allocating a page that stays non-full). -/
theorem append_page_notfull_Inv (f : RmFile) (pg2 : RmPage) (hInv : f.Inv)
    (hfirst : f.first_free_page_no = RM_NO_PAGE)
    (hbm : pg2.bitmap.length = f.num_records_per_page)
    (hsl : pg2.slots.length = f.num_records_per_page)
    (hsb : ∀ s ∈ pg2.slots, s.length = f.record_size)
    (hcount : countTrue pg2.bitmap = pg2.num_records)
    (hle : pg2.num_records ≤ f.num_records_per_page)
    (hnotfull2 : pg2.num_records ≠ f.num_records_per_page)
    (hnext2 : pg2.next_free_page_no = RM_NO_PAGE) :
    (⟨f.name, f.record_size, f.num_records_per_page, ((f.pages.length + 1 : Nat) : Int),
      f.pages ++ [pg2]⟩ : RmFile).Inv := by
  obtain ⟨hWF, hI1, hI2, L, hFL⟩ := hInv
  have hallfull := all_full_of_empty_chain f L hFL hfirst
  set g : RmFile := ⟨f.name, f.record_size, f.num_records_per_page,
    ((f.pages.length + 1 : Nat) : Int), f.pages ++ [pg2]⟩ with hg
  have hglen : g.pages.length = f.pages.length + 1 := by simp [hg]
  have hgget_old : ∀ q, 1 ≤ q → q ≤ f.pages.length → g.getPage q = f.getPage q := by
    intro q hq1 hq2
    show (f.pages ++ [pg2]).getD (q - 1) _ = _
    exact lGetD_append_left _ _ _ _ (pred_lt_of_le q f.pages.length hq1 hq2)
  have hgget_new : g.getPage (f.pages.length + 1) = pg2 := by
    show (f.pages ++ [pg2]).getD (f.pages.length + 1 - 1) _ = _
    simpa using lGetD_append_length f.pages pg2 _
  refine ⟨?_, ?_, ?_, [f.pages.length + 1], ?_, by simp, ?_, ?_, ?_⟩
  · intro pg hm
    rcases List.mem_append.mp hm with hm1 | hm1
    · exact hWF pg hm1
    · rw [List.mem_singleton.mp hm1]; exact ⟨hbm, hsl, hsb⟩
  · intro pg hm
    rcases List.mem_append.mp hm with hm1 | hm1
    · exact hI1 pg hm1
    · rw [List.mem_singleton.mp hm1]; exact hcount
  · intro pg hm
    rcases List.mem_append.mp hm with hm1 | hm1
    · exact hI2 pg hm1
    · rw [List.mem_singleton.mp hm1]; exact hle
  · show chain g g.first_free_page_no (g.pages.length + 1) = some [f.pages.length + 1]
    have hfg : g.first_free_page_no = ((f.pages.length + 1 : Nat) : Int) := rfl
    rw [hfg, hglen]
    unfold chain
    rw [if_neg (int_natCast_ne_no_page (f.pages.length + 1) (Nat.le_add_left 1 _)),
      if_pos (⟨(int_natCast_range (f.pages.length + 1) (f.pages.length + 1)
          (Nat.le_add_left 1 _) (Nat.le_refl _)).1, by rw [hglen]⟩ :
        1 ≤ ((f.pages.length + 1 : Nat) : Int)
        ∧ ((f.pages.length + 1 : Nat) : Int) ≤ (g.pages.length : Int))]
    rw [int_toNat_natCast (f.pages.length + 1)]
    have hng : g.nextOf (f.pages.length + 1) = RM_NO_PAGE := by
      unfold RmFile.nextOf
      rw [hgget_new, hnext2]
    rw [hng]
    simp [chain]
  · intro q hq
    rw [List.mem_singleton.mp hq, hglen]
    exact ⟨Nat.le_add_left 1 _, Nat.le_refl _⟩
  · intro q hq
    rw [List.mem_singleton.mp hq]
    unfold RmFile.isFull
    rw [hgget_new]
    simpa using hnotfull2
  · intro q hq1 hq2 hnf
    rw [hglen] at hq2
    rcases Nat.lt_or_ge q (f.pages.length + 1) with hlt | hge
    · exfalso
      have hq2f : q ≤ f.pages.length := Nat.lt_succ_iff.mp hlt
      have := hallfull q hq1 hq2f
      unfold RmFile.isFull at this hnf
      rw [hgget_old q hq1 hq2f] at hnf
      rw [this] at hnf
      cases hnf
    · have : q = f.pages.length + 1 := Nat.le_antisymm hq2 hge
      rw [this]
      exact List.mem_singleton.mpr rfl

theorem insert_record_ok_inv (f : RmFile) (lt : LockTable) (c : Option Ctx) (buf : List Nat)
    (r : Rid) (f' : RmFile) (lt' : LockTable) (c' : Option Ctx)
    (h : insert_record f lt c buf = (.ok r, f', lt', c')) :
    ∃ f1 p, create_page_handle f = .ok (f1, p)
      ∧ Bitmap.first_bit_clear (f1.getPage p).bitmap f1.num_records_per_page
          ≠ f1.num_records_per_page
      ∧ r = ⟨p, Bitmap.first_bit_clear (f1.getPage p).bitmap f1.num_records_per_page⟩
      ∧ f' =
        (let pg := f1.getPage p
         let slot_no := Bitmap.first_bit_clear pg.bitmap f1.num_records_per_page
         let pg1 := pg.writeSlot f1.record_size slot_no buf
         let pg2 := { pg1 with bitmap := Bitmap.set pg1.bitmap slot_no,
                               num_records := pg1.num_records + 1 }
         let f2 := f1.setPage p pg2
         if pg2.num_records = f2.num_records_per_page then
           { f2 with first_free_page_no := pg2.next_free_page_no }
         else f2) := by
  rcases hlp : lockPhase c lt (insert_record_lockIds f.name) with ⟨lr, c2, lt2⟩
  unfold insert_record at h
  rw [hlp] at h
  cases lr with
  | error e => simp at h
  | ok v =>
    dsimp only at h
    rcases hcp : create_page_handle f with ce | ⟨f1, p⟩ <;> rw [hcp] at h <;> dsimp only at h
    · simp at h
    · split at h
      · simp at h
      · rename_i hslot
        simp only [Prod.mk.injEq, Except.ok.injEq] at h
        obtain ⟨hr, hf, -, -⟩ := h
        exact ⟨f1, p, rfl, hslot, hr.symm, hf.symm⟩

/-- insert_record preserves the heap invariant. -/
theorem insert_record_Inv (f : RmFile) (lt : LockTable) (c : Option Ctx) (buf : List Nat)
    (r : Rid) (f' : RmFile) (lt' : LockTable) (c' : Option Ctx)
    (hInv : f.Inv) (h : insert_record f lt c buf = (.ok r, f', lt', c')) :
    f'.Inv := by
  obtain ⟨f1, p, hcp, hslot, -, hf⟩ := insert_record_ok_inv f lt c buf r f' lt' c' h
  rcases create_page_handle_cases f f1 p hcp with ⟨hfirst, hf1, hp⟩ | ⟨hfirst, hf1, hfok⟩
  · -- fresh page appended at page_no = pages.length + 1
    subst hf1
    subst hp
    have hpgnew : (create_new_page f).1.getPage (f.pages.length + 1)
        = ⟨0, RM_NO_PAGE, List.replicate f.num_records_per_page false,
           List.replicate f.num_records_per_page (List.replicate f.record_size 0)⟩ := by
      show (f.pages ++ [_]).getD (f.pages.length + 1 - 1) _ = _
      simpa using lGetD_append_length f.pages _ _
    rw [hpgnew] at hslot hf
    obtain ⟨hsl_lt, hsl_clear⟩ :=
      first_bit_clear_spec (List.replicate f.num_records_per_page false)
        f.num_records_per_page (by simpa using hslot)
    set slot := Bitmap.first_bit_clear (List.replicate f.num_records_per_page false)
      f.num_records_per_page with hslotdef
    have hcnt2 : countTrue (Bitmap.set (List.replicate f.num_records_per_page false) slot)
        = 1 := by
      unfold Bitmap.set
      rw [countTrue_set_true (List.replicate f.num_records_per_page false) slot
        (by simpa using hsl_lt) (by simpa using hsl_clear)]
      rw [countTrue_replicate_false]
    -- both branches of the fullness test
    by_cases hfull : (1 : Nat) = f.num_records_per_page
    · have hEq : f'
          = (⟨f.name, f.record_size, f.num_records_per_page, RM_NO_PAGE,
              f.pages ++ [⟨1, RM_NO_PAGE,
                Bitmap.set (List.replicate f.num_records_per_page false) slot,
                (List.replicate f.num_records_per_page
                  (List.replicate f.record_size 0)).set slot
                  (memcpyBytes f.record_size buf)⟩]⟩ : RmFile) := by
        rw [hf]
        show (if (0 + 1 : Nat) = f.num_records_per_page then _ else _) = _
        rw [if_pos (show (0 + 1 : Nat) = f.num_records_per_page from hfull)]
        show RmFile.mk _ _ _ _ ((f.pages ++ [_]).set (f.pages.length + 1 - 1) _) = _
        rw [Nat.add_sub_cancel, set_append_last]
        rfl
      rw [hEq]
      refine append_page_full_Inv f _ hInv hfirst ?_ ?_ ?_ ?_ ?_
      · exact replicate_false_set_length _ _
      · exact replicate_set_length _ _ _ _
      · intro s hs
        rcases mem_of_mem_set _ _ _ _ hs with hs1 | hs1
        · rw [List.eq_of_mem_replicate hs1]; simp
        · rw [hs1]; exact memcpyBytes_length _ _
      · exact hcnt2
      · exact hfull
    · have hEq : f'
          = (⟨f.name, f.record_size, f.num_records_per_page,
              ((f.pages.length + 1 : Nat) : Int),
              f.pages ++ [⟨1, RM_NO_PAGE,
                Bitmap.set (List.replicate f.num_records_per_page false) slot,
                (List.replicate f.num_records_per_page
                  (List.replicate f.record_size 0)).set slot
                  (memcpyBytes f.record_size buf)⟩]⟩ : RmFile) := by
        rw [hf]
        show (if (0 + 1 : Nat) = f.num_records_per_page then _ else _) = _
        rw [if_neg (show ¬ ((0 + 1 : Nat) = f.num_records_per_page) from hfull)]
        show RmFile.mk _ _ _ _ ((f.pages ++ [_]).set (f.pages.length + 1 - 1) _) = _
        rw [Nat.add_sub_cancel, set_append_last]
        rfl
      rw [hEq]
      refine append_page_notfull_Inv f _ hInv hfirst ?_ ?_ ?_ ?_ ?_ ?_ rfl
      · exact replicate_false_set_length _ _
      · exact replicate_set_length _ _ _ _
      · intro s hs
        rcases mem_of_mem_set _ _ _ _ hs with hs1 | hs1
        · rw [List.eq_of_mem_replicate hs1]; simp
        · rw [hs1]; exact memcpyBytes_length _ _
      · exact hcnt2
      · show (1 : Nat) ≤ f.num_records_per_page
        exact Nat.lt_of_le_of_lt (Nat.zero_le _) hsl_lt
      · show ¬ ((1 : Nat) = f.num_records_per_page)
        exact hfull
  · -- reused head of the free list
    rw [hf1] at hslot hf
    obtain ⟨hp1, hp2⟩ := fetch_ok_bounds f p hfok
    have hmem := getPage_mem f p hp1 hp2
    obtain ⟨hbm, hsl, hsb⟩ := hInv.1 _ hmem
    have hcnt := hInv.2.1 _ hmem
    obtain ⟨hsl_lt, hsl_clear⟩ := first_bit_clear_spec _ _ hslot
    set slot := Bitmap.first_bit_clear (f.getPage p).bitmap f.num_records_per_page
      with hslotdef
    have hslot_len : slot < (f.getPage p).bitmap.length := by rw [hbm]; exact hsl_lt
    have hnumlt : (f.getPage p).num_records < f.num_records_per_page := by
      rw [← hcnt, ← hbm]
      exact countTrue_lt_of_clear (f.getPage p).bitmap slot hslot_len
        (by simpa [Bitmap.is_set] using hsl_clear)
    have hcnt2 : countTrue (Bitmap.set (f.getPage p).bitmap slot)
        = (f.getPage p).num_records + 1 := by
      unfold Bitmap.set
      rw [countTrue_set_true (f.getPage p).bitmap slot hslot_len
        (by simpa [Bitmap.is_set] using hsl_clear)]
      rw [hcnt]
    by_cases hfull : (f.getPage p).num_records + 1 = f.num_records_per_page
    · have hEq : f'
          = (⟨f.name, f.record_size, f.num_records_per_page,
              (f.getPage p).next_free_page_no,
              f.pages.set (p - 1)
                { (f.getPage p).writeSlot f.record_size slot buf with
                  bitmap := Bitmap.set (f.getPage p).bitmap slot
                  num_records := (f.getPage p).num_records + 1 }⟩ : RmFile) := by
        rw [hf]
        show (if (f.getPage p).num_records + 1 = f.num_records_per_page
          then _ else _) = _
        rw [if_pos hfull]
        rfl
      rw [hEq]
      refine unlink_head_Inv f p _ hp1 hp2 hInv ?_ ?_ ?_ ?_ ?_ hfirst hfull rfl
      · exact (bitmap_set_length _ _).trans hbm
      · exact (writeSlot_slots_length _ _ _ _).trans hsl
      · intro s hs
        rcases mem_of_mem_set _ _ _ _ hs with hs1 | hs1
        · exact hsb s hs1
        · rw [hs1]; exact memcpyBytes_length _ _
      · exact hcnt2
      · show (f.getPage p).num_records + 1 ≤ f.num_records_per_page
        exact hnumlt
    · have hEq : f'
          = f.setPage p
              { (f.getPage p).writeSlot f.record_size slot buf with
                bitmap := Bitmap.set (f.getPage p).bitmap slot
                num_records := (f.getPage p).num_records + 1 } := by
        rw [hf]
        show (if (f.getPage p).num_records + 1 = f.num_records_per_page
          then _ else _) = _
        rw [if_neg hfull]
        rfl
      rw [hEq]
      refine setPage_local_Inv f p _ hp1 hp2 hInv ?_ ?_ ?_ ?_ ?_ rfl ?_
      · exact (bitmap_set_length _ _).trans hbm
      · exact (writeSlot_slots_length _ _ _ _).trans hsl
      · intro s hs
        rcases mem_of_mem_set _ _ _ _ hs with hs1 | hs1
        · exact hsb s hs1
        · rw [hs1]; exact memcpyBytes_length _ _
      · exact hcnt2
      · show (f.getPage p).num_records + 1 ≤ f.num_records_per_page
        exact hnumlt
      · show (f.getPage p).num_records + 1 = f.num_records_per_page
          ↔ (f.getPage p).num_records = f.num_records_per_page
        exact succ_eq_iff_of_lt _ _ hnumlt hfull

theorem insert_record_at_ok_inv (f : RmFile) (rid : Rid) (buf : List Nat) (f' : RmFile)
    (h : insert_record_at f rid buf = (.ok (), f')) :
    (1 ≤ rid.page_no ∧ rid.page_no ≤ f.pages.length)
    ∧ rid.slot_no < f.num_records_per_page
    ∧ Bitmap.is_set (f.getPage rid.page_no).bitmap rid.slot_no = false
    ∧ f' = (let pg := f.getPage rid.page_no
            let pg1 := pg.writeSlot f.record_size rid.slot_no buf
            let pg2 := { pg1 with bitmap := Bitmap.set pg1.bitmap rid.slot_no,
                                  num_records := pg1.num_records + 1 }
            let f1 := f.setPage rid.page_no pg2
            if pg2.num_records = f1.num_records_per_page then
              if f1.first_free_page_no = ↑rid.page_no then
                { f1 with first_free_page_no := pg2.next_free_page_no }
              else f1
            else f1) := by
  unfold insert_record_at at h
  split at h
  · simp at h
  · rename_i hrange
    split at h
    · simp at h
    · rename_i hslot
      dsimp only at h
      split at h
      · simp at h
      · rename_i hbit
        simp only [Prod.mk.injEq] at h
        obtain ⟨-, hf⟩ := h
        refine ⟨?_, by omega, by simpa using hbit, hf.symm⟩
        simp only [RmFile.num_pages] at hrange
        omega

/-- insert_record_at preserves the structural sizing, I1 and I2
unconditionally. -/
theorem insert_record_at_WFI (f : RmFile) (rid : Rid) (buf : List Nat) (f' : RmFile)
    (hWF : f.WFpages) (hI1 : f.I1) (hI2 : f.I2)
    (h : insert_record_at f rid buf = (.ok (), f')) :
    f'.WFpages ∧ f'.I1 ∧ f'.I2 := by
  obtain ⟨⟨hp1, hp2⟩, hslot, hbit, hf⟩ := insert_record_at_ok_inv f rid buf f' h
  have hmem := getPage_mem f rid.page_no hp1 hp2
  obtain ⟨hbm, hsl, hsb⟩ := hWF _ hmem
  have hcnt := hI1 _ hmem
  have hslot_len : rid.slot_no < (f.getPage rid.page_no).bitmap.length := by
    rw [hbm]; exact hslot
  have hnumlt : (f.getPage rid.page_no).num_records < f.num_records_per_page := by
    rw [← hcnt, ← hbm]
    exact countTrue_lt_of_clear (f.getPage rid.page_no).bitmap rid.slot_no hslot_len
      (by simpa [Bitmap.is_set] using hbit)
  have hcnt2 : countTrue (Bitmap.set (f.getPage rid.page_no).bitmap rid.slot_no)
      = (f.getPage rid.page_no).num_records + 1 := by
    unfold Bitmap.set
    rw [countTrue_set_true (f.getPage rid.page_no).bitmap rid.slot_no hslot_len
      (by simpa [Bitmap.is_set] using hbit)]
    rw [hcnt]
  -- the pages are the same in every branch; only first_free differs
  have key : ∀ ff : Int,
      ((⟨f.name, f.record_size, f.num_records_per_page, ff,
        f.pages.set (rid.page_no - 1)
          { (f.getPage rid.page_no).writeSlot f.record_size rid.slot_no buf with
            bitmap := Bitmap.set (f.getPage rid.page_no).bitmap rid.slot_no
            num_records := (f.getPage rid.page_no).num_records + 1 }⟩ : RmFile).WFpages
      ∧ (⟨f.name, f.record_size, f.num_records_per_page, ff,
        f.pages.set (rid.page_no - 1)
          { (f.getPage rid.page_no).writeSlot f.record_size rid.slot_no buf with
            bitmap := Bitmap.set (f.getPage rid.page_no).bitmap rid.slot_no
            num_records := (f.getPage rid.page_no).num_records + 1 }⟩ : RmFile).I1
      ∧ (⟨f.name, f.record_size, f.num_records_per_page, ff,
        f.pages.set (rid.page_no - 1)
          { (f.getPage rid.page_no).writeSlot f.record_size rid.slot_no buf with
            bitmap := Bitmap.set (f.getPage rid.page_no).bitmap rid.slot_no
            num_records := (f.getPage rid.page_no).num_records + 1 }⟩ : RmFile).I2) := by
    intro ff
    refine ⟨?_, ?_, ?_⟩
    · intro pg hm
      rcases mem_of_mem_set _ _ _ _ hm with hm1 | hm1
      · exact hWF pg hm1
      · subst hm1
        refine ⟨(bitmap_set_length _ _).trans hbm, (writeSlot_slots_length _ _ _ _).trans hsl, ?_⟩
        intro s hs
        rcases mem_of_mem_set _ _ _ _ hs with hs1 | hs1
        · exact hsb s hs1
        · rw [hs1]; exact memcpyBytes_length _ _
    · intro pg hm
      rcases mem_of_mem_set _ _ _ _ hm with hm1 | hm1
      · exact hI1 pg hm1
      · subst hm1; exact hcnt2
    · intro pg hm
      rcases mem_of_mem_set _ _ _ _ hm with hm1 | hm1
      · exact hI2 pg hm1
      · subst hm1
        show (f.getPage rid.page_no).num_records + 1 ≤ f.num_records_per_page
        exact hnumlt
  by_cases hc1 : (f.getPage rid.page_no).num_records + 1 = f.num_records_per_page
  · by_cases hc2 : f.first_free_page_no = (rid.page_no : Int)
    · have hEq : f'
          = (⟨f.name, f.record_size, f.num_records_per_page,
              (f.getPage rid.page_no).next_free_page_no,
              f.pages.set (rid.page_no - 1)
                { (f.getPage rid.page_no).writeSlot f.record_size rid.slot_no buf with
                  bitmap := Bitmap.set (f.getPage rid.page_no).bitmap rid.slot_no
                  num_records := (f.getPage rid.page_no).num_records + 1 }⟩ : RmFile) := by
        rw [hf]
        show (if (f.getPage rid.page_no).num_records + 1 = f.num_records_per_page
          then _ else _) = _
        rw [if_pos hc1]
        show (if f.first_free_page_no = (rid.page_no : Int) then _ else _) = _
        rw [if_pos hc2]
        rfl
      rw [hEq]
      exact key _
    · have hEq : f'
          = (⟨f.name, f.record_size, f.num_records_per_page, f.first_free_page_no,
              f.pages.set (rid.page_no - 1)
                { (f.getPage rid.page_no).writeSlot f.record_size rid.slot_no buf with
                  bitmap := Bitmap.set (f.getPage rid.page_no).bitmap rid.slot_no
                  num_records := (f.getPage rid.page_no).num_records + 1 }⟩ : RmFile) := by
        rw [hf]
        show (if (f.getPage rid.page_no).num_records + 1 = f.num_records_per_page
          then _ else _) = _
        rw [if_pos hc1]
        show (if f.first_free_page_no = (rid.page_no : Int) then _ else _) = _
        rw [if_neg hc2]
        rfl
      rw [hEq]
      exact key _
  · have hEq : f'
        = (⟨f.name, f.record_size, f.num_records_per_page, f.first_free_page_no,
            f.pages.set (rid.page_no - 1)
              { (f.getPage rid.page_no).writeSlot f.record_size rid.slot_no buf with
                bitmap := Bitmap.set (f.getPage rid.page_no).bitmap rid.slot_no
                num_records := (f.getPage rid.page_no).num_records + 1 }⟩ : RmFile) := by
      rw [hf]
      show (if (f.getPage rid.page_no).num_records + 1 = f.num_records_per_page
        then _ else _) = _
      rw [if_neg hc1]
      rfl
    rw [hEq]
    exact key _

/-- insert_record_at preserves the whole invariant provided the target page
does not become full or is the free-list head (the only unlink the code
performs). -/
theorem insert_record_at_Inv (f : RmFile) (rid : Rid) (buf : List Nat) (f' : RmFile)
    (hInv : f.Inv)
    (hcond : (f.getPage rid.page_no).num_records + 1 ≠ f.num_records_per_page
      ∨ f.first_free_page_no = ↑rid.page_no)
    (h : insert_record_at f rid buf = (.ok (), f')) :
    f'.Inv := by
  obtain ⟨⟨hp1, hp2⟩, hslot, hbit, hf⟩ := insert_record_at_ok_inv f rid buf f' h
  have hmem := getPage_mem f rid.page_no hp1 hp2
  obtain ⟨hbm, hsl, hsb⟩ := hInv.1 _ hmem
  have hcnt := hInv.2.1 _ hmem
  have hslot_len : rid.slot_no < (f.getPage rid.page_no).bitmap.length := by
    rw [hbm]; exact hslot
  have hnumlt : (f.getPage rid.page_no).num_records < f.num_records_per_page := by
    rw [← hcnt, ← hbm]
    exact countTrue_lt_of_clear (f.getPage rid.page_no).bitmap rid.slot_no hslot_len
      (by simpa [Bitmap.is_set] using hbit)
  have hcnt2 : countTrue (Bitmap.set (f.getPage rid.page_no).bitmap rid.slot_no)
      = (f.getPage rid.page_no).num_records + 1 := by
    unfold Bitmap.set
    rw [countTrue_set_true (f.getPage rid.page_no).bitmap rid.slot_no hslot_len
      (by simpa [Bitmap.is_set] using hbit)]
    rw [hcnt]
  by_cases hc1 : (f.getPage rid.page_no).num_records + 1 = f.num_records_per_page
  · have hhead : f.first_free_page_no = ↑rid.page_no := by
      rcases hcond with hc | hc
      · exact absurd hc1 hc
      · exact hc
    have hEq : f'
        = (⟨f.name, f.record_size, f.num_records_per_page,
            (f.getPage rid.page_no).next_free_page_no,
            f.pages.set (rid.page_no - 1)
              { (f.getPage rid.page_no).writeSlot f.record_size rid.slot_no buf with
                bitmap := Bitmap.set (f.getPage rid.page_no).bitmap rid.slot_no
                num_records := (f.getPage rid.page_no).num_records + 1 }⟩ : RmFile) := by
      rw [hf]
      show (if (f.getPage rid.page_no).num_records + 1 = f.num_records_per_page
        then _ else _) = _
      rw [if_pos hc1]
      show (if f.first_free_page_no = ↑rid.page_no then _ else _) = _
      rw [if_pos hhead]
      rfl
    rw [hEq]
    refine unlink_head_Inv f rid.page_no _ hp1 hp2 hInv ?_ ?_ ?_ ?_ ?_ hhead hc1 rfl
    · exact (bitmap_set_length _ _).trans hbm
    · exact (writeSlot_slots_length _ _ _ _).trans hsl
    · intro s hs
      rcases mem_of_mem_set _ _ _ _ hs with hs1 | hs1
      · exact hsb s hs1
      · rw [hs1]; exact memcpyBytes_length _ _
    · exact hcnt2
    · show (f.getPage rid.page_no).num_records + 1 ≤ f.num_records_per_page
      exact hnumlt
  · have hEq : f'
        = f.setPage rid.page_no
            { (f.getPage rid.page_no).writeSlot f.record_size rid.slot_no buf with
              bitmap := Bitmap.set (f.getPage rid.page_no).bitmap rid.slot_no
              num_records := (f.getPage rid.page_no).num_records + 1 } := by
      rw [hf]
      show (if (f.getPage rid.page_no).num_records + 1 = f.num_records_per_page
        then _ else _) = _
      rw [if_neg hc1]
      rfl
    rw [hEq]
    refine setPage_local_Inv f rid.page_no _ hp1 hp2 hInv ?_ ?_ ?_ ?_ ?_ rfl ?_
    · exact (bitmap_set_length _ _).trans hbm
    · exact (writeSlot_slots_length _ _ _ _).trans hsl
    · intro s hs
      rcases mem_of_mem_set _ _ _ _ hs with hs1 | hs1
      · exact hsb s hs1
      · rw [hs1]; exact memcpyBytes_length _ _
    · exact hcnt2
    · show (f.getPage rid.page_no).num_records + 1 ≤ f.num_records_per_page
      exact hnumlt
    · show (f.getPage rid.page_no).num_records + 1 = f.num_records_per_page
        ↔ (f.getPage rid.page_no).num_records = f.num_records_per_page
      exact succ_eq_iff_of_lt _ _ hnumlt hc1

instance (f : RmFile) : Decidable f.WFpages := by
  unfold RmFile.WFpages; exact inferInstance

instance (f : RmFile) : Decidable f.I1 := by
  unfold RmFile.I1; exact inferInstance

instance (f : RmFile) : Decidable f.I2 := by
  unfold RmFile.I2; exact inferInstance

/-- The universally quantified free-list completeness field follows from its
bounded (decidable) form. -/
theorem not_full_mem_of_forall_lt {f : RmFile} {L : List Nat}
    (h : ∀ i < f.pages.length, f.isFull (i + 1) = false → (i + 1) ∈ L) :
    ∀ p, 1 ≤ p → p ≤ f.pages.length → f.isFull p = false → p ∈ L := by
  intro p h1 h2 h3
  have hh := h (p - 1) (by omega)
  rw [show p - 1 + 1 = p by omega] at hh
  exact hh h3

/-- C5 (amended): the context-taking mutations insert_record, delete_record
and update_record preserve the heap invariants — popcount(bitmap) =
num_records, num_records ≤ num_records_per_page, and free-list membership
exactly for the non-full pages; insert_record at a given rid (the undo
path) preserves the two counting invariants unconditionally but preserves
free-list membership only when the target page does not become full or is
the free-list head, since the code only unlinks the head. -/
theorem claim_C5_amended (f : RmFile) (lt : LockTable) (ctxOpt : Option Ctx) (rid : Rid)
    (buf : List Nat) (hInv : f.Inv) :
    (∀ r f' lt' c', insert_record f lt ctxOpt buf = (.ok r, f', lt', c') → f'.Inv)
    ∧ (∀ f' lt' c', delete_record f lt ctxOpt rid = (.ok (), f', lt', c') → f'.Inv)
    ∧ (∀ f' lt' c', update_record f lt ctxOpt rid buf = (.ok (), f', lt', c') → f'.Inv)
    ∧ (∀ f', insert_record_at f rid buf = (.ok (), f') →
        (f'.WFpages ∧ f'.I1 ∧ f'.I2)
        ∧ (((f.getPage rid.page_no).num_records + 1 ≠ f.num_records_per_page
            ∨ f.first_free_page_no = (rid.page_no : Int)) → f'.Inv)) := by
  refine ⟨?_, ?_, ?_, ?_⟩
  · intro r f' lt' c' h
    exact insert_record_Inv f lt ctxOpt buf r f' lt' c' hInv h
  · intro f' lt' c' h
    exact delete_record_Inv f lt ctxOpt rid f' lt' c' hInv h
  · intro f' lt' c' h
    exact update_record_Inv f lt ctxOpt rid buf f' lt' c' hInv h
  · intro f' h
    exact ⟨insert_record_at_WFI f rid buf f' hInv.1 hInv.2.1 hInv.2.2.1 h,
           fun hc => insert_record_at_Inv f rid buf f' hInv hc h⟩

/-- Counterexample to C5 as stated: with one record per page, pages 1 and 2
both free (free list 1 → 2), inserting at rid (2,0) fills page 2 in the
middle of the free list; the code only unlinks the head, so page 2 stays on
the free list while full and the membership invariant P2 is broken. -/
theorem claim_C5_counterexample :
    (⟨"t", 1, 1, 1, [⟨0, 2, [false], [[0]]⟩, ⟨0, RM_NO_PAGE, [false], [[0]]⟩]⟩ : RmFile).Inv
    ∧ (insert_record_at
        ⟨"t", 1, 1, 1, [⟨0, 2, [false], [[0]]⟩, ⟨0, RM_NO_PAGE, [false], [[0]]⟩]⟩
        ⟨2, 0⟩ [9]).1 = .ok ()
    ∧ ¬ ((insert_record_at
        ⟨"t", 1, 1, 1, [⟨0, 2, [false], [[0]]⟩, ⟨0, RM_NO_PAGE, [false], [[0]]⟩]⟩
        ⟨2, 0⟩ [9]).2.Inv) := by
  refine ⟨⟨by decide, by decide, by decide, [1, 2], by decide, by decide, by decide,
    by decide, not_full_mem_of_forall_lt (by decide)⟩, rfl, ?_⟩
  rintro ⟨-, -, -, L, hFL⟩
  have h1 := hFL.chain_eq
  have hfc : (insert_record_at
      ⟨"t", 1, 1, 1, [⟨0, 2, [false], [[0]]⟩, ⟨0, RM_NO_PAGE, [false], [[0]]⟩]⟩
      ⟨2, 0⟩ [9]).2.freeChain = some [1, 2] := by decide
  rw [hfc] at h1
  injection h1 with h2
  have h3 := hFL.mem_not_full 2 (by rw [← h2]; decide)
  have h4 : (insert_record_at
      ⟨"t", 1, 1, 1, [⟨0, 2, [false], [[0]]⟩, ⟨0, RM_NO_PAGE, [false], [[0]]⟩]⟩
      ⟨2, 0⟩ [9]).2.isFull 2 = true := by decide
  rw [h4] at h3
  cases h3

/-- Witness for the amended C5: deleting the only record of a two-slot page
keeps the invariant. -/
theorem claim_C5_witness :
    ((delete_record ⟨"t", 1, 2, 1, [⟨1, RM_NO_PAGE, [true, false], [[5], [0]]⟩]⟩ []
        none ⟨1, 0⟩).2.1).Inv := by
  have h := (claim_C5_amended ⟨"t", 1, 2, 1, [⟨1, RM_NO_PAGE, [true, false], [[5], [0]]⟩]⟩
      [] none ⟨1, 0⟩ []
      ⟨by decide, by decide, by decide, [1], by decide, by decide, by decide,
        by decide, not_full_mem_of_forall_lt (by decide)⟩).2.1
  exact h _ _ _ rfl

/-! ## Observable record state and the abort/undo machinery (claim C1)

The record-observable state of a heap file maps every rid to the payload of
its slot when the slot bit is set.  Abort is required to restore this state
(the physical file may differ, e.g. by pages T allocated). -/

/-- The record stored at a rid: the slot payload when the rid is a valid
data-page slot whose bit is set, none otherwise. -/
def RmFile.obs (f : RmFile) (x : Rid) : Option (List Nat) :=
  if 1 ≤ x.page_no ∧ x.page_no ≤ f.pages.length then
    if Bitmap.is_set (f.getPage x.page_no).bitmap x.slot_no then
      some ((f.getPage x.page_no).slots.getD x.slot_no [])
    else none
  else none

theorem memcpyBytes_of_length (n : Nat) (src : List Nat) (h : src.length = n) :
    memcpyBytes n src = src := by
  unfold memcpyBytes
  rw [← h]
  exact List.take_left src _

theorem is_set_set_self (bm : List Bool) (i : Nat) (h : i < bm.length) :
    Bitmap.is_set (Bitmap.set bm i) i = true :=
  lGetD_set_self bm i true false h

theorem is_set_set_ne (bm : List Bool) (i j : Nat) (h : i ≠ j) :
    Bitmap.is_set (Bitmap.set bm i) j = Bitmap.is_set bm j :=
  lGetD_set_ne bm i j true false h

theorem is_set_reset_self (bm : List Bool) (i : Nat) (h : i < bm.length) :
    Bitmap.is_set (Bitmap.reset bm i) i = false :=
  lGetD_set_self bm i false false h

theorem is_set_reset_ne (bm : List Bool) (i j : Nat) (h : i ≠ j) :
    Bitmap.is_set (Bitmap.reset bm i) j = Bitmap.is_set bm j :=
  lGetD_set_ne bm i j false false h

/-- Two files with the same pages have the same observable state (the
observable state never reads the file header). -/
theorem obs_only_pages (f g : RmFile) (h : f.pages = g.pages) (x : Rid) :
    f.obs x = g.obs x := by
  unfold RmFile.obs RmFile.getPage
  rw [h]

theorem obs_setPage (f : RmFile) (p : Nat) (pg2 : RmPage) (hp1 : 1 ≤ p)
    (hp2 : p ≤ f.pages.length) (x : Rid) :
    (f.setPage p pg2).obs x
      = if x.page_no = p then
          (if Bitmap.is_set pg2.bitmap x.slot_no then some (pg2.slots.getD x.slot_no [])
           else none)
        else f.obs x := by
  unfold RmFile.obs
  rw [setPage_length]
  by_cases hx : x.page_no = p
  · rw [if_pos hx, if_pos (show 1 ≤ x.page_no ∧ x.page_no ≤ f.pages.length by
      rw [hx]; exact ⟨hp1, hp2⟩)]
    rw [hx, getPage_setPage_self f p pg2 hp1 hp2]
  · rw [if_neg hx]
    by_cases hr : 1 ≤ x.page_no ∧ x.page_no ≤ f.pages.length
    · rw [if_pos hr, if_pos hr,
        getPage_setPage_ne f p x.page_no pg2 hp1 hr.1 (fun he => hx he.symm)]
    · rw [if_neg hr, if_neg hr]

theorem obs_append_file (f : RmFile) (pg2 : RmPage) (nm : String) (rs per : Nat)
    (ff : Int) (x : Rid) :
    (⟨nm, rs, per, ff, f.pages ++ [pg2]⟩ : RmFile).obs x
      = if x.page_no = f.pages.length + 1 then
          (if Bitmap.is_set pg2.bitmap x.slot_no then some (pg2.slots.getD x.slot_no [])
           else none)
        else f.obs x := by
  unfold RmFile.obs
  show (if 1 ≤ x.page_no ∧ x.page_no ≤ (f.pages ++ [pg2]).length then _ else _) = _
  rw [List.length_append, List.length_singleton]
  by_cases hx : x.page_no = f.pages.length + 1
  · rw [if_pos hx, if_pos (show 1 ≤ x.page_no ∧ x.page_no ≤ f.pages.length + 1 by
      rw [hx]; exact ⟨Nat.le_add_left 1 _, Nat.le_refl _⟩)]
    have hg : (⟨nm, rs, per, ff, f.pages ++ [pg2]⟩ : RmFile).getPage x.page_no = pg2 := by
      show (f.pages ++ [pg2]).getD (x.page_no - 1) _ = _
      rw [hx]
      simpa using lGetD_append_length f.pages pg2 _
    rw [hg]
  · rw [if_neg hx]
    by_cases hr : 1 ≤ x.page_no ∧ x.page_no ≤ f.pages.length
    · have hg : (⟨nm, rs, per, ff, f.pages ++ [pg2]⟩ : RmFile).getPage x.page_no
          = f.getPage x.page_no := by
        show (f.pages ++ [pg2]).getD (x.page_no - 1) _ = _
        exact lGetD_append_left _ _ _ _ (pred_lt_of_le x.page_no f.pages.length hr.1 hr.2)
      rw [if_pos (show 1 ≤ x.page_no ∧ x.page_no ≤ f.pages.length + 1
          from ⟨hr.1, Nat.le_succ_of_le hr.2⟩), hg,
        if_pos hr]
    · rw [if_neg (show ¬ (1 ≤ x.page_no ∧ x.page_no ≤ f.pages.length + 1)
          from fun hc => hr ⟨hc.1, Nat.lt_succ_iff.mp (Nat.lt_of_le_of_ne hc.2 hx)⟩),
        if_neg hr]

/-- An observed record means the rid is in range with its bit set. -/
theorem obs_some_facts (f : RmFile) (x : Rid) (v : List Nat) (h : f.obs x = some v) :
    (1 ≤ x.page_no ∧ x.page_no ≤ f.pages.length)
    ∧ Bitmap.is_set (f.getPage x.page_no).bitmap x.slot_no = true
    ∧ (f.getPage x.page_no).slots.getD x.slot_no [] = v := by
  unfold RmFile.obs at h
  split at h
  · rename_i hr
    split at h
    · rename_i hb
      exact ⟨hr, hb, by injection h⟩
    · cases h
  · cases h

/-- An in-range rid with no observed record has its bit clear. -/
theorem obs_none_clear (f : RmFile) (x : Rid) (h : f.obs x = none)
    (h1 : 1 ≤ x.page_no) (h2 : x.page_no ≤ f.pages.length) :
    Bitmap.is_set (f.getPage x.page_no).bitmap x.slot_no = false := by
  unfold RmFile.obs at h
  rw [if_pos ⟨h1, h2⟩] at h
  split at h
  · cases h
  · rename_i hb
    simpa using hb

/-- The tables of the storage manager (sm_manager_->fhs_): an association
from table name to its heap file handle. -/
def getFile : List (String × RmFile) → String → Option RmFile
  | [], _ => none
  | (n, f) :: rest, tab => if n = tab then some f else getFile rest tab

/-- Replace a table's file (in-place mutation of the handle). -/
def setFile : List (String × RmFile) → String → RmFile → List (String × RmFile)
  | [], _, _ => []
  | (n, f) :: rest, tab, f2 => if n = tab then (n, f2) :: rest else (n, f) :: setFile rest tab f2

/-- System state threaded through a single transaction's operations: the
heap files, the lock table, and the transaction itself. -/
structure SysState where
  files : List (String × RmFile)
  lt : LockTable
  txn : Txn
deriving DecidableEq

/-- One record-manager mutation issued by the transaction, as the DML
operators issue them: insert_record(buf), delete_record(rid),
update_record(rid, buf), each called with a context carrying the
transaction and the lock manager. -/
inductive TxnOp where
  | ins (tab : String) (buf : List Nat)
  | del (tab : String) (rid : Rid)
  | upd (tab : String) (rid : Rid) (buf : List Nat)
deriving DecidableEq

/-- Read the transaction back out of the context after an operation. -/
def txnOfCtx (c : Option Ctx) (dflt : Txn) : Txn :=
  match c with
  | some c2 =>
    match c2.txn with
    | some t => t
    | none => dflt
  | none => dflt

/-- Execute one operation against the system state. -/
def runOp (s : SysState) (op : TxnOp) : Except Err Unit × SysState :=
  let ctx : Option Ctx := some ⟨some s.txn, true⟩
  match op with
  | .ins tab buf =>
    match getFile s.files tab with
    | none => (.error (.InternalError "unknown table"), s)
    | some f =>
      match insert_record f s.lt ctx buf with
      | (.ok _, f2, lt2, c2) => (.ok (), ⟨setFile s.files tab f2, lt2, txnOfCtx c2 s.txn⟩)
      | (.error e, f2, lt2, c2) =>
        (.error e, ⟨setFile s.files tab f2, lt2, txnOfCtx c2 s.txn⟩)
  | .del tab rid =>
    match getFile s.files tab with
    | none => (.error (.InternalError "unknown table"), s)
    | some f =>
      match delete_record f s.lt ctx rid with
      | (.ok _, f2, lt2, c2) => (.ok (), ⟨setFile s.files tab f2, lt2, txnOfCtx c2 s.txn⟩)
      | (.error e, f2, lt2, c2) =>
        (.error e, ⟨setFile s.files tab f2, lt2, txnOfCtx c2 s.txn⟩)
  | .upd tab rid buf =>
    match getFile s.files tab with
    | none => (.error (.InternalError "unknown table"), s)
    | some f =>
      match update_record f s.lt ctx rid buf with
      | (.ok _, f2, lt2, c2) => (.ok (), ⟨setFile s.files tab f2, lt2, txnOfCtx c2 s.txn⟩)
      | (.error e, f2, lt2, c2) =>
        (.error e, ⟨setFile s.files tab f2, lt2, txnOfCtx c2 s.txn⟩)

/-- Execute a sequence of operations, stopping at the first failure. -/
def runOps : SysState → List TxnOp → Except Err Unit × SysState
  | s, [] => (.ok (), s)
  | s, op :: rest =>
    match runOp s op with
    | (.ok _, s2) => runOps s2 rest
    | (.error e, s2) => (.error e, s2)

/-- The undo context built inside TransactionManager::abort: a context with
a null transaction (so undo mutations neither lock nor append) but a live
lock manager. -/
def undoCtxV : Option Ctx := some ⟨none, true⟩

/-- Undo one write record (the switch inside TransactionManager::abort):
INSERT_TUPLE is undone by delete_record, DELETE_TUPLE by the positioned
insert_record, UPDATE_TUPLE by update_record with the before-image. -/
def undo_one (files : List (String × RmFile)) (lt : LockTable) (wr : WriteRecord) :
    Except Err (List (String × RmFile) × LockTable) :=
  match wr with
  | .INSERT_TUPLE tab rid =>
    match getFile files tab with
    | none => .error (.InternalError "abort: fhs_.at missing table")
    | some f =>
      match delete_record f lt undoCtxV rid with
      | (.ok _, f2, lt2, _) => .ok (setFile files tab f2, lt2)
      | (.error e, _, _, _) => .error e
  | .DELETE_TUPLE tab rid before =>
    match getFile files tab with
    | none => .error (.InternalError "abort: fhs_.at missing table")
    | some f =>
      match insert_record_at f rid before with
      | (.ok _, f2) => .ok (setFile files tab f2, lt)
      | (.error e, _) => .error e
  | .UPDATE_TUPLE tab rid before =>
    match getFile files tab with
    | none => .error (.InternalError "abort: fhs_.at missing table")
    | some f =>
      match update_record f lt undoCtxV rid before with
      | (.ok _, f2, lt2, _) => .ok (setFile files tab f2, lt2)
      | (.error e, _, _, _) => .error e

/-- Undo a list of write records in order (abort passes the write set
already reversed). -/
def undo_list (files : List (String × RmFile)) (lt : LockTable) :
    List WriteRecord → Except Err (List (String × RmFile) × LockTable)
  | [] => .ok (files, lt)
  | w :: rest =>
    match undo_one files lt w with
    | .ok (f2, lt2) => undo_list f2 lt2 rest
    | .error e => .error e

/-- release_all_locks: unlock every id of a copy of the lock set. -/
def releaseAll : Txn → LockTable → List LockDataId → Txn × LockTable
  | txn, lt, [] => (txn, lt)
  | txn, lt, id :: rest =>
    match unlock (some txn) lt id with
    | (t2, lt2) => releaseAll (t2.getD txn) lt2 rest

/-- TransactionManager::abort (transaction_manager.cpp:148-221): mark the
transaction SHRINKING (suppressing further capture), replay the write set
in reverse through the undo context, then release all locks, clear the
write set and mark ABORTED.  An error during undo propagates and stops the
cleanup, as in the C++ (log flushing, txn_map removal and deletion are
outside the model). -/
def abort (s : SysState) : Except Err SysState :=
  let txn1 := { s.txn with state := TransactionState.SHRINKING }
  match undo_list s.files s.lt txn1.write_set.reverse with
  | .error e => .error e
  | .ok (files2, lt2) =>
    match releaseAll txn1 lt2 txn1.lock_set with
    | (txn2, lt3) =>
      .ok ⟨files2, lt3,
        { txn2 with lock_set := [], write_set := [], state := .ABORTED }⟩

theorem lock_internal_some_inv (t : Txn) (lt : LockTable) (id : LockDataId) (m : LockMode) :
    ∃ t2, (lock_internal (some t) lt id m).2.1 = some t2
      ∧ t2.txn_id = t.txn_id ∧ t2.state = t.state ∧ t2.write_set = t.write_set := by
  have h := lock_internal_txn_inv (some t) lt id m
  rcases hr : (lock_internal (some t) lt id m).2.1 with _ | t2
  · rw [hr] at h
    simp at h
  · rw [hr] at h
    simp only [Option.map] at h
    exact ⟨t2, rfl, by injection h.1, by injection h.2.1, by injection h.2.2⟩

theorem ctxLock1_txn (t : Txn) (lt : LockTable) (id : LockDataId) (m : LockMode) :
    ∃ t2, (ctxLock1 (some ⟨some t, true⟩) lt id m).2.1 = some ⟨some t2, true⟩
      ∧ t2.txn_id = t.txn_id ∧ t2.state = t.state ∧ t2.write_set = t.write_set := by
  obtain ⟨t2, he, h1, h2, h3⟩ := lock_internal_some_inv t lt id m
  refine ⟨t2, ?_, h1, h2, h3⟩
  show (match lock_internal (some t) lt id m with
    | (r, t3, lt2) => (r, some (⟨t3, true⟩ : Ctx), lt2)).2.1 = _
  rcases hl : lock_internal (some t) lt id m with ⟨r, t3, lt2⟩
  rw [hl] at he
  dsimp only at he ⊢
  rw [he]

theorem ctxLockMany_txn (ids : List (LockDataId × LockMode)) :
    ∀ (t : Txn) (lt : LockTable) (res : Unit) (c2 : Option Ctx) (lt2 : LockTable),
      ctxLockMany (some ⟨some t, true⟩) lt ids = (.ok res, c2, lt2) →
      ∃ t2, c2 = some ⟨some t2, true⟩
        ∧ t2.txn_id = t.txn_id ∧ t2.state = t.state ∧ t2.write_set = t.write_set := by
  induction ids with
  | nil =>
    intro t lt res c2 lt2 h
    unfold ctxLockMany at h
    simp only [Prod.mk.injEq] at h
    exact ⟨t, h.2.1.symm, rfl, rfl, rfl⟩
  | cons idm rest ih =>
    intro t lt res c2 lt2 h
    obtain ⟨id, m⟩ := idm
    obtain ⟨ta, hca, h1a, h2a, h3a⟩ := ctxLock1_txn t lt id m
    unfold ctxLockMany at h
    rcases hl : ctxLock1 (some ⟨some t, true⟩) lt id m with ⟨r, ca, lta⟩
    rw [hl] at h hca
    dsimp only at hca
    subst hca
    cases r with
    | ok v =>
      dsimp only at h
      obtain ⟨t2, hc2, h1, h2, h3⟩ := ih ta lta res c2 lt2 h
      exact ⟨t2, hc2, h1.trans h1a, h2.trans h2a, h3.trans h3a⟩
    | error e => simp at h

theorem lockPhase_live (t : Txn) (lt : LockTable) (ids : List (LockDataId × LockMode)) :
    lockPhase (some ⟨some t, true⟩) lt ids = ctxLockMany (some ⟨some t, true⟩) lt ids := by
  simp [lockPhase, wantsLocks]

theorem lockPhase_undo (lt : LockTable) (ids : List (LockDataId × LockMode)) :
    lockPhase undoCtxV lt ids = (.ok (), undoCtxV, lt) := rfl

theorem is_set_replicate_false (n j : Nat) :
    Bitmap.is_set (List.replicate n false) j = false := by
  induction n generalizing j with
  | zero => rfl
  | succ k ih =>
    cases j with
    | zero => rfl
    | succ j2 =>
      show Bitmap.is_set (false :: List.replicate k false) (j2 + 1) = false
      simpa [Bitmap.is_set] using ih j2

/-- delete_record preserves the structural sizing, I1 and I2 (used for the
undo-side state where the free list may be broken). -/
theorem delete_record_WFI (f : RmFile) (lt : LockTable) (c : Option Ctx) (rid : Rid)
    (f' : RmFile) (lt' : LockTable) (c' : Option Ctx)
    (hWF : f.WFpages) (hI1 : f.I1) (hI2 : f.I2)
    (h : delete_record f lt c rid = (.ok (), f', lt', c')) :
    f'.WFpages ∧ f'.I1 ∧ f'.I2 := by
  obtain ⟨hfetch, hbit, hf⟩ := delete_record_ok_inv f lt c rid f' lt' c' h
  obtain ⟨hp1, hp2⟩ := fetch_ok_bounds f rid.page_no hfetch
  have hmem := getPage_mem f rid.page_no hp1 hp2
  obtain ⟨hbm, hsl, hsb⟩ := hWF _ hmem
  have hcnt := hI1 _ hmem
  have hcount2 := countTrue_set_false (f.getPage rid.page_no).bitmap rid.slot_no hbit
  -- the pages are the same in both branches up to the page header next field
  have key : ∀ (nx : Int) (ff : Int),
      ((⟨f.name, f.record_size, f.num_records_per_page, ff,
        f.pages.set (rid.page_no - 1)
          { f.getPage rid.page_no with
            bitmap := Bitmap.reset (f.getPage rid.page_no).bitmap rid.slot_no
            num_records := (f.getPage rid.page_no).num_records - 1
            next_free_page_no := nx }⟩ : RmFile).WFpages
      ∧ (⟨f.name, f.record_size, f.num_records_per_page, ff,
        f.pages.set (rid.page_no - 1)
          { f.getPage rid.page_no with
            bitmap := Bitmap.reset (f.getPage rid.page_no).bitmap rid.slot_no
            num_records := (f.getPage rid.page_no).num_records - 1
            next_free_page_no := nx }⟩ : RmFile).I1
      ∧ (⟨f.name, f.record_size, f.num_records_per_page, ff,
        f.pages.set (rid.page_no - 1)
          { f.getPage rid.page_no with
            bitmap := Bitmap.reset (f.getPage rid.page_no).bitmap rid.slot_no
            num_records := (f.getPage rid.page_no).num_records - 1
            next_free_page_no := nx }⟩ : RmFile).I2) := by
    intro nx ff
    refine ⟨?_, ?_, ?_⟩
    · intro pg hm
      rcases mem_of_mem_set _ _ _ _ hm with hm1 | hm1
      · exact hWF pg hm1
      · subst hm1
        exact ⟨(bitmap_reset_length _ _).trans hbm, hsl, hsb⟩
    · intro pg hm
      rcases mem_of_mem_set _ _ _ _ hm with hm1 | hm1
      · exact hI1 pg hm1
      · subst hm1
        show countTrue (Bitmap.reset (f.getPage rid.page_no).bitmap rid.slot_no)
          = (f.getPage rid.page_no).num_records - 1
        exact eq_pred_of_succ_eq _ _ _ hcount2 hcnt
    · intro pg hm
      rcases mem_of_mem_set _ _ _ _ hm with hm1 | hm1
      · exact hI2 pg hm1
      · subst hm1
        show (f.getPage rid.page_no).num_records - 1 ≤ f.num_records_per_page
        exact le_pred_of_le _ _ (hI2 _ hmem)
  subst hf
  split
  · rename_i hwasfull
    have hrel :
        release_page_handle
            (f.setPage rid.page_no
              { f.getPage rid.page_no with
                bitmap := Bitmap.reset (f.getPage rid.page_no).bitmap rid.slot_no
                num_records := (f.getPage rid.page_no).num_records - 1 })
            rid.page_no
          = (⟨f.name, f.record_size, f.num_records_per_page, ↑rid.page_no,
              f.pages.set (rid.page_no - 1)
                { f.getPage rid.page_no with
                  bitmap := Bitmap.reset (f.getPage rid.page_no).bitmap rid.slot_no
                  num_records := (f.getPage rid.page_no).num_records - 1
                  next_free_page_no := f.first_free_page_no }⟩ : RmFile) := by
      unfold release_page_handle
      rw [getPage_setPage_self f rid.page_no _ hp1 hp2]
      show RmFile.mk _ _ _ _ ((f.pages.set _ _).set _ _) = _
      rw [List.set_set]
      rfl
    rw [hrel]
    exact key f.first_free_page_no ↑rid.page_no
  · rename_i hnotfull
    have hEq : f.setPage rid.page_no
          { f.getPage rid.page_no with
            bitmap := Bitmap.reset (f.getPage rid.page_no).bitmap rid.slot_no
            num_records := (f.getPage rid.page_no).num_records - 1 }
        = (⟨f.name, f.record_size, f.num_records_per_page, f.first_free_page_no,
            f.pages.set (rid.page_no - 1)
              { f.getPage rid.page_no with
                bitmap := Bitmap.reset (f.getPage rid.page_no).bitmap rid.slot_no
                num_records := (f.getPage rid.page_no).num_records - 1
                next_free_page_no := (f.getPage rid.page_no).next_free_page_no }⟩ :
            RmFile) := rfl
    rw [hEq]
    exact key (f.getPage rid.page_no).next_free_page_no f.first_free_page_no

/-- update_record preserves the structural sizing, I1 and I2. -/
theorem update_record_WFI (f : RmFile) (lt : LockTable) (c : Option Ctx) (rid : Rid)
    (buf : List Nat) (f' : RmFile) (lt' : LockTable) (c' : Option Ctx)
    (hWF : f.WFpages) (hI1 : f.I1) (hI2 : f.I2)
    (h : update_record f lt c rid buf = (.ok (), f', lt', c')) :
    f'.WFpages ∧ f'.I1 ∧ f'.I2 := by
  obtain ⟨hfetch, hbit, hf⟩ := update_record_ok_inv f lt c rid buf f' lt' c' h
  obtain ⟨hp1, hp2⟩ := fetch_ok_bounds f rid.page_no hfetch
  have hmem := getPage_mem f rid.page_no hp1 hp2
  obtain ⟨hbm, hsl, hsb⟩ := hWF _ hmem
  subst hf
  refine ⟨?_, ?_, ?_⟩
  · intro pg hm
    rcases mem_of_mem_set _ _ _ _ hm with hm1 | hm1
    · exact hWF pg hm1
    · subst hm1
      refine ⟨hbm, (writeSlot_slots_length _ _ _ _).trans hsl, ?_⟩
      intro s hs
      rcases mem_of_mem_set _ _ _ _ hs with hs1 | hs1
      · exact hsb s hs1
      · rw [hs1]; exact memcpyBytes_length _ _
  · intro pg hm
    rcases mem_of_mem_set _ _ _ _ hm with hm1 | hm1
    · exact hI1 pg hm1
    · subst hm1
      exact hI1 (f.getPage rid.page_no) hmem
  · intro pg hm
    rcases mem_of_mem_set _ _ _ _ hm with hm1 | hm1
    · exact hI2 pg hm1
    · subst hm1
      exact hI2 (f.getPage rid.page_no) hmem

/-- Replace the free-list head field of a file header. -/
def RmFile.mk_first (f : RmFile) (ff : Int) : RmFile :=
  { f with first_free_page_no := ff }

theorem RmFile.mk_first_pages (f : RmFile) (ff : Int) :
    (f.mk_first ff).pages = f.pages := rfl

/-- Clearing a slot bit removes exactly that record from the observable
state. -/
theorem obs_reset_slot (g : RmFile) (p s : Nat) (pg2 : RmPage)
    (hp1 : 1 ≤ p) (hp2 : p ≤ g.pages.length)
    (hbm2 : pg2.bitmap = Bitmap.reset (g.getPage p).bitmap s)
    (hsl2 : pg2.slots = (g.getPage p).slots)
    (hb : Bitmap.is_set (g.getPage p).bitmap s = true) :
    (g.setPage p pg2).obs ⟨p, s⟩ = none
    ∧ ∀ x : Rid, x ≠ ⟨p, s⟩ → (g.setPage p pg2).obs x = g.obs x := by
  have hslt := is_set_lt _ _ hb
  constructor
  · rw [obs_setPage g p pg2 hp1 hp2 ⟨p, s⟩, if_pos rfl, hbm2,
      is_set_reset_self _ _ hslt]
    simp
  · intro x hx
    rw [obs_setPage g p pg2 hp1 hp2 x]
    by_cases hxp : x.page_no = p
    · rw [if_pos hxp]
      have hxs : x.slot_no ≠ s := by
        intro he
        apply hx
        cases x with
        | mk a b =>
          simp only at hxp he
          rw [hxp, he]
      rw [hbm2, is_set_reset_ne _ s x.slot_no (Ne.symm hxs), hsl2]
      unfold RmFile.obs
      rw [if_pos (show 1 ≤ x.page_no ∧ x.page_no ≤ g.pages.length by
        rw [hxp]; exact ⟨hp1, hp2⟩), hxp]
    · rw [if_neg hxp]

/-- Setting a slot bit and writing payload v adds exactly that record. -/
theorem obs_write_slot (g : RmFile) (p s : Nat) (pg2 : RmPage) (v : List Nat)
    (hp1 : 1 ≤ p) (hp2 : p ≤ g.pages.length)
    (hslen : s < (g.getPage p).slots.length)
    (hblen : s < (g.getPage p).bitmap.length)
    (hbm2 : pg2.bitmap = Bitmap.set (g.getPage p).bitmap s)
    (hsl2 : pg2.slots = (g.getPage p).slots.set s v) :
    (g.setPage p pg2).obs ⟨p, s⟩ = some v
    ∧ ∀ x : Rid, x ≠ ⟨p, s⟩ → (g.setPage p pg2).obs x = g.obs x := by
  constructor
  · rw [obs_setPage g p pg2 hp1 hp2 ⟨p, s⟩, if_pos rfl, hbm2,
      is_set_set_self _ _ hblen]
    simp only [if_true]
    rw [hsl2, lGetD_set_self _ _ _ _ hslen]
  · intro x hx
    rw [obs_setPage g p pg2 hp1 hp2 x]
    by_cases hxp : x.page_no = p
    · rw [if_pos hxp]
      have hxs : x.slot_no ≠ s := by
        intro he
        apply hx
        cases x with
        | mk a b =>
          simp only at hxp he
          rw [hxp, he]
      rw [hbm2, is_set_set_ne _ s x.slot_no (Ne.symm hxs), hsl2,
        lGetD_set_ne _ s x.slot_no _ _ (Ne.symm hxs)]
      unfold RmFile.obs
      rw [if_pos (show 1 ≤ x.page_no ∧ x.page_no ≤ g.pages.length by
        rw [hxp]; exact ⟨hp1, hp2⟩), hxp]
    · rw [if_neg hxp]

/-- Overwriting an occupied slot replaces exactly that record. -/
theorem obs_update_slot (g : RmFile) (p s : Nat) (pg2 : RmPage) (v : List Nat)
    (hp1 : 1 ≤ p) (hp2 : p ≤ g.pages.length)
    (hslen : s < (g.getPage p).slots.length)
    (hb : Bitmap.is_set (g.getPage p).bitmap s = true)
    (hbm2 : pg2.bitmap = (g.getPage p).bitmap)
    (hsl2 : pg2.slots = (g.getPage p).slots.set s v) :
    (g.setPage p pg2).obs ⟨p, s⟩ = some v
    ∧ ∀ x : Rid, x ≠ ⟨p, s⟩ → (g.setPage p pg2).obs x = g.obs x := by
  constructor
  · rw [obs_setPage g p pg2 hp1 hp2 ⟨p, s⟩, if_pos rfl, hbm2, hb]
    simp only [if_true]
    rw [hsl2, lGetD_set_self _ _ _ _ hslen]
  · intro x hx
    rw [obs_setPage g p pg2 hp1 hp2 x]
    by_cases hxp : x.page_no = p
    · rw [if_pos hxp]
      have hxs : x.slot_no ≠ s := by
        intro he
        apply hx
        cases x with
        | mk a b =>
          simp only at hxp he
          rw [hxp, he]
      rw [hbm2, hsl2, lGetD_set_ne _ s x.slot_no _ _ (Ne.symm hxs)]
      unfold RmFile.obs
      rw [if_pos (show 1 ≤ x.page_no ∧ x.page_no ≤ g.pages.length by
        rw [hxp]; exact ⟨hp1, hp2⟩), hxp]
    · rw [if_neg hxp]

theorem fetch_ok_of_bounds (g : RmFile) (p : Nat) (h1 : 1 ≤ p)
    (h2 : p ≤ g.pages.length) : g.fetch_ok p = true := by
  simp only [RmFile.fetch_ok, RmFile.num_pages, Bool.and_eq_true, decide_eq_true_eq]
  omega

/-- Undoing an insert: delete_record through the undo context succeeds on an
occupied in-range slot, touches no locks, and removes exactly that record
from the observable state. -/
theorem delete_undo_run (g : RmFile) (lt : LockTable) (rid : Rid)
    (hWF : g.WFpages) (hI1 : g.I1) (hI2 : g.I2)
    (h1 : 1 ≤ rid.page_no) (h2 : rid.page_no ≤ g.pages.length)
    (hb : Bitmap.is_set (g.getPage rid.page_no).bitmap rid.slot_no = true) :
    ∃ g2, delete_record g lt undoCtxV rid = (.ok (), g2, lt, undoCtxV)
      ∧ (g2.WFpages ∧ g2.I1 ∧ g2.I2)
      ∧ g2.name = g.name ∧ g2.record_size = g.record_size
      ∧ g2.num_records_per_page = g.num_records_per_page
      ∧ g2.pages.length = g.pages.length
      ∧ g2.obs ⟨rid.page_no, rid.slot_no⟩ = none
      ∧ (∀ x : Rid, x ≠ ⟨rid.page_no, rid.slot_no⟩ → g2.obs x = g.obs x) := by
  have hfetch := fetch_ok_of_bounds g rid.page_no h1 h2
  have hres : delete_record g lt undoCtxV rid
      = (.ok (),
         (if (g.getPage rid.page_no).num_records = g.num_records_per_page
          then release_page_handle
                 (g.setPage rid.page_no
                   { g.getPage rid.page_no with
                     bitmap := Bitmap.reset (g.getPage rid.page_no).bitmap rid.slot_no
                     num_records := (g.getPage rid.page_no).num_records - 1 })
                 rid.page_no
          else g.setPage rid.page_no
                 { g.getPage rid.page_no with
                   bitmap := Bitmap.reset (g.getPage rid.page_no).bitmap rid.slot_no
                   num_records := (g.getPage rid.page_no).num_records - 1 }),
         lt, undoCtxV) := by
    unfold delete_record
    rw [lockPhase_undo]
    show (if ¬ g.fetch_ok rid.page_no = true then _ else _) = _
    rw [if_neg (fun hc => hc hfetch)]
    show (if ¬ Bitmap.is_set (g.getPage rid.page_no).bitmap rid.slot_no = true
      then _ else _) = _
    rw [if_neg (fun hc => hc hb)]
    rfl
  refine ⟨_, hres,
    delete_record_WFI g lt undoCtxV rid _ lt undoCtxV hWF hI1 hI2 hres, ?_⟩
  split
  · rename_i hfull
    have hEq : release_page_handle
          (g.setPage rid.page_no
            { g.getPage rid.page_no with
              bitmap := Bitmap.reset (g.getPage rid.page_no).bitmap rid.slot_no
              num_records := (g.getPage rid.page_no).num_records - 1 })
          rid.page_no
        = RmFile.mk_first
            (g.setPage rid.page_no
              { g.getPage rid.page_no with
                bitmap := Bitmap.reset (g.getPage rid.page_no).bitmap rid.slot_no
                num_records := (g.getPage rid.page_no).num_records - 1
                next_free_page_no := g.first_free_page_no })
            (↑rid.page_no) := by
      unfold release_page_handle
      rw [getPage_setPage_self g rid.page_no _ h1 h2]
      show RmFile.mk _ _ _ _ ((g.pages.set _ _).set _ _) = _
      rw [List.set_set]
      rfl
    rw [hEq]
    obtain ⟨ho1, ho2⟩ := obs_reset_slot g rid.page_no rid.slot_no
      { g.getPage rid.page_no with
        bitmap := Bitmap.reset (g.getPage rid.page_no).bitmap rid.slot_no
        num_records := (g.getPage rid.page_no).num_records - 1
        next_free_page_no := g.first_free_page_no } h1 h2 rfl rfl hb
    refine ⟨rfl, rfl, rfl, by rw [RmFile.mk_first_pages, setPage_length], ?_, ?_⟩
    · rw [obs_only_pages _ _ (RmFile.mk_first_pages _ _) ⟨rid.page_no, rid.slot_no⟩]
      exact ho1
    · intro x hx
      rw [obs_only_pages _ _ (RmFile.mk_first_pages _ _) x]
      exact ho2 x hx
  · obtain ⟨ho1, ho2⟩ := obs_reset_slot g rid.page_no rid.slot_no
      { g.getPage rid.page_no with
        bitmap := Bitmap.reset (g.getPage rid.page_no).bitmap rid.slot_no
        num_records := (g.getPage rid.page_no).num_records - 1 } h1 h2 rfl rfl hb
    exact ⟨rfl, rfl, rfl, setPage_length g _ _, ho1, ho2⟩

/-- Undoing a delete: the positioned insert_record succeeds on a clear
in-range slot and restores exactly that record (as the truncated/padded
payload copy). -/
theorem insert_at_undo_run (g : RmFile) (rid : Rid) (before : List Nat)
    (hWF : g.WFpages) (hI1 : g.I1) (hI2 : g.I2)
    (h1 : 1 ≤ rid.page_no) (h2 : rid.page_no ≤ g.pages.length)
    (h3 : rid.slot_no < g.num_records_per_page)
    (hb : Bitmap.is_set (g.getPage rid.page_no).bitmap rid.slot_no = false) :
    ∃ g2, insert_record_at g rid before = (.ok (), g2)
      ∧ (g2.WFpages ∧ g2.I1 ∧ g2.I2)
      ∧ g2.name = g.name ∧ g2.record_size = g.record_size
      ∧ g2.num_records_per_page = g.num_records_per_page
      ∧ g2.pages.length = g.pages.length
      ∧ g2.obs ⟨rid.page_no, rid.slot_no⟩ = some (memcpyBytes g.record_size before)
      ∧ (∀ x : Rid, x ≠ ⟨rid.page_no, rid.slot_no⟩ → g2.obs x = g.obs x) := by
  have hmem := getPage_mem g rid.page_no h1 h2
  obtain ⟨hbm, hsl, hsb⟩ := hWF _ hmem
  have hres : insert_record_at g rid before
      = (.ok (),
         (if ({ g.getPage rid.page_no with
                slots := (g.getPage rid.page_no).slots.set rid.slot_no
                  (memcpyBytes g.record_size before)
                bitmap := Bitmap.set (g.getPage rid.page_no).bitmap rid.slot_no
                num_records := (g.getPage rid.page_no).num_records + 1 } :
              RmPage).num_records = g.num_records_per_page then
            if g.first_free_page_no = ↑rid.page_no then
              RmFile.mk_first
                (g.setPage rid.page_no
                  { g.getPage rid.page_no with
                    slots := (g.getPage rid.page_no).slots.set rid.slot_no
                      (memcpyBytes g.record_size before)
                    bitmap := Bitmap.set (g.getPage rid.page_no).bitmap rid.slot_no
                    num_records := (g.getPage rid.page_no).num_records + 1 })
                (g.getPage rid.page_no).next_free_page_no
            else g.setPage rid.page_no
              { g.getPage rid.page_no with
                slots := (g.getPage rid.page_no).slots.set rid.slot_no
                  (memcpyBytes g.record_size before)
                bitmap := Bitmap.set (g.getPage rid.page_no).bitmap rid.slot_no
                num_records := (g.getPage rid.page_no).num_records + 1 }
          else g.setPage rid.page_no
            { g.getPage rid.page_no with
              slots := (g.getPage rid.page_no).slots.set rid.slot_no
                (memcpyBytes g.record_size before)
              bitmap := Bitmap.set (g.getPage rid.page_no).bitmap rid.slot_no
              num_records := (g.getPage rid.page_no).num_records + 1 })) := by
    unfold insert_record_at
    rw [if_neg (show ¬ (rid.page_no ≤ 0 ∨ rid.page_no ≥ g.num_pages)
      from not_out_of_range rid.page_no g.pages.length h1 h2)]
    rw [if_neg (show ¬ rid.slot_no ≥ g.num_records_per_page from Nat.not_le.mpr h3)]
    show (if Bitmap.is_set (g.getPage rid.page_no).bitmap rid.slot_no = true
      then _ else _) = _
    rw [if_neg (by rw [hb]; exact Bool.false_ne_true)]
    rfl
  set pg2 : RmPage :=
    { g.getPage rid.page_no with
      slots := (g.getPage rid.page_no).slots.set rid.slot_no
        (memcpyBytes g.record_size before)
      bitmap := Bitmap.set (g.getPage rid.page_no).bitmap rid.slot_no
      num_records := (g.getPage rid.page_no).num_records + 1 } with hpg2
  obtain ⟨ho1, ho2⟩ := obs_write_slot g rid.page_no rid.slot_no pg2
    (memcpyBytes g.record_size before) h1 h2 (by rw [hsl]; exact h3)
    (by rw [hbm]; exact h3) (by rw [hpg2]) (by rw [hpg2])
  refine ⟨_, hres, insert_record_at_WFI g rid before _ hWF hI1 hI2 hres, ?_⟩
  split
  · split
    · exact ⟨rfl, rfl, rfl, by rw [RmFile.mk_first_pages, setPage_length],
        by rw [obs_only_pages _ _ (RmFile.mk_first_pages _ _)]; exact ho1,
        fun x hx => by rw [obs_only_pages _ _ (RmFile.mk_first_pages _ _)]; exact ho2 x hx⟩
    · exact ⟨rfl, rfl, rfl, setPage_length g _ _, ho1, ho2⟩
  · exact ⟨rfl, rfl, rfl, setPage_length g _ _, ho1, ho2⟩

/-- Undoing an update: update_record through the undo context succeeds on
an occupied in-range slot, touches no locks, and restores exactly that
record. -/
theorem update_undo_run (g : RmFile) (lt : LockTable) (rid : Rid) (before : List Nat)
    (hWF : g.WFpages) (hI1 : g.I1) (hI2 : g.I2)
    (h1 : 1 ≤ rid.page_no) (h2 : rid.page_no ≤ g.pages.length)
    (hb : Bitmap.is_set (g.getPage rid.page_no).bitmap rid.slot_no = true) :
    ∃ g2, update_record g lt undoCtxV rid before = (.ok (), g2, lt, undoCtxV)
      ∧ (g2.WFpages ∧ g2.I1 ∧ g2.I2)
      ∧ g2.name = g.name ∧ g2.record_size = g.record_size
      ∧ g2.num_records_per_page = g.num_records_per_page
      ∧ g2.pages.length = g.pages.length
      ∧ g2.obs ⟨rid.page_no, rid.slot_no⟩ = some (memcpyBytes g.record_size before)
      ∧ (∀ x : Rid, x ≠ ⟨rid.page_no, rid.slot_no⟩ → g2.obs x = g.obs x) := by
  have hfetch := fetch_ok_of_bounds g rid.page_no h1 h2
  have hmem := getPage_mem g rid.page_no h1 h2
  obtain ⟨hbm, hsl, hsb⟩ := hWF _ hmem
  have hslt := is_set_lt _ _ hb
  have hres : update_record g lt undoCtxV rid before
      = (.ok (),
         g.setPage rid.page_no
           ((g.getPage rid.page_no).writeSlot g.record_size rid.slot_no before),
         lt, undoCtxV) := by
    unfold update_record
    rw [lockPhase_undo]
    show (if ¬ g.fetch_ok rid.page_no = true then _ else _) = _
    rw [if_neg (fun hc => hc hfetch)]
    show (if ¬ Bitmap.is_set (g.getPage rid.page_no).bitmap rid.slot_no = true
      then _ else _) = _
    rw [if_neg (fun hc => hc hb)]
    rfl
  obtain ⟨ho1, ho2⟩ := obs_update_slot g rid.page_no rid.slot_no
    ((g.getPage rid.page_no).writeSlot g.record_size rid.slot_no before)
    (memcpyBytes g.record_size before) h1 h2 (by rw [hsl, ← hbm]; exact hslt) hb rfl rfl
  refine ⟨_, hres,
    update_record_WFI g lt undoCtxV rid before _ lt undoCtxV hWF hI1 hI2 hres,
    rfl, rfl, rfl, setPage_length g _ _, ho1, ho2⟩

/-- The lock-table and context outputs of a successful delete_record. -/
theorem delete_record_lock_out (f : RmFile) (lt : LockTable) (c : Option Ctx)
    (rid : Rid) (f' : RmFile) (lt' : LockTable) (c' : Option Ctx)
    (h : delete_record f lt c rid = (.ok (), f', lt', c')) :
    ∃ v c2, lockPhase c lt (write_lockIds f.name rid) = (.ok v, c2, lt')
      ∧ c' = (if should_record_write c2 then
                ctxAppendWrite c2 (.DELETE_TUPLE f.name rid
                  ((f.getPage rid.page_no).readSlot f.record_size rid.slot_no))
              else c2) := by
  rcases hlp : lockPhase c lt (write_lockIds f.name rid) with ⟨lr, c2, lt2⟩
  unfold delete_record at h
  rw [hlp] at h
  cases lr with
  | error e => simp at h
  | ok v =>
    dsimp only at h
    split at h
    · simp at h
    · split at h
      · simp at h
      · simp only [Prod.mk.injEq] at h
        obtain ⟨-, -, hlt, hc⟩ := h
        exact ⟨v, c2, by rw [hlt], hc.symm⟩

/-- The lock-table and context outputs of a successful update_record. -/
theorem update_record_lock_out (f : RmFile) (lt : LockTable) (c : Option Ctx)
    (rid : Rid) (buf : List Nat) (f' : RmFile) (lt' : LockTable) (c' : Option Ctx)
    (h : update_record f lt c rid buf = (.ok (), f', lt', c')) :
    ∃ v c2, lockPhase c lt (write_lockIds f.name rid) = (.ok v, c2, lt')
      ∧ c' = (if should_record_write c2 then
                ctxAppendWrite c2 (.UPDATE_TUPLE f.name rid
                  ((f.getPage rid.page_no).readSlot f.record_size rid.slot_no))
              else c2) := by
  rcases hlp : lockPhase c lt (write_lockIds f.name rid) with ⟨lr, c2, lt2⟩
  unfold update_record at h
  rw [hlp] at h
  cases lr with
  | error e => simp at h
  | ok v =>
    dsimp only at h
    split at h
    · simp at h
    · split at h
      · simp at h
      · simp only [Prod.mk.injEq] at h
        obtain ⟨-, -, hlt, hc⟩ := h
        exact ⟨v, c2, by rw [hlt], hc.symm⟩

/-- The lock-table and context outputs of a successful insert_record. -/
theorem insert_record_lock_out (f : RmFile) (lt : LockTable) (c : Option Ctx)
    (buf : List Nat) (r : Rid) (f' : RmFile) (lt' : LockTable) (c' : Option Ctx)
    (h : insert_record f lt c buf = (.ok r, f', lt', c')) :
    ∃ v c2, lockPhase c lt (insert_record_lockIds f.name) = (.ok v, c2, lt')
      ∧ c' = (if should_record_write c2 then
                ctxAppendWrite c2 (.INSERT_TUPLE f.name r)
              else c2) := by
  rcases hlp : lockPhase c lt (insert_record_lockIds f.name) with ⟨lr, c2, lt2⟩
  unfold insert_record at h
  rw [hlp] at h
  cases lr with
  | error e => simp at h
  | ok v =>
    dsimp only at h
    rcases hcp : create_page_handle f with ce | ⟨f1, p⟩ <;> rw [hcp] at h <;> dsimp only at h
    · simp at h
    · split at h
      · simp at h
      · simp only [Prod.mk.injEq, Except.ok.injEq] at h
        obtain ⟨hr, -, hlt, hc⟩ := h
        exact ⟨v, c2, by rw [hlt], by rw [hc.symm, hr]⟩

/-- The observable effect of delete_record's file transformation. -/
theorem delete_result_obs (g : RmFile) (rid : Rid) (g2 : RmFile)
    (h1 : 1 ≤ rid.page_no) (h2 : rid.page_no ≤ g.pages.length)
    (hb : Bitmap.is_set (g.getPage rid.page_no).bitmap rid.slot_no = true)
    (hg2 : g2 = (if (g.getPage rid.page_no).num_records = g.num_records_per_page
            then release_page_handle
                   (g.setPage rid.page_no
                     { g.getPage rid.page_no with
                       bitmap := Bitmap.reset (g.getPage rid.page_no).bitmap rid.slot_no
                       num_records := (g.getPage rid.page_no).num_records - 1 })
                   rid.page_no
            else g.setPage rid.page_no
                   { g.getPage rid.page_no with
                     bitmap := Bitmap.reset (g.getPage rid.page_no).bitmap rid.slot_no
                     num_records := (g.getPage rid.page_no).num_records - 1 })) :
    g2.name = g.name ∧ g2.record_size = g.record_size
    ∧ g2.num_records_per_page = g.num_records_per_page
    ∧ g2.pages.length = g.pages.length
    ∧ g2.obs ⟨rid.page_no, rid.slot_no⟩ = none
    ∧ (∀ x : Rid, x ≠ ⟨rid.page_no, rid.slot_no⟩ → g2.obs x = g.obs x) := by
  subst hg2
  split
  · have hEq : release_page_handle
          (g.setPage rid.page_no
            { g.getPage rid.page_no with
              bitmap := Bitmap.reset (g.getPage rid.page_no).bitmap rid.slot_no
              num_records := (g.getPage rid.page_no).num_records - 1 })
          rid.page_no
        = RmFile.mk_first
            (g.setPage rid.page_no
              { g.getPage rid.page_no with
                bitmap := Bitmap.reset (g.getPage rid.page_no).bitmap rid.slot_no
                num_records := (g.getPage rid.page_no).num_records - 1
                next_free_page_no := g.first_free_page_no })
            (↑rid.page_no) := by
      unfold release_page_handle
      rw [getPage_setPage_self g rid.page_no _ h1 h2]
      show RmFile.mk _ _ _ _ ((g.pages.set _ _).set _ _) = _
      rw [List.set_set]
      rfl
    rw [hEq]
    obtain ⟨ho1, ho2⟩ := obs_reset_slot g rid.page_no rid.slot_no
      { g.getPage rid.page_no with
        bitmap := Bitmap.reset (g.getPage rid.page_no).bitmap rid.slot_no
        num_records := (g.getPage rid.page_no).num_records - 1
        next_free_page_no := g.first_free_page_no } h1 h2 rfl rfl hb
    refine ⟨rfl, rfl, rfl, by rw [RmFile.mk_first_pages, setPage_length], ?_, ?_⟩
    · rw [obs_only_pages _ _ (RmFile.mk_first_pages _ _) ⟨rid.page_no, rid.slot_no⟩]
      exact ho1
    · intro x hx
      rw [obs_only_pages _ _ (RmFile.mk_first_pages _ _) x]
      exact ho2 x hx
  · obtain ⟨ho1, ho2⟩ := obs_reset_slot g rid.page_no rid.slot_no
      { g.getPage rid.page_no with
        bitmap := Bitmap.reset (g.getPage rid.page_no).bitmap rid.slot_no
        num_records := (g.getPage rid.page_no).num_records - 1 } h1 h2 rfl rfl hb
    exact ⟨rfl, rfl, rfl, setPage_length g _ _, ho1, ho2⟩

/-- Forward effect of delete_record under a live GROWING transaction:
appends exactly one DELETE_TUPLE record carrying the before-image, and
removes exactly the deleted record from the observable state. -/
theorem delete_forward (f : RmFile) (lt : LockTable) (t : Txn) (rid : Rid)
    (f' : RmFile) (lt' : LockTable) (c' : Option Ctx)
    (hWF : f.WFpages) (hst : t.state = .GROWING)
    (h : delete_record f lt (some ⟨some t, true⟩) rid = (.ok (), f', lt', c')) :
    (∃ t2, c' = some ⟨some t2, true⟩ ∧ t2.txn_id = t.txn_id ∧ t2.state = t.state
      ∧ t2.write_set = t.write_set ++ [.DELETE_TUPLE f.name rid
          ((f.getPage rid.page_no).readSlot f.record_size rid.slot_no)])
    ∧ f'.name = f.name ∧ f'.record_size = f.record_size
    ∧ f'.num_records_per_page = f.num_records_per_page
    ∧ f'.pages.length = f.pages.length
    ∧ (1 ≤ rid.page_no ∧ rid.page_no ≤ f.pages.length)
    ∧ rid.slot_no < f.num_records_per_page
    ∧ f.obs rid = some ((f.getPage rid.page_no).readSlot f.record_size rid.slot_no)
    ∧ f'.obs ⟨rid.page_no, rid.slot_no⟩ = none
    ∧ (∀ x : Rid, x ≠ ⟨rid.page_no, rid.slot_no⟩ → f'.obs x = f.obs x) := by
  obtain ⟨hfetch, hbit, hf⟩ := delete_record_ok_inv f lt _ rid f' lt' c' h
  obtain ⟨v, c2, hlp, hc'⟩ := delete_record_lock_out f lt _ rid f' lt' c' h
  obtain ⟨hp1, hp2⟩ := fetch_ok_bounds f rid.page_no hfetch
  have hmem := getPage_mem f rid.page_no hp1 hp2
  obtain ⟨hbm, hsl, hsb⟩ := hWF _ hmem
  have hslt := is_set_lt _ _ hbit
  rw [lockPhase_live] at hlp
  obtain ⟨t2, hc2, hid, hstq, hws⟩ := ctxLockMany_txn _ t lt v c2 lt' hlp
  subst hc2
  have hsrw : should_record_write (some ⟨some t2, true⟩) = true := by
    simp [should_record_write, hstq, hst]
  have hobs : f.obs rid
      = some ((f.getPage rid.page_no).readSlot f.record_size rid.slot_no) := by
    have hraw : (f.getPage rid.page_no).slots.getD rid.slot_no []
        ∈ (f.getPage rid.page_no).slots := lGetD_mem _ _ _ (by rw [hsl, ← hbm]; exact hslt)
    have hlen := hsb _ hraw
    unfold RmFile.obs RmPage.readSlot
    rw [if_pos ⟨hp1, hp2⟩, if_pos hbit, memcpyBytes_of_length _ _ hlen]
  obtain ⟨hn, hrs, hper, hplen, ho1, ho2⟩ :=
    delete_result_obs f rid f' hp1 hp2 hbit hf
  refine ⟨⟨{ t2 with write_set := t2.write_set
      ++ [.DELETE_TUPLE f.name rid
            ((f.getPage rid.page_no).readSlot f.record_size rid.slot_no)] },
      ?_, hid, hstq, by rw [hws]⟩,
    hn, hrs, hper, hplen, ⟨hp1, hp2⟩, by rw [← hbm]; exact hslt, hobs, ho1, ho2⟩
  rw [hc', if_pos hsrw]
  rfl

/-- Forward effect of update_record under a live GROWING transaction:
appends exactly one UPDATE_TUPLE record carrying the before-image, and
replaces exactly the updated record in the observable state. -/
theorem update_forward (f : RmFile) (lt : LockTable) (t : Txn) (rid : Rid)
    (buf : List Nat) (f' : RmFile) (lt' : LockTable) (c' : Option Ctx)
    (hWF : f.WFpages) (hst : t.state = .GROWING)
    (h : update_record f lt (some ⟨some t, true⟩) rid buf = (.ok (), f', lt', c')) :
    (∃ t2, c' = some ⟨some t2, true⟩ ∧ t2.txn_id = t.txn_id ∧ t2.state = t.state
      ∧ t2.write_set = t.write_set ++ [.UPDATE_TUPLE f.name rid
          ((f.getPage rid.page_no).readSlot f.record_size rid.slot_no)])
    ∧ f'.name = f.name ∧ f'.record_size = f.record_size
    ∧ f'.num_records_per_page = f.num_records_per_page
    ∧ f'.pages.length = f.pages.length
    ∧ f.obs rid = some ((f.getPage rid.page_no).readSlot f.record_size rid.slot_no)
    ∧ f'.obs ⟨rid.page_no, rid.slot_no⟩ = some (memcpyBytes f.record_size buf)
    ∧ (∀ x : Rid, x ≠ ⟨rid.page_no, rid.slot_no⟩ → f'.obs x = f.obs x) := by
  obtain ⟨hfetch, hbit, hf⟩ := update_record_ok_inv f lt _ rid buf f' lt' c' h
  obtain ⟨v, c2, hlp, hc'⟩ := update_record_lock_out f lt _ rid buf f' lt' c' h
  obtain ⟨hp1, hp2⟩ := fetch_ok_bounds f rid.page_no hfetch
  have hmem := getPage_mem f rid.page_no hp1 hp2
  obtain ⟨hbm, hsl, hsb⟩ := hWF _ hmem
  have hslt := is_set_lt _ _ hbit
  rw [lockPhase_live] at hlp
  obtain ⟨t2, hc2, hid, hstq, hws⟩ := ctxLockMany_txn _ t lt v c2 lt' hlp
  subst hc2
  have hsrw : should_record_write (some ⟨some t2, true⟩) = true := by
    simp [should_record_write, hstq, hst]
  have hobs : f.obs rid
      = some ((f.getPage rid.page_no).readSlot f.record_size rid.slot_no) := by
    have hraw : (f.getPage rid.page_no).slots.getD rid.slot_no []
        ∈ (f.getPage rid.page_no).slots := lGetD_mem _ _ _ (by rw [hsl, ← hbm]; exact hslt)
    have hlen := hsb _ hraw
    unfold RmFile.obs RmPage.readSlot
    rw [if_pos ⟨hp1, hp2⟩, if_pos hbit, memcpyBytes_of_length _ _ hlen]
  obtain ⟨ho1, ho2⟩ := obs_update_slot f rid.page_no rid.slot_no
    ((f.getPage rid.page_no).writeSlot f.record_size rid.slot_no buf)
    (memcpyBytes f.record_size buf) hp1 hp2 (by rw [hsl, ← hbm]; exact hslt) hbit rfl rfl
  subst hf
  refine ⟨⟨{ t2 with write_set := t2.write_set
      ++ [.UPDATE_TUPLE f.name rid
            ((f.getPage rid.page_no).readSlot f.record_size rid.slot_no)] },
      ?_, hid, hstq, by rw [hws]⟩,
    rfl, rfl, rfl, setPage_length f _ _, hobs, ho1, ho2⟩
  rw [hc', if_pos hsrw]
  rfl

/-- Forward effect of insert_record under a live GROWING transaction:
appends exactly one INSERT_TUPLE record, and adds exactly the new record
(at a previously empty rid) to the observable state. -/
theorem insert_forward (f : RmFile) (lt : LockTable) (t : Txn) (buf : List Nat)
    (r : Rid) (f' : RmFile) (lt' : LockTable) (c' : Option Ctx)
    (hWF : f.WFpages) (hst : t.state = .GROWING)
    (h : insert_record f lt (some ⟨some t, true⟩) buf = (.ok r, f', lt', c')) :
    (∃ t2, c' = some ⟨some t2, true⟩ ∧ t2.txn_id = t.txn_id ∧ t2.state = t.state
      ∧ t2.write_set = t.write_set ++ [.INSERT_TUPLE f.name r])
    ∧ f'.name = f.name ∧ f'.record_size = f.record_size
    ∧ f'.num_records_per_page = f.num_records_per_page
    ∧ f.pages.length ≤ f'.pages.length
    ∧ f.obs r = none
    ∧ f'.obs r = some (memcpyBytes f.record_size buf)
    ∧ (∀ x : Rid, x ≠ r → f'.obs x = f.obs x) := by
  obtain ⟨f1, p, hcp, hslot, hr, hf⟩ := insert_record_ok_inv f lt _ buf r f' lt' c' h
  obtain ⟨v, c2, hlp, hc'⟩ := insert_record_lock_out f lt _ buf r f' lt' c' h
  rw [lockPhase_live] at hlp
  obtain ⟨t2, hc2, hid, hstq, hws⟩ := ctxLockMany_txn _ t lt v c2 lt' hlp
  subst hc2
  have hsrw : should_record_write (some ⟨some t2, true⟩) = true := by
    simp [should_record_write, hstq, hst]
  have hctx : ∃ t3, c' = some ⟨some t3, true⟩ ∧ t3.txn_id = t.txn_id
      ∧ t3.state = t.state ∧ t3.write_set = t.write_set ++ [.INSERT_TUPLE f.name r] := by
    refine ⟨{ t2 with write_set := t2.write_set ++ [.INSERT_TUPLE f.name r] },
      ?_, hid, hstq, by rw [hws]⟩
    rw [hc', if_pos hsrw]
    rfl
  refine ⟨hctx, ?_⟩
  rcases create_page_handle_cases f f1 p hcp with ⟨hfirst, hf1, hp⟩ | ⟨hfirst, hf1, hfok⟩
  · -- fresh page appended at page_no = pages.length + 1
    subst hf1
    subst hp
    have hpgnew : (create_new_page f).1.getPage (f.pages.length + 1)
        = ⟨0, RM_NO_PAGE, List.replicate f.num_records_per_page false,
           List.replicate f.num_records_per_page (List.replicate f.record_size 0)⟩ := by
      show (f.pages ++ [_]).getD (f.pages.length + 1 - 1) _ = _
      simpa using lGetD_append_length f.pages _ _
    rw [hpgnew] at hslot hf hr
    obtain ⟨hsl_lt, hsl_clear⟩ :=
      first_bit_clear_spec (List.replicate f.num_records_per_page false)
        f.num_records_per_page (by simpa using hslot)
    set slot := Bitmap.first_bit_clear (List.replicate f.num_records_per_page false)
      f.num_records_per_page with hslotdef
    have hrr : r = ⟨f.pages.length + 1, slot⟩ := by
      rw [hr]
      show Rid.mk _ (Bitmap.first_bit_clear (List.replicate f.num_records_per_page false)
        f.num_records_per_page) = _
      rw [hslotdef]
    -- the appended page, branch-independent
    have key : ∀ ff : Int,
        ((⟨f.name, f.record_size, f.num_records_per_page, ff,
          f.pages ++ [⟨1, RM_NO_PAGE,
            Bitmap.set (List.replicate f.num_records_per_page false) slot,
            (List.replicate f.num_records_per_page
              (List.replicate f.record_size 0)).set slot
              (memcpyBytes f.record_size buf)⟩]⟩ : RmFile).obs r
            = some (memcpyBytes f.record_size buf))
        ∧ (∀ x : Rid, x ≠ r →
          ((⟨f.name, f.record_size, f.num_records_per_page, ff,
            f.pages ++ [⟨1, RM_NO_PAGE,
              Bitmap.set (List.replicate f.num_records_per_page false) slot,
              (List.replicate f.num_records_per_page
                (List.replicate f.record_size 0)).set slot
                (memcpyBytes f.record_size buf)⟩]⟩ : RmFile).obs x = f.obs x)) := by
      intro ff
      constructor
      · rw [hrr, obs_append_file, if_pos rfl,
          is_set_set_self _ _ (by simpa using hsl_lt)]
        simp only [if_true]
        rw [lGetD_set_self _ _ _ _ (by simpa using hsl_lt)]
      · intro x hx
        rw [obs_append_file]
        by_cases hxp : x.page_no = f.pages.length + 1
        · rw [if_pos hxp]
          have hxs : x.slot_no ≠ slot := by
            intro he
            apply hx
            rw [hrr]
            cases x with
            | mk a b =>
              simp only at hxp he
              rw [hxp, he]
          rw [is_set_set_ne _ slot x.slot_no (Ne.symm hxs), is_set_replicate_false]
          unfold RmFile.obs
          rw [if_neg (show ¬ (1 ≤ x.page_no ∧ x.page_no ≤ f.pages.length)
            from fun hc => Nat.not_succ_le_self f.pages.length (hxp.symm.trans_le hc.2))]
          rfl
        · rw [if_neg hxp]
    have hobs0 : f.obs r = none := by
      rw [hrr]
      unfold RmFile.obs
      rw [if_neg (show ¬ (1 ≤ f.pages.length + 1 ∧ f.pages.length + 1 ≤ f.pages.length)
        from fun hc => Nat.not_succ_le_self f.pages.length hc.2)]
    by_cases hfull : (1 : Nat) = f.num_records_per_page
    · have hEq : f'
          = (⟨f.name, f.record_size, f.num_records_per_page, RM_NO_PAGE,
              f.pages ++ [⟨1, RM_NO_PAGE,
                Bitmap.set (List.replicate f.num_records_per_page false) slot,
                (List.replicate f.num_records_per_page
                  (List.replicate f.record_size 0)).set slot
                  (memcpyBytes f.record_size buf)⟩]⟩ : RmFile) := by
        rw [hf]
        show (if (0 + 1 : Nat) = f.num_records_per_page then _ else _) = _
        rw [if_pos (show (0 + 1 : Nat) = f.num_records_per_page from hfull)]
        show RmFile.mk _ _ _ _ ((f.pages ++ [_]).set (f.pages.length + 1 - 1) _) = _
        rw [Nat.add_sub_cancel, set_append_last]
        rfl
      rw [hEq]
      exact ⟨rfl, rfl, rfl, by simp, hobs0, (key RM_NO_PAGE).1, (key RM_NO_PAGE).2⟩
    · have hEq : f'
          = (⟨f.name, f.record_size, f.num_records_per_page,
              ((f.pages.length + 1 : Nat) : Int),
              f.pages ++ [⟨1, RM_NO_PAGE,
                Bitmap.set (List.replicate f.num_records_per_page false) slot,
                (List.replicate f.num_records_per_page
                  (List.replicate f.record_size 0)).set slot
                  (memcpyBytes f.record_size buf)⟩]⟩ : RmFile) := by
        rw [hf]
        show (if (0 + 1 : Nat) = f.num_records_per_page then _ else _) = _
        rw [if_neg (show ¬ ((0 + 1 : Nat) = f.num_records_per_page) from hfull)]
        show RmFile.mk _ _ _ _ ((f.pages ++ [_]).set (f.pages.length + 1 - 1) _) = _
        rw [Nat.add_sub_cancel, set_append_last]
        rfl
      rw [hEq]
      exact ⟨rfl, rfl, rfl, by simp,
        hobs0, (key _).1, (key _).2⟩
  · -- existing free-list head page
    rw [hf1] at hslot hf hr
    obtain ⟨hp1, hp2⟩ := fetch_ok_bounds f p hfok
    have hmem := getPage_mem f p hp1 hp2
    obtain ⟨hbm, hsl, hsb⟩ := hWF _ hmem
    obtain ⟨hsl_lt, hsl_clear⟩ :=
      first_bit_clear_spec (f.getPage p).bitmap f.num_records_per_page hslot
    set slot := Bitmap.first_bit_clear (f.getPage p).bitmap f.num_records_per_page
      with hslotdef
    have hrr : r = ⟨p, slot⟩ := hr
    obtain ⟨ho1, ho2⟩ := obs_write_slot f p slot
      { (f.getPage p).writeSlot f.record_size slot buf with
        bitmap := Bitmap.set (f.getPage p).bitmap slot
        num_records := (f.getPage p).num_records + 1 }
      (memcpyBytes f.record_size buf) hp1 hp2 (by rw [hsl]; exact hsl_lt)
      (by rw [hbm]; exact hsl_lt) rfl rfl
    have hobs0 : f.obs r = none := by
      rw [hrr]
      unfold RmFile.obs
      rw [if_pos ⟨hp1, hp2⟩]
      show (if Bitmap.is_set (f.getPage p).bitmap slot = true then _ else _) = _
      rw [hsl_clear]
      rfl
    have key : ∀ g2 : RmFile,
        g2 = f.setPage p
          { (f.getPage p).writeSlot f.record_size slot buf with
            bitmap := Bitmap.set (f.getPage p).bitmap slot
            num_records := (f.getPage p).num_records + 1 }
        ∨ g2 = RmFile.mk_first
            (f.setPage p
              { (f.getPage p).writeSlot f.record_size slot buf with
                bitmap := Bitmap.set (f.getPage p).bitmap slot
                num_records := (f.getPage p).num_records + 1 })
            ((f.getPage p).next_free_page_no) →
        g2.name = f.name ∧ g2.record_size = f.record_size
        ∧ g2.num_records_per_page = f.num_records_per_page
        ∧ f.pages.length ≤ g2.pages.length
        ∧ f.obs r = none
        ∧ g2.obs r = some (memcpyBytes f.record_size buf)
        ∧ (∀ x : Rid, x ≠ r → g2.obs x = f.obs x) := by
      rintro g2 (hg | hg) <;> subst hg
      · exact ⟨rfl, rfl, rfl, by rw [setPage_length], hobs0,
          by rw [hrr]; exact ho1, fun x hx => ho2 x (by rw [hrr] at hx; exact hx)⟩
      · refine ⟨rfl, rfl, rfl, by rw [RmFile.mk_first_pages, setPage_length], hobs0,
          ?_, ?_⟩
        · rw [obs_only_pages _ _ (RmFile.mk_first_pages _ _) r, hrr]
          exact ho1
        · intro x hx
          rw [obs_only_pages _ _ (RmFile.mk_first_pages _ _) x]
          exact ho2 x (by rw [hrr] at hx; exact hx)
    apply key f'
    rw [hf]
    dsimp only
    split
    · right
      rfl
    · left
      rfl

/-- Simulation between an undo-side file and a forward-side file: the
undo-side file is structurally sound, agrees on the header constants, has
at least as many pages, and exposes the same records. -/
structure FileSim (g h : RmFile) : Prop where
  wf : g.WFpages
  i1 : g.I1
  i2 : g.I2
  name_eq : g.name = h.name
  rs_eq : g.record_size = h.record_size
  per_eq : g.num_records_per_page = h.num_records_per_page
  len_ge : h.pages.length ≤ g.pages.length
  obs_eq : ∀ x : Rid, g.obs x = h.obs x

/-- Positional simulation between two table maps. -/
def filesSim : List (String × RmFile) → List (String × RmFile) → Prop
  | [], [] => True
  | e1 :: r1, e2 :: r2 => e1.1 = e2.1 ∧ FileSim e1.2 e2.2 ∧ filesSim r1 r2
  | _, _ => False

theorem FileSim.refl (g : RmFile) (hWF : g.WFpages) (hI1 : g.I1) (hI2 : g.I2) :
    FileSim g g :=
  ⟨hWF, hI1, hI2, rfl, rfl, rfl, Nat.le_refl _, fun _ => rfl⟩

theorem filesSim_refl (files : List (String × RmFile))
    (h : ∀ nf ∈ files, (nf.2).Inv) : filesSim files files := by
  induction files with
  | nil => exact trivial
  | cons e rest ih =>
    have he := h e (List.mem_cons_self _ _)
    exact ⟨rfl, FileSim.refl e.2 he.1 he.2.1 he.2.2.1,
      ih (fun nf hm => h nf (List.mem_cons_of_mem e hm))⟩

theorem getFile_mem (files : List (String × RmFile)) (tab : String) (f : RmFile)
    (h : getFile files tab = some f) : (tab, f) ∈ files := by
  induction files with
  | nil => simp [getFile] at h
  | cons e rest ih =>
    unfold getFile at h
    split at h
    · rename_i hn
      have h2 : e.2 = f := by injection h
      rw [← hn, ← h2]
      exact List.mem_cons_self _ _
    · exact List.mem_cons_of_mem e (ih h)

theorem getFile_setFile_self (files : List (String × RmFile)) (tab : String)
    (f f2 : RmFile) (h : getFile files tab = some f) :
    getFile (setFile files tab f2) tab = some f2 := by
  induction files with
  | nil => simp [getFile] at h
  | cons e rest ih =>
    unfold getFile at h
    unfold setFile
    split at h
    · rename_i hn
      rw [if_pos hn]
      unfold getFile
      rw [if_pos hn]
    · rename_i hn
      rw [if_neg hn]
      unfold getFile
      rw [if_neg hn]
      exact ih h

theorem mem_setFile (files : List (String × RmFile)) (tab : String) (f2 : RmFile)
    (nf : String × RmFile) (h : nf ∈ setFile files tab f2) :
    nf ∈ files ∨ nf = (tab, f2) := by
  induction files with
  | nil => simp [setFile] at h
  | cons e rest ih =>
    unfold setFile at h
    split at h
    · rename_i hn
      rcases List.mem_cons.mp h with h1 | h1
      · right
        rw [h1, hn]
      · left
        exact List.mem_cons_of_mem e h1
    · rcases List.mem_cons.mp h with h1 | h1
      · left
        rw [h1]
        exact List.mem_cons_self _ _
      · rcases ih h1 with h2 | h2
        · left
          exact List.mem_cons_of_mem e h2
        · right
          exact h2

theorem filesSim_getFile (g h : List (String × RmFile)) (tab : String) (fh : RmFile)
    (hsim : filesSim g h) (hget : getFile h tab = some fh) :
    ∃ fg, getFile g tab = some fg ∧ FileSim fg fh := by
  induction g generalizing h with
  | nil =>
    cases h with
    | nil => simp [getFile] at hget
    | cons e2 r2 => exact absurd hsim (by simp [filesSim])
  | cons e1 r1 ih =>
    cases h with
    | nil => exact absurd hsim (by simp [filesSim])
    | cons e2 r2 =>
      obtain ⟨hk, hfs, hrest⟩ := hsim
      unfold getFile at hget
      unfold getFile
      split at hget
      · rename_i hn
        have : e2.2 = fh := by injection hget
        rw [if_pos (hk.trans hn)]
        exact ⟨e1.2, rfl, this ▸ hfs⟩
      · rename_i hn
        rw [if_neg (fun hc => hn (hk ▸ hc))]
        exact ih r2 hrest hget

theorem filesSim_setFile_frame (g h : List (String × RmFile)) (tab : String)
    (fh fh2 fg2 : RmFile)
    (hsim : filesSim g (setFile h tab fh2))
    (hget : getFile h tab = some fh)
    (hfs : FileSim fg2 fh) :
    filesSim (setFile g tab fg2) h := by
  induction g generalizing h with
  | nil =>
    cases h with
    | nil => simp [getFile] at hget
    | cons e2 r2 =>
      exact absurd hsim (by unfold setFile; split <;> simp [filesSim])
  | cons e1 r1 ih =>
    cases h with
    | nil => simp [getFile] at hget
    | cons e2 r2 =>
      unfold getFile at hget
      unfold setFile at hsim
      unfold setFile
      split at hget
      · rename_i hn
        rw [if_pos hn] at hsim
        obtain ⟨hk, hfs1, hrest⟩ := hsim
        have hfh : e2.2 = fh := by injection hget
        rw [if_pos (hk.trans hn)]
        exact ⟨hk, by show FileSim fg2 e2.2; rw [hfh]; exact hfs, hrest⟩
      · rename_i hn
        rw [if_neg hn] at hsim
        obtain ⟨hk, hfs1, hrest⟩ := hsim
        rw [if_neg (fun hc => hn (hk ▸ hc))]
        exact ⟨hk, hfs1, ih r2 hrest hget⟩

/-- The observable record state of a table map. -/
def obsF (files : List (String × RmFile)) (tab : String) (x : Rid) :
    Option (List Nat) :=
  match getFile files tab with
  | some f => f.obs x
  | none => none

theorem filesSim_obsF (g h : List (String × RmFile)) (hsim : filesSim g h)
    (tab : String) (x : Rid) : obsF g tab x = obsF h tab x := by
  induction g generalizing h with
  | nil =>
    cases h with
    | nil => rfl
    | cons e2 r2 => exact absurd hsim (by simp [filesSim])
  | cons e1 r1 ih =>
    cases h with
    | nil => exact absurd hsim (by simp [filesSim])
    | cons e2 r2 =>
      obtain ⟨hk, hfs, hrest⟩ := hsim
      unfold obsF getFile
      by_cases hn : e2.1 = tab
      · rw [if_pos (hk.trans hn), if_pos hn]
        exact hfs.obs_eq x
      · rw [if_neg (fun hc => hn (hk ▸ hc)), if_neg hn]
        exact ih r2 hrest

theorem undo_list_append (l1 l2 : List WriteRecord) (g : List (String × RmFile))
    (lt : LockTable) (g1 : List (String × RmFile)) (lt1 : LockTable)
    (h : undo_list g lt l1 = .ok (g1, lt1)) :
    undo_list g lt (l1 ++ l2) = undo_list g1 lt1 l2 := by
  induction l1 generalizing g lt with
  | nil =>
    unfold undo_list at h
    have : g = g1 ∧ lt = lt1 := by
      injection h with h2
      exact ⟨congrArg Prod.fst h2, congrArg Prod.snd h2⟩
    rw [List.nil_append, this.1, this.2]
  | cons w rest ih =>
    have hstep : ∀ (gl : List (String × RmFile)) (ltl : LockTable)
        (l : List WriteRecord),
        undo_list gl ltl (w :: l)
        = (match undo_one gl ltl w with
           | .ok (f2, lt2) => undo_list f2 lt2 l
           | .error e => .error e) := fun _ _ _ => rfl
    rw [hstep] at h
    rw [List.cons_append, hstep]
    rcases hu : undo_one g lt w with e | ⟨g2, lt2⟩
    · rw [hu] at h
      simp at h
    · rw [hu] at h
      exact ih g2 lt2 h

/-- One successful forward operation appends exactly one write record, and
that record undoes to a state observationally equal to the pre-state. -/
theorem runOp_step (s : SysState) (op : TxnOp) (s2 : SysState)
    (hfiles : ∀ nf ∈ s.files, (nf.2).Inv ∧ (nf.2).name = nf.1)
    (hst : s.txn.state = .GROWING)
    (h : runOp s op = (.ok (), s2)) :
    (∀ nf ∈ s2.files, (nf.2).Inv ∧ (nf.2).name = nf.1)
    ∧ s2.txn.state = .GROWING
    ∧ s2.txn.txn_id = s.txn.txn_id
    ∧ ∃ w, s2.txn.write_set = s.txn.write_set ++ [w]
      ∧ ∀ (g : List (String × RmFile)) (lt : LockTable),
          filesSim g s2.files →
          ∃ g2, undo_one g lt w = .ok (g2, lt) ∧ filesSim g2 s.files := by
  cases op with
  | ins tab buf =>
    unfold runOp at h
    dsimp only at h
    rcases hgf : getFile s.files tab with _ | f
    · rw [hgf] at h
      simp at h
    · rw [hgf] at h
      dsimp only at h
      rcases hins : insert_record f s.lt (some ⟨some s.txn, true⟩) buf
        with ⟨ir, f2, lt2, c2⟩
      rw [hins] at h
      cases ir with
      | error e => simp at h
      | ok r =>
        dsimp only at h
        simp only [Prod.mk.injEq] at h
        have hs2 : s2 = ⟨setFile s.files tab f2, lt2, txnOfCtx c2 s.txn⟩ := h.2.symm
        have hPf := hfiles (tab, f) (getFile_mem s.files tab f hgf)
        have hInvf : f.Inv := hPf.1
        have hname : f.name = tab := hPf.2
        obtain ⟨⟨t2, hc2, hid, hst2, hws2⟩, hn, hrs, hper, hlen, hobs0, hobsr, hobsx⟩ :=
          insert_forward f s.lt s.txn buf r f2 lt2 c2 hInvf.1 hst hins
        have hInvf2 : f2.Inv := insert_record_Inv f s.lt _ buf r f2 lt2 c2 hInvf hins
        subst hs2
        refine ⟨?_, ?_, ?_, ⟨.INSERT_TUPLE tab r, ?_, ?_⟩⟩
        · intro nf hm
          rcases mem_setFile s.files tab f2 nf hm with h1 | h1
          · exact hfiles nf h1
          · rw [h1]
            exact ⟨hInvf2, by rw [hn, hname]⟩
        · show (txnOfCtx c2 s.txn).state = .GROWING
          rw [hc2]
          show t2.state = .GROWING
          rw [hst2, hst]
        · show (txnOfCtx c2 s.txn).txn_id = s.txn.txn_id
          rw [hc2]
          exact hid
        · show (txnOfCtx c2 s.txn).write_set = _
          rw [hc2]
          show t2.write_set = _
          rw [hws2, hname]
        · intro g lt hsim
          obtain ⟨fg, hgetg, hfs⟩ := filesSim_getFile g (setFile s.files tab f2) tab f2
            hsim (getFile_setFile_self s.files tab f f2 hgf)
          have hobsg : fg.obs r = some (memcpyBytes f.record_size buf) := by
            rw [hfs.obs_eq r]
            exact hobsr
          obtain ⟨⟨hb1, hb2⟩, hbset, -⟩ := obs_some_facts fg r _ hobsg
          obtain ⟨g2, hdel, hwfi, hgn, hgrs, hgper, hglen, hgobs1, hgobs2⟩ :=
            delete_undo_run fg lt r hfs.wf hfs.i1 hfs.i2 hb1 hb2 hbset
          refine ⟨setFile g tab g2, ?_, ?_⟩
          · show undo_one g lt (.INSERT_TUPLE tab r) = _
            unfold undo_one
            dsimp only
            rw [hgetg]
            show (match delete_record fg lt undoCtxV r with
              | (Except.ok _, f2x, lt2x, _) => Except.ok (setFile g tab f2x, lt2x)
              | (Except.error e, _, _, _) => Except.error e) = _
            rw [hdel]
          · refine filesSim_setFile_frame g s.files tab f f2 g2 hsim hgf ?_
            refine ⟨hwfi.1, hwfi.2.1, hwfi.2.2, ?_, ?_, ?_, ?_, ?_⟩
            · rw [hgn, hfs.name_eq, hn]
            · rw [hgrs, hfs.rs_eq, hrs]
            · rw [hgper, hfs.per_eq, hper]
            · rw [hglen]
              exact Nat.le_trans hlen hfs.len_ge
            · intro x
              by_cases hx : x = r
              · subst hx
                exact hgobs1.trans hobs0.symm
              · rw [hgobs2 x (fun he => hx he)]
                rw [hfs.obs_eq x]
                exact hobsx x hx
  | del tab rid =>
    unfold runOp at h
    dsimp only at h
    rcases hgf : getFile s.files tab with _ | f
    · rw [hgf] at h
      simp at h
    · rw [hgf] at h
      dsimp only at h
      rcases hdel : delete_record f s.lt (some ⟨some s.txn, true⟩) rid
        with ⟨ir, f2, lt2, c2⟩
      rw [hdel] at h
      cases ir with
      | error e => simp at h
      | ok u =>
        dsimp only at h
        simp only [Prod.mk.injEq] at h
        have hs2 : s2 = ⟨setFile s.files tab f2, lt2, txnOfCtx c2 s.txn⟩ := h.2.symm
        have hPf := hfiles (tab, f) (getFile_mem s.files tab f hgf)
        have hInvf : f.Inv := hPf.1
        have hname : f.name = tab := hPf.2
        obtain ⟨⟨t2, hc2, hid, hst2, hws2⟩, hn, hrs, hper, hlen,
            ⟨hb1, hb2⟩, hslot, hobsv, hobs1, hobsx⟩ :=
          delete_forward f s.lt s.txn rid f2 lt2 c2 hInvf.1 hst hdel
        have hInvf2 : f2.Inv := delete_record_Inv f s.lt _ rid f2 lt2 c2 hInvf hdel
        subst hs2
        refine ⟨?_, ?_, ?_, ⟨.DELETE_TUPLE tab rid
          ((f.getPage rid.page_no).readSlot f.record_size rid.slot_no), ?_, ?_⟩⟩
        · intro nf hm
          rcases mem_setFile s.files tab f2 nf hm with h1 | h1
          · exact hfiles nf h1
          · rw [h1]
            exact ⟨hInvf2, by rw [hn, hname]⟩
        · show (txnOfCtx c2 s.txn).state = .GROWING
          rw [hc2]
          show t2.state = .GROWING
          rw [hst2, hst]
        · show (txnOfCtx c2 s.txn).txn_id = s.txn.txn_id
          rw [hc2]
          exact hid
        · show (txnOfCtx c2 s.txn).write_set = _
          rw [hc2]
          show t2.write_set = _
          rw [hws2, hname]
        · intro g lt hsim
          obtain ⟨fg, hgetg, hfs⟩ := filesSim_getFile g (setFile s.files tab f2) tab f2
            hsim (getFile_setFile_self s.files tab f f2 hgf)
          have hblen : ((f.getPage rid.page_no).readSlot f.record_size
              rid.slot_no).length = f.record_size := memcpyBytes_length _ _
          have hb2g : rid.page_no ≤ fg.pages.length :=
            Nat.le_trans hb2 (by rw [← hlen]; exact hfs.len_ge)
          have hbclear : Bitmap.is_set (fg.getPage rid.page_no).bitmap rid.slot_no
              = false := by
            refine obs_none_clear fg ⟨rid.page_no, rid.slot_no⟩ ?_ hb1 hb2g
            rw [hfs.obs_eq]
            exact hobs1
          obtain ⟨g2, hrun, hwfi, hgn, hgrs, hgper, hglen, hgobs1, hgobs2⟩ :=
            insert_at_undo_run fg rid
              ((f.getPage rid.page_no).readSlot f.record_size rid.slot_no)
              hfs.wf hfs.i1 hfs.i2 hb1 hb2g
              (by rw [hfs.per_eq, hper]; exact hslot) hbclear
          have hval : memcpyBytes fg.record_size
              ((f.getPage rid.page_no).readSlot f.record_size rid.slot_no)
              = (f.getPage rid.page_no).readSlot f.record_size rid.slot_no := by
            rw [hfs.rs_eq, hrs]
            exact memcpyBytes_of_length _ _ hblen
          refine ⟨setFile g tab g2, ?_, ?_⟩
          · show undo_one g lt (.DELETE_TUPLE tab rid _) = _
            unfold undo_one
            dsimp only
            rw [hgetg]
            show (match insert_record_at fg rid
                ((f.getPage rid.page_no).readSlot f.record_size rid.slot_no) with
              | (Except.ok _, f2x) => Except.ok (setFile g tab f2x, lt)
              | (Except.error e, _) => Except.error e) = _
            rw [hrun]
          · refine filesSim_setFile_frame g s.files tab f f2 g2 hsim hgf ?_
            refine ⟨hwfi.1, hwfi.2.1, hwfi.2.2, ?_, ?_, ?_, ?_, ?_⟩
            · rw [hgn, hfs.name_eq, hn]
            · rw [hgrs, hfs.rs_eq, hrs]
            · rw [hgper, hfs.per_eq, hper]
            · rw [hglen, ← hlen]
              exact hfs.len_ge
            · intro x
              by_cases hx : x = (⟨rid.page_no, rid.slot_no⟩ : Rid)
              · subst hx
                rw [hgobs1, hval]
                exact hobsv.symm
              · rw [hgobs2 x hx, hfs.obs_eq x]
                exact hobsx x hx
  | upd tab rid buf =>
    unfold runOp at h
    dsimp only at h
    rcases hgf : getFile s.files tab with _ | f
    · rw [hgf] at h
      simp at h
    · rw [hgf] at h
      dsimp only at h
      rcases hupd : update_record f s.lt (some ⟨some s.txn, true⟩) rid buf
        with ⟨ir, f2, lt2, c2⟩
      rw [hupd] at h
      cases ir with
      | error e => simp at h
      | ok u =>
        dsimp only at h
        simp only [Prod.mk.injEq] at h
        have hs2 : s2 = ⟨setFile s.files tab f2, lt2, txnOfCtx c2 s.txn⟩ := h.2.symm
        have hPf := hfiles (tab, f) (getFile_mem s.files tab f hgf)
        have hInvf : f.Inv := hPf.1
        have hname : f.name = tab := hPf.2
        obtain ⟨⟨t2, hc2, hid, hst2, hws2⟩, hn, hrs, hper, hlen,
            hobsv, hobs1, hobsx⟩ :=
          update_forward f s.lt s.txn rid buf f2 lt2 c2 hInvf.1 hst hupd
        have hInvf2 : f2.Inv := update_record_Inv f s.lt _ rid buf f2 lt2 c2 hInvf hupd
        subst hs2
        refine ⟨?_, ?_, ?_, ⟨.UPDATE_TUPLE tab rid
          ((f.getPage rid.page_no).readSlot f.record_size rid.slot_no), ?_, ?_⟩⟩
        · intro nf hm
          rcases mem_setFile s.files tab f2 nf hm with h1 | h1
          · exact hfiles nf h1
          · rw [h1]
            exact ⟨hInvf2, by rw [hn, hname]⟩
        · show (txnOfCtx c2 s.txn).state = .GROWING
          rw [hc2]
          show t2.state = .GROWING
          rw [hst2, hst]
        · show (txnOfCtx c2 s.txn).txn_id = s.txn.txn_id
          rw [hc2]
          exact hid
        · show (txnOfCtx c2 s.txn).write_set = _
          rw [hc2]
          show t2.write_set = _
          rw [hws2, hname]
        · intro g lt hsim
          obtain ⟨fg, hgetg, hfs⟩ := filesSim_getFile g (setFile s.files tab f2) tab f2
            hsim (getFile_setFile_self s.files tab f f2 hgf)
          have hblen : ((f.getPage rid.page_no).readSlot f.record_size
              rid.slot_no).length = f.record_size := memcpyBytes_length _ _
          have hobsg : fg.obs ⟨rid.page_no, rid.slot_no⟩
              = some (memcpyBytes f.record_size buf) := by
            rw [hfs.obs_eq]
            exact hobs1
          obtain ⟨⟨hb1, hb2g⟩, hbset, -⟩ := obs_some_facts fg _ _ hobsg
          obtain ⟨g2, hrun, hwfi, hgn, hgrs, hgper, hglen, hgobs1, hgobs2⟩ :=
            update_undo_run fg lt rid
              ((f.getPage rid.page_no).readSlot f.record_size rid.slot_no)
              hfs.wf hfs.i1 hfs.i2 hb1 hb2g hbset
          have hval : memcpyBytes fg.record_size
              ((f.getPage rid.page_no).readSlot f.record_size rid.slot_no)
              = (f.getPage rid.page_no).readSlot f.record_size rid.slot_no := by
            rw [hfs.rs_eq, hrs]
            exact memcpyBytes_of_length _ _ hblen
          refine ⟨setFile g tab g2, ?_, ?_⟩
          · show undo_one g lt (.UPDATE_TUPLE tab rid _) = _
            unfold undo_one
            dsimp only
            rw [hgetg]
            show (match update_record fg lt undoCtxV rid
                ((f.getPage rid.page_no).readSlot f.record_size rid.slot_no) with
              | (Except.ok _, f2x, lt2x, _) => Except.ok (setFile g tab f2x, lt2x)
              | (Except.error e, _, _, _) => Except.error e) = _
            rw [hrun]
          · refine filesSim_setFile_frame g s.files tab f f2 g2 hsim hgf ?_
            refine ⟨hwfi.1, hwfi.2.1, hwfi.2.2, ?_, ?_, ?_, ?_, ?_⟩
            · rw [hgn, hfs.name_eq, hn]
            · rw [hgrs, hfs.rs_eq, hrs]
            · rw [hgper, hfs.per_eq, hper]
            · rw [hglen, ← hlen]
              exact hfs.len_ge
            · intro x
              by_cases hx : x = (⟨rid.page_no, rid.slot_no⟩ : Rid)
              · subst hx
                rw [hgobs1, hval]
                exact hobsv.symm
              · rw [hgobs2 x hx, hfs.obs_eq x]
                exact hobsx x hx

/-- A successful run of forward operations appends a suffix to the write
set whose reverse replay restores, on any observationally equal file map,
the observable state of the original files. -/
theorem runOps_undo (ops : List TxnOp) :
    ∀ (s s1 : SysState),
      (∀ nf ∈ s.files, (nf.2).Inv ∧ (nf.2).name = nf.1) →
      s.txn.state = .GROWING →
      runOps s ops = (.ok (), s1) →
      (∀ nf ∈ s1.files, (nf.2).Inv ∧ (nf.2).name = nf.1)
      ∧ s1.txn.state = .GROWING
      ∧ s1.txn.txn_id = s.txn.txn_id
      ∧ ∃ δ, s1.txn.write_set = s.txn.write_set ++ δ
        ∧ ∀ (g : List (String × RmFile)) (lt : LockTable),
            filesSim g s1.files →
            ∃ g2, undo_list g lt δ.reverse = .ok (g2, lt) ∧ filesSim g2 s.files := by
  induction ops with
  | nil =>
    intro s s1 hfiles hst hrun
    unfold runOps at hrun
    simp only [Prod.mk.injEq] at hrun
    obtain ⟨-, hs1⟩ := hrun
    subst hs1
    exact ⟨hfiles, hst, rfl, [], by simp, fun g lt hsim => ⟨g, rfl, hsim⟩⟩
  | cons op rest ih =>
    intro s s1 hfiles hst hrun
    unfold runOps at hrun
    rcases hro : runOp s op with ⟨res, s2⟩
    rw [hro] at hrun
    cases res with
    | error e => simp at hrun
    | ok u =>
      dsimp only at hrun
      obtain ⟨hfiles2, hst2, hid2, w, hws2, hundo1⟩ :=
        runOp_step s op s2 hfiles hst hro
      obtain ⟨hfiles1, hst1, hid1, δ', hws1, hundo'⟩ := ih s2 s1 hfiles2 hst2 hrun
      refine ⟨hfiles1, hst1, hid1.trans hid2, w :: δ', ?_, ?_⟩
      · rw [hws1, hws2, List.append_assoc]
        rfl
      · intro g lt hsim
        obtain ⟨g1, hu1, hsim1⟩ := hundo' g lt hsim
        obtain ⟨g2, hu2, hsim2⟩ := hundo1 g1 lt hsim1
        refine ⟨g2, ?_, hsim2⟩
        show undo_list g lt (w :: δ').reverse = _
        rw [List.reverse_cons]
        rw [undo_list_append δ'.reverse [w] g lt g1 lt hu1]
        show (match undo_one g1 lt w with
          | Except.ok (f2, lt2) => undo_list f2 lt2 []
          | Except.error e => Except.error e) = _
        rw [hu2]
        rfl

/-- Claim C1 (amended): aborting a transaction whose operations all
succeeded restores the observable record state of every table (and ends
ABORTED with cleared lock and write sets); the physical heap state may
differ. -/
theorem claim_C1_amended (ops : List TxnOp) (s s1 : SysState)
    (hfiles : ∀ nf ∈ s.files, (nf.2).Inv ∧ (nf.2).name = nf.1)
    (hst : s.txn.state = .GROWING)
    (hws : s.txn.write_set = [])
    (hrun : runOps s ops = (.ok (), s1)) :
    ∃ s2, abort s1 = .ok s2
      ∧ (∀ (tab : String) (x : Rid), obsF s2.files tab x = obsF s.files tab x)
      ∧ s2.txn.state = .ABORTED
      ∧ s2.txn.write_set = [] ∧ s2.txn.lock_set = [] := by
  obtain ⟨hfiles1, hst1, hid1, δ, hws1, hundo⟩ := runOps_undo ops s s1 hfiles hst hrun
  have hsim0 : filesSim s1.files s1.files :=
    filesSim_refl s1.files (fun nf hm => (hfiles1 nf hm).1)
  obtain ⟨g2, hu, hsim2⟩ := hundo s1.files s1.lt hsim0
  have hws1' : s1.txn.write_set = δ := by
    rw [hws1, hws]
    rfl
  rcases hra : releaseAll
      ({ txn_id := s1.txn.txn_id, state := TransactionState.SHRINKING,
         lock_set := s1.txn.lock_set, write_set := δ } : Txn)
      s1.lt s1.txn.lock_set with ⟨txn2, lt3⟩
  refine ⟨⟨g2, lt3,
    { txn2 with lock_set := [], write_set := [], state := .ABORTED }⟩,
    ?_, ?_, rfl, rfl, rfl⟩
  · unfold abort
    dsimp only
    rw [hws1', hu]
    dsimp only
    rw [hra]
  · intro tab x
    exact filesSim_obsF g2 s.files hsim2 tab x

/-- Counterexample to C1 as stated: a GROWING transaction inserts into a
table whose heap has no pages; insert_record allocates a fresh page, and
the undoing delete_record on abort clears the record but cannot deallocate
the page (it re-links it as a free page with its stale payload).  All
operations and the abort succeed, yet the heap state of the table after
abort differs from its state before the transaction's first operation. -/
theorem claim_C1_counterexample :
    (runOps ⟨[("t", ⟨"t", 1, 1, RM_NO_PAGE, []⟩)], [], ⟨1, .GROWING, [], []⟩⟩
        [.ins "t" [7]]).1 = .ok ()
    ∧ abort (runOps ⟨[("t", ⟨"t", 1, 1, RM_NO_PAGE, []⟩)], [], ⟨1, .GROWING, [], []⟩⟩
        [.ins "t" [7]]).2
      = .ok ⟨[("t", ⟨"t", 1, 1, 1, [⟨0, RM_NO_PAGE, [false], [[7]]⟩]⟩)], [],
          ⟨1, .ABORTED, [], []⟩⟩
    ∧ [("t", (⟨"t", 1, 1, 1, [⟨0, RM_NO_PAGE, [false], [[7]]⟩]⟩ : RmFile))]
        ≠ [("t", (⟨"t", 1, 1, RM_NO_PAGE, []⟩ : RmFile))] := by
  exact ⟨rfl, rfl, by decide⟩

/-- Witness for the amended C1: a transaction updates the only record of a
one-page table and aborts; the observable record state is restored and the
transaction ends ABORTED with empty lock and write sets. -/
theorem claim_C1_witness :
    ∃ s2 : SysState,
      abort (runOps ⟨[("t", ⟨"t", 1, 2, 1, [⟨1, RM_NO_PAGE, [true, false], [[5], [0]]⟩]⟩)],
          [], ⟨1, .GROWING, [], []⟩⟩ [.upd "t" ⟨1, 0⟩ [9]]).2 = .ok s2
      ∧ (∀ (tab : String) (x : Rid),
          obsF s2.files tab x
            = obsF (SysState.mk
                [("t", ⟨"t", 1, 2, 1, [⟨1, RM_NO_PAGE, [true, false], [[5], [0]]⟩]⟩)]
                [] ⟨1, .GROWING, [], []⟩).files tab x)
      ∧ s2.txn.state = .ABORTED ∧ s2.txn.write_set = [] ∧ s2.txn.lock_set = [] := by
  refine claim_C1_amended [.upd "t" ⟨1, 0⟩ [9]]
    ⟨[("t", ⟨"t", 1, 2, 1, [⟨1, RM_NO_PAGE, [true, false], [[5], [0]]⟩]⟩)], [],
      ⟨1, .GROWING, [], []⟩⟩ _ ?_ rfl rfl rfl
  intro nf hm
  have hnf : nf = ("t",
      (⟨"t", 1, 2, 1, [⟨1, RM_NO_PAGE, [true, false], [[5], [0]]⟩]⟩ : RmFile)) := by
    simpa using hm
  rw [hnf]
  exact ⟨⟨by decide, by decide, by decide, [1], by decide, by decide, by decide,
    by decide, not_full_mem_of_forall_lt (by decide)⟩, rfl⟩

/-! ## Executor layer: columns, conditions, index handles (claims C6, C7)

Record payloads are byte lists (as in the record manager).  The index
manager and index handles (ix.h) are not under src, so they are modelled
from the spec: an index handle is its sorted list of (key bytes, rid)
entries, leaf_begin/leaf_end are the ends, lower_bound/upper_bound are the
usual boundaries in key order, and an IxScan walks the entry positions of
the half-open range. -/

/-- ColType (defs.h): the three column types of the system. -/
inductive ColType where
  | TYPE_INT
  | TYPE_FLOAT
  | TYPE_STRING
deriving DecidableEq

/-- TabCol: a (table, column) name pair. -/
structure TabCol where
  tab_name : String
  col_name : String
deriving DecidableEq

/-- ColMeta: column metadata (name, type, byte length, byte offset). -/
structure ColMeta where
  tab_name : String
  name : String
  ty : ColType
  len : Nat
  offset : Nat
deriving DecidableEq

/-- CompOp: the comparison operators. -/
inductive CompOp where
  | OP_EQ
  | OP_NE
  | OP_LT
  | OP_GT
  | OP_LE
  | OP_GE
deriving DecidableEq

/-- Value: the literal of a condition's or set-clause's right-hand side.
The C++ Value carries int_val, float_val and str_val and the executors pick
the member matching the column type; floats are carried as their IEEE-754
single-precision raw bits. -/
structure Value where
  int_val : Int
  float_val_bits : Nat
  str_val : List Nat
deriving DecidableEq

/-- Condition (common.h): lhs column, operator, and either a literal rhs
(is_rhs_val) or an rhs column.  rhs_val_raw is the literal's raw bytes
(rhs_val.raw->data, already serialized by the planner). -/
structure Condition where
  lhs_col : TabCol
  op : CompOp
  is_rhs_val : Bool
  rhs_col : TabCol
  rhs_val_raw : List Nat
deriving DecidableEq

/-- IndexMeta: the columns of an index and their total key length. -/
structure IndexMeta where
  cols : List ColMeta
  col_tot_len : Nat
deriving DecidableEq

/-- get_col(cols, target): the first column whose table and column names
match.  Modelled from the spec (the helper lives in executor_abstract /
common headers outside src): lookup by name, ColumnNotFoundError when
absent. -/
def get_col (cols : List ColMeta) (target : TabCol) : Option ColMeta :=
  cols.find? fun c => c.tab_name = target.tab_name ∧ c.name = target.col_name

/-- Decode 4 little-endian bytes as a two's-complement 32-bit int
(*(int *)ptr). -/
def decodeInt32 (bs : List Nat) : Int :=
  let u := bs.getD 0 0 % 256 + 256 * (bs.getD 1 0 % 256)
    + 65536 * (bs.getD 2 0 % 256) + 16777216 * (bs.getD 3 0 % 256)
  if u < 2147483648 then (u : Int) else (u : Int) - 4294967296

/-- The raw 32-bit word of 4 little-endian bytes. -/
def decodeBits32 (bs : List Nat) : Nat :=
  bs.getD 0 0 % 256 + 256 * (bs.getD 1 0 % 256)
    + 65536 * (bs.getD 2 0 % 256) + 16777216 * (bs.getD 3 0 % 256)

/-- Order key of an IEEE-754 single-precision float given its raw bits:
none for NaN; otherwise an integer whose order coincides with the float
order (sign-magnitude reading, so -0.0 and +0.0 both map to 0). -/
def floatKey (u : Nat) : Option Int :=
  let e := u / 8388608 % 256
  let m := u % 8388608
  if e = 255 ∧ m ≠ 0 then none
  else if 2147483648 ≤ u then some (-((u - 2147483648 : Nat) : Int))
  else some (u : Int)

/-- memcmp on byte lists (unsigned chars, equal length in the callers). -/
def memcmpBytes : List Nat → List Nat → Int
  | [], [] => 0
  | [], _ :: _ => -1
  | _ :: _, [] => 1
  | a :: as2, b :: bs2 =>
    if a < b then -1 else if b < a then 1 else memcmpBytes as2 bs2

/-- The cmp computed by the executors for one condition: int and float
compare 4 decoded bytes ((a < b) ? -1 : ((a > b) ? 1 : 0), NaN compares
equal both ways so cmp = 0), anything else is memcmp over the column
length. -/
def cmpVals (ty : ColType) (len : Nat) (lhs rhs : List Nat) : Int :=
  match ty with
  | .TYPE_INT =>
    let a := decodeInt32 lhs
    let b := decodeInt32 rhs
    if a < b then -1 else if b < a then 1 else 0
  | .TYPE_FLOAT =>
    match floatKey (decodeBits32 lhs), floatKey (decodeBits32 rhs) with
    | some a, some b => if a < b then -1 else if b < a then 1 else 0
    | _, _ => 0
  | .TYPE_STRING => memcmpBytes (lhs.take len) (rhs.take len)

/-- The switch on cond.op over the computed cmp. -/
def opSatisfied (op : CompOp) (cmp : Int) : Bool :=
  match op with
  | .OP_EQ => cmp = 0
  | .OP_NE => cmp ≠ 0
  | .OP_LT => cmp < 0
  | .OP_GT => 0 < cmp
  | .OP_LE => cmp ≤ 0
  | .OP_GE => 0 ≤ cmp

/-- The body of the executors' satisfy lambda once the record bytes are in
hand: test the conditions in order, failing a condition returns false, a
missing column is the get_col throw. -/
def checkConds (cols : List ColMeta) (rec : List Nat) :
    List Condition → Except Err Bool
  | [] => .ok true
  | cond :: rest =>
    match get_col cols cond.lhs_col with
    | none => .error (.InternalError "get_col: column not found")
    | some lhs_it =>
      let lhs := rec.drop lhs_it.offset
      let rhsOpt : Option (List Nat) :=
        if cond.is_rhs_val then some cond.rhs_val_raw
        else
          match get_col cols cond.rhs_col with
          | some rhs_it => some (rec.drop rhs_it.offset)
          | none => none
      match rhsOpt with
      | none => .error (.InternalError "get_col: column not found")
      | some rhs =>
        if opSatisfied cond.op (cmpVals lhs_it.ty lhs_it.len lhs rhs) then
          checkConds cols rec rest
        else .ok false

/-- An index handle, modelled from the spec as its entry list in key
order. -/
structure IxHandle where
  entries : List (List Nat × Rid)
deriving DecidableEq

/-- lower_bound(key): the position of the first entry whose key (compared
over the key length) is not below key.  Modelled from the spec. -/
def IxHandle.lower_bound (ih : IxHandle) (n : Nat) (key : List Nat) : Nat :=
  (ih.entries.takeWhile fun e => memcmpBytes (e.1.take n) (key.take n) < 0).length

/-- upper_bound(key): the position past the last entry with key equal to
key.  Modelled from the spec. -/
def IxHandle.upper_bound (ih : IxHandle) (n : Nat) (key : List Nat) : Nat :=
  (ih.entries.takeWhile fun e => memcmpBytes (e.1.take n) (key.take n) ≤ 0).length

/-- The equality-key building loop of IndexScanExecutor::beginTuple: for
each index column, find a fed condition `col = literal` on this table and
append the literal bytes (memcpy of col.len); if some column has none the
scan degenerates to a full index scan (none). -/
def buildKey (tab_name : String) (fed : List Condition) :
    List ColMeta → Option (List Nat)
  | [] => some []
  | col :: rest =>
    match fed.find? fun cond =>
        cond.is_rhs_val ∧ cond.op = .OP_EQ ∧ cond.lhs_col.tab_name = tab_name
          ∧ cond.lhs_col.col_name = col.name with
    | some cond =>
      match buildKey tab_name fed rest with
      | some k => some (memcpyBytes col.len cond.rhs_val_raw ++ k)
      | none => none
    | none => none

/-- The satisfy lambda of IndexScanExecutor::beginTuple: read the record
through the file handle (which takes the table IS and record S locks via
the context) and test the fed conditions. -/
def satisfyM (f : RmFile) (lt : LockTable) (ctxOpt : Option Ctx)
    (cols : List ColMeta) (fed : List Condition) (r : Rid) :
    Except Err Bool × LockTable × Option Ctx :=
  match get_record f lt ctxOpt r with
  | (.error e, _, lt2, c2) => (.error e, lt2, c2)
  | (.ok rec, _, lt2, c2) =>
    match checkConds cols rec fed with
    | .error e => (.error e, lt2, c2)
    | .ok b => (.ok b, lt2, c2)

/-- The cursor-advancing loop of beginTuple: from pos, skip entries whose
rid has no record or fails the conditions; stop at the first hit (setting
rid_) or at the end of the range.  The fuel starts at hi - pos. -/
def scanLoop (f : RmFile) (cols : List ColMeta) (fed : List Condition)
    (ih : IxHandle) (hi : Nat) :
    Nat → Nat → LockTable → Option Ctx →
    Except Err (Option Rid × Nat) × LockTable × Option Ctx
  | 0, pos, lt, c => (.ok (none, pos), lt, c)
  | fuel + 1, pos, lt, c =>
    if hi ≤ pos then (.ok (none, pos), lt, c)
    else
      let r := (ih.entries.getD pos ([], ⟨0, 0⟩)).2
      if f.is_record r then
        match satisfyM f lt c cols fed r with
        | (.error e, lt2, c2) => (.error e, lt2, c2)
        | (.ok true, lt2, c2) => (.ok (some r, pos), lt2, c2)
        | (.ok false, lt2, c2) => scanLoop f cols fed ih hi fuel (pos + 1) lt2 c2
      else scanLoop f cols fed ih hi fuel (pos + 1) lt c

/-- IndexScanExecutor::beginTuple (executor_index_scan.h:78-161): build the
equality key (or fall back to a full index scan), position the IxScan on
[lower, upper), and advance to the first entry whose record exists and
satisfies the conditions.  The only locks taken are those of
fh_->get_record inside satisfy: no table-level lock call appears. -/
def beginTuple (f : RmFile) (lt : LockTable) (ctxOpt : Option Ctx)
    (tab_name : String) (fed : List Condition) (cols : List ColMeta)
    (index_meta : IndexMeta) (ih : IxHandle) :
    Except Err (Option Rid × Nat × Nat) × LockTable × Option Ctx :=
  let bounds : Nat × Nat :=
    match buildKey tab_name fed index_meta.cols with
    | some key => (ih.lower_bound index_meta.col_tot_len key,
                   ih.upper_bound index_meta.col_tot_len key)
    | none => (0, ih.entries.length)
  match scanLoop f cols fed ih bounds.2 (bounds.2 - bounds.1) bounds.1 lt ctxOpt with
  | (.error e, lt2, c2) => (.error e, lt2, c2)
  | (.ok (ridOpt, pos), lt2, c2) => (.ok (ridOpt, pos, bounds.2), lt2, c2)

theorem lookupQ_append (l1 l2 : LockTable) (id : LockDataId) :
    lookupQ (l1 ++ l2) id
      = (match lookupQ l1 id with
         | some q => some q
         | none => lookupQ l2 id) := by
  induction l1 with
  | nil => rfl
  | cons e rest ih =>
    rcases e with ⟨k, v⟩
    have hcons : ∀ (l : LockTable),
        lookupQ ((k, v) :: l) id = if k = id then some v else lookupQ l id :=
      fun _ => rfl
    rw [List.cons_append, hcons, hcons]
    by_cases h : k = id
    · rw [if_pos h, if_pos h]
    · rw [if_neg h, if_neg h]
      exact ih

theorem queueOf_ensureQ_all (lt : LockTable) (id id2 : LockDataId) :
    queueOf (ensureQ lt id) id2 = queueOf lt id2 := by
  unfold ensureQ
  split
  · rfl
  · rename_i hmiss
    have hnone : lookupQ lt id = none := by
      cases h : lookupQ lt id
      · rfl
      · rw [h] at hmiss
        simp at hmiss
    unfold queueOf
    rw [lookupQ_append lt [(id, [])] id2]
    cases h2 : lookupQ lt id2
    · by_cases h : id = id2
      · subst h
        have h3 : lookupQ [(id, [])] id = some [] := by
          unfold lookupQ
          rw [if_pos rfl]
        dsimp only
        rw [h3]
        rfl
      · dsimp only
        have h3 : lookupQ [(id, [])] id2 = none := by
          unfold lookupQ
          rw [if_neg h]
          rfl
        rw [h3]
    · rfl

theorem ensureQ_isSome (lt : LockTable) (id : LockDataId) :
    (lookupQ (ensureQ lt id) id).isSome = true := by
  unfold ensureQ
  split
  · rename_i h
    exact h
  · rw [lookupQ_append lt [(id, [])] id]
    cases h2 : lookupQ lt id
    · dsimp only
      have h3 : lookupQ [(id, [])] id = some [] := by
        unfold lookupQ
        rw [if_pos rfl]
      rw [h3]
      rfl
    · rfl

theorem lookupQ_setQ_ne (lt : LockTable) (id id2 : LockDataId) (q : List LockRequest)
    (h : id2 ≠ id) : lookupQ (setQ lt id q) id2 = lookupQ lt id2 := by
  induction lt with
  | nil => rfl
  | cons e rest ih =>
    unfold setQ
    by_cases hk : e.1 = id
    · rw [if_pos hk]
      show lookupQ ((e.1, q) :: rest) id2 = _
      unfold lookupQ
      rw [if_neg (fun hc => h (hc.symm.trans hk)),
        if_neg (fun hc => h (hc.symm.trans hk))]
    · rw [if_neg hk]
      show lookupQ ((e.1, e.2) :: setQ rest id q) id2 = lookupQ ((e.1, e.2) :: rest) id2
      unfold lookupQ
      by_cases hk2 : e.1 = id2
      · rw [if_pos hk2, if_pos hk2]
      · rw [if_neg hk2, if_neg hk2]
        exact ih

theorem queueOf_setQ_ne (lt : LockTable) (id id2 : LockDataId) (q : List LockRequest)
    (h : id2 ≠ id) : queueOf (setQ lt id q) id2 = queueOf lt id2 := by
  unfold queueOf
  rw [lookupQ_setQ_ne lt id id2 q h]

theorem queueOf_setQ_self (lt : LockTable) (id : LockDataId) (q : List LockRequest)
    (h : (lookupQ lt id).isSome = true) : queueOf (setQ lt id q) id = q := by
  induction lt with
  | nil => simp [lookupQ] at h
  | cons e rest ih =>
    unfold setQ
    by_cases hk : e.1 = id
    · rw [if_pos hk]
      show ((lookupQ ((e.1, q) :: rest) id).getD []) = q
      unfold lookupQ
      rw [if_pos hk]
      rfl
    · rw [if_neg hk]
      show ((lookupQ ((e.1, e.2) :: setQ rest id q) id).getD []) = q
      unfold lookupQ
      rw [if_neg hk]
      refine ih ?_
      unfold lookupQ at h
      rw [if_neg hk] at h
      exact h

/-- lock_internal touches no queue other than the requested id's. -/
theorem lock_internal_queue_frame (txnOpt : Option Txn) (lt : LockTable)
    (id : LockDataId) (m : LockMode) (id2 : LockDataId) (h : id2 ≠ id) :
    queueOf (lock_internal txnOpt lt id m).2.2 id2 = queueOf lt id2 := by
  cases txnOpt with
  | none => rfl
  | some txn =>
    show queueOf (lock_internal (some txn) lt id m).2.2 id2 = _
    rw [show lock_internal (some txn) lt id m
      = (if txn.state = .SHRINKING then
          (.error (.TxnAbort txn.txn_id .LOCK_ON_SHIRINKING), some txn, lt)
        else
          match findTxnReq (queueOf (ensureQ lt id) id) txn.txn_id with
          | some req =>
            if req.granted_ = false then
              (.error (.TxnAbort txn.txn_id .DEADLOCK_PREVENTION), some txn, ensureQ lt id)
            else
              match combine_mode id.type_ req.lock_mode_ m with
              | none => (.error (.TxnAbort txn.txn_id .UPGRADE_CONFLICT), some txn, ensureQ lt id)
              | some new_mode =>
                if new_mode = req.lock_mode_ then (.ok true, some txn, ensureQ lt id)
                else if compatible_with_granted (queueOf (ensureQ lt id) id) txn.txn_id new_mode then
                  (.ok true, some txn,
                   setQ (ensureQ lt id) id
                     (updateFirstReq (queueOf (ensureQ lt id) id) txn.txn_id new_mode))
                else
                  (.error (.TxnAbort txn.txn_id .UPGRADE_CONFLICT), some txn, ensureQ lt id)
          | none =>
            if compatible_with_granted (queueOf (ensureQ lt id) id) txn.txn_id m then
              (.ok true,
               some { txn with lock_set := lockSetInsert txn.lock_set id },
               setQ (ensureQ lt id) id
                 (queueOf (ensureQ lt id) id ++ [⟨txn.txn_id, m, true⟩]))
            else
              (.error (.TxnAbort txn.txn_id .DEADLOCK_PREVENTION), some txn, ensureQ lt id))
      from rfl]
    by_cases hst : txn.state = .SHRINKING
    · rw [if_pos hst]
    · rw [if_neg hst]
      rcases hf : findTxnReq (queueOf (ensureQ lt id) id) txn.txn_id with _ | req0 <;>
        dsimp only
      · by_cases hcw : compatible_with_granted (queueOf (ensureQ lt id) id)
            txn.txn_id m = true
        · rw [if_pos hcw]
          show queueOf (setQ (ensureQ lt id) id _) id2 = _
          rw [queueOf_setQ_ne _ _ _ _ h, queueOf_ensureQ_all]
        · rw [if_neg hcw]
          show queueOf (ensureQ lt id) id2 = _
          rw [queueOf_ensureQ_all]
      · by_cases hg : req0.granted_ = false
        · rw [if_pos hg]
          show queueOf (ensureQ lt id) id2 = _
          rw [queueOf_ensureQ_all]
        · rw [if_neg hg]
          rcases hc : combine_mode id.type_ req0.lock_mode_ m with _ | nm <;>
            dsimp only
          · show queueOf (ensureQ lt id) id2 = _
            rw [queueOf_ensureQ_all]
          · by_cases he : nm = req0.lock_mode_
            · rw [if_pos he]
              show queueOf (ensureQ lt id) id2 = _
              rw [queueOf_ensureQ_all]
            · rw [if_neg he]
              by_cases hcw : compatible_with_granted (queueOf (ensureQ lt id) id)
                  txn.txn_id nm = true
              · rw [if_pos hcw]
                show queueOf (setQ (ensureQ lt id) id _) id2 = _
                rw [queueOf_setQ_ne _ _ _ _ h, queueOf_ensureQ_all]
              · rw [if_neg hcw]
                show queueOf (ensureQ lt id) id2 = _
                rw [queueOf_ensureQ_all]

/-- An INTENTION_SHARED request never changes an existing request's mode
(combine with IS is absorbed), so every request in the id's queue after the
call was already there or is itself an IS request. -/
theorem lock_internal_IS_queue_self (txnOpt : Option Txn) (lt : LockTable)
    (id : LockDataId) (req : LockRequest)
    (hmem : req ∈ queueOf (lock_internal txnOpt lt id .INTENTION_SHARED).2.2 id) :
    req ∈ queueOf lt id ∨ req.lock_mode_ = .INTENTION_SHARED := by
  have hcomb : ∀ (ty : LockDataType) (cur : LockMode),
      combine_mode ty cur .INTENTION_SHARED = some cur := by
    intro ty cur
    cases ty <;> cases cur <;> rfl
  cases txnOpt with
  | none => exact Or.inl hmem
  | some txn =>
    rw [show lock_internal (some txn) lt id .INTENTION_SHARED
      = (if txn.state = .SHRINKING then
          (.error (.TxnAbort txn.txn_id .LOCK_ON_SHIRINKING), some txn, lt)
        else
          match findTxnReq (queueOf (ensureQ lt id) id) txn.txn_id with
          | some req =>
            if req.granted_ = false then
              (.error (.TxnAbort txn.txn_id .DEADLOCK_PREVENTION), some txn, ensureQ lt id)
            else
              match combine_mode id.type_ req.lock_mode_ .INTENTION_SHARED with
              | none => (.error (.TxnAbort txn.txn_id .UPGRADE_CONFLICT), some txn, ensureQ lt id)
              | some new_mode =>
                if new_mode = req.lock_mode_ then (.ok true, some txn, ensureQ lt id)
                else if compatible_with_granted (queueOf (ensureQ lt id) id) txn.txn_id new_mode then
                  (.ok true, some txn,
                   setQ (ensureQ lt id) id
                     (updateFirstReq (queueOf (ensureQ lt id) id) txn.txn_id new_mode))
                else
                  (.error (.TxnAbort txn.txn_id .UPGRADE_CONFLICT), some txn, ensureQ lt id)
          | none =>
            if compatible_with_granted (queueOf (ensureQ lt id) id) txn.txn_id .INTENTION_SHARED then
              (.ok true,
               some { txn with lock_set := lockSetInsert txn.lock_set id },
               setQ (ensureQ lt id) id
                 (queueOf (ensureQ lt id) id ++ [⟨txn.txn_id, .INTENTION_SHARED, true⟩]))
            else
              (.error (.TxnAbort txn.txn_id .DEADLOCK_PREVENTION), some txn, ensureQ lt id))
      from rfl] at hmem
    by_cases hst : txn.state = .SHRINKING
    · rw [if_pos hst] at hmem
      exact Or.inl hmem
    · rw [if_neg hst] at hmem
      rcases hf : findTxnReq (queueOf (ensureQ lt id) id) txn.txn_id with _ | req0 <;>
        rw [hf] at hmem <;> dsimp only at hmem
      · by_cases hcw : compatible_with_granted (queueOf (ensureQ lt id) id)
            txn.txn_id .INTENTION_SHARED = true
        · rw [if_pos hcw] at hmem
          dsimp only at hmem
          rw [queueOf_setQ_self _ _ _ (ensureQ_isSome lt id)] at hmem
          rcases List.mem_append.mp hmem with h1 | h1
          · rw [queueOf_ensureQ_all] at h1
            exact Or.inl h1
          · right
            have h2 : req = ⟨txn.txn_id, .INTENTION_SHARED, true⟩ := by
              simpa using h1
            rw [h2]
        · rw [if_neg hcw] at hmem
          dsimp only at hmem
          rw [queueOf_ensureQ_all] at hmem
          exact Or.inl hmem
      · by_cases hg : req0.granted_ = false
        · rw [if_pos hg] at hmem
          dsimp only at hmem
          rw [queueOf_ensureQ_all] at hmem
          exact Or.inl hmem
        · rw [if_neg hg] at hmem
          rw [hcomb] at hmem
          dsimp only at hmem
          rw [if_pos rfl] at hmem
          dsimp only at hmem
          rw [queueOf_ensureQ_all] at hmem
          exact Or.inl hmem

/-- "Add at most IS at table granularity" relation on lock tables. -/
def tabExt (lt lt' : LockTable) : Prop :=
  ∀ (fd : String) (req : LockRequest),
    req ∈ queueOf lt' (.table fd) →
    req ∈ queueOf lt (.table fd) ∨ req.lock_mode_ = .INTENTION_SHARED

theorem tabExt_refl (lt : LockTable) : tabExt lt lt :=
  fun _ _ h => Or.inl h

theorem tabExt_trans {l1 l2 l3 : LockTable} (h1 : tabExt l1 l2) (h2 : tabExt l2 l3) :
    tabExt l1 l3 := by
  intro fd req hm
  rcases h2 fd req hm with h | h
  · exact h1 fd req h
  · exact Or.inr h

theorem ctxLock1_IS_tabExt (c : Option Ctx) (lt : LockTable) (id : LockDataId) :
    tabExt lt (ctxLock1 c lt id .INTENTION_SHARED).2.2 := by
  cases c with
  | none => exact tabExt_refl lt
  | some cx =>
    unfold ctxLock1
    dsimp only
    rcases hl : lock_internal cx.txn lt id .INTENTION_SHARED with ⟨r, t2, lt2⟩
    dsimp only
    intro fd req hmem
    by_cases hid : (.table fd : LockDataId) = id
    · have h2 := lock_internal_IS_queue_self cx.txn lt id req
        (by rw [hl]; rw [← hid]; exact hmem)
      rw [← hid] at h2
      exact h2
    · have h2 := lock_internal_queue_frame cx.txn lt id .INTENTION_SHARED
        (.table fd) hid
      rw [hl] at h2
      exact Or.inl (h2 ▸ hmem)

theorem ctxLock1_record_tabExt (c : Option Ctx) (lt : LockTable) (fname : String)
    (rid : Rid) (m : LockMode) :
    tabExt lt (ctxLock1 c lt (.record fname rid) m).2.2 := by
  cases c with
  | none => exact tabExt_refl lt
  | some cx =>
    unfold ctxLock1
    dsimp only
    rcases hl : lock_internal cx.txn lt (.record fname rid) m with ⟨r, t2, lt2⟩
    dsimp only
    intro fd req hmem
    have h2 := lock_internal_queue_frame cx.txn lt (.record fname rid) m
      (.table fd) (fun hc => by cases hc)
    rw [hl] at h2
    exact Or.inl (h2 ▸ hmem)

/-- The locking prologue of get_record adds at most IS requests at table
granularity (table IS, then record S which leaves table queues alone). -/
theorem lockPhase_get_tabExt (c : Option Ctx) (lt : LockTable) (fname : String)
    (rid : Rid) :
    tabExt lt (lockPhase c lt (get_record_lockIds fname rid)).2.2 := by
  unfold lockPhase
  split
  · show tabExt lt (ctxLockMany c lt
      [(.table fname, .INTENTION_SHARED), (.record fname rid, .SHARED)]).2.2
    unfold ctxLockMany
    rcases h1 : ctxLock1 c lt (.table fname) .INTENTION_SHARED with ⟨r1, c2, lt2⟩
    have e1 : tabExt lt lt2 := by
      have := ctxLock1_IS_tabExt c lt (.table fname)
      rw [h1] at this
      exact this
    cases r1 with
    | error e => exact e1
    | ok v =>
      dsimp only
      unfold ctxLockMany
      rcases h2 : ctxLock1 c2 lt2 (.record fname rid) .SHARED with ⟨r2, c3, lt3⟩
      have e2 : tabExt lt2 lt3 := by
        have := ctxLock1_record_tabExt c2 lt2 fname rid .SHARED
        rw [h2] at this
        exact this
      cases r2 with
      | error e => exact tabExt_trans e1 e2
      | ok v2 => exact tabExt_trans e1 e2
  · exact tabExt_refl lt

/-- get_record adds at most IS requests at table granularity. -/
theorem get_record_tabExt (f : RmFile) (lt : LockTable) (c : Option Ctx) (rid : Rid) :
    tabExt lt (get_record f lt c rid).2.2.1 := by
  unfold get_record
  rcases hlp : lockPhase c lt (get_record_lockIds f.name rid) with ⟨lr, c2, lt2⟩
  have e1 : tabExt lt lt2 := by
    have := lockPhase_get_tabExt c lt f.name rid
    rw [hlp] at this
    exact this
  cases lr with
  | error e => exact e1
  | ok v =>
    dsimp only
    split
    · exact e1
    · split
      · exact e1
      · exact e1

theorem satisfyM_tabExt (f : RmFile) (lt : LockTable) (c : Option Ctx)
    (cols : List ColMeta) (fed : List Condition) (r : Rid) :
    tabExt lt (satisfyM f lt c cols fed r).2.1 := by
  unfold satisfyM
  rcases hg : get_record f lt c r with ⟨gr, f2, lt2, c2⟩
  have e1 : tabExt lt lt2 := by
    have := get_record_tabExt f lt c r
    rw [hg] at this
    exact this
  cases gr with
  | error e => exact e1
  | ok rec =>
    dsimp only
    rcases checkConds cols rec fed with e | b
    · exact e1
    · exact e1

theorem scanLoop_tabExt (f : RmFile) (cols : List ColMeta) (fed : List Condition)
    (ih : IxHandle) (hi : Nat) :
    ∀ (fuel pos : Nat) (lt : LockTable) (c : Option Ctx),
      tabExt lt (scanLoop f cols fed ih hi fuel pos lt c).2.1 := by
  intro fuel
  induction fuel with
  | zero => exact fun pos lt c => tabExt_refl lt
  | succ n ihn =>
    intro pos lt c
    unfold scanLoop
    split
    · exact tabExt_refl lt
    · dsimp only
      split
      · rcases hs : satisfyM f lt c cols fed
            ((ih.entries.getD pos ([], ⟨0, 0⟩)).2) with ⟨sr, lt2, c2⟩
        have e1 : tabExt lt lt2 := by
          have := satisfyM_tabExt f lt c cols fed ((ih.entries.getD pos ([], ⟨0, 0⟩)).2)
          rw [hs] at this
          exact this
        cases sr with
        | error e => exact e1
        | ok b =>
          cases b with
          | true => exact e1
          | false => exact tabExt_trans e1 (ihn (pos + 1) lt2 c2)
      · exact ihn (pos + 1) lt c

/-- Claim C6 (amended): IndexScanExecutor::beginTuple acquires no
table-level SHARED lock.  Every request present in any table-granularity
queue after beginTuple was either already there before the call or is an
INTENTION_SHARED request (taken by fh_->get_record's locking prologue);
in particular no table S lock is ever requested. -/
theorem claim_C6_amended (f : RmFile) (lt : LockTable) (ctxOpt : Option Ctx)
    (tab_name : String) (fed : List Condition) (cols : List ColMeta)
    (index_meta : IndexMeta) (ih : IxHandle) (fd : String) (req : LockRequest)
    (hmem : req ∈ queueOf
      (beginTuple f lt ctxOpt tab_name fed cols index_meta ih).2.1 (.table fd)) :
    req ∈ queueOf lt (.table fd) ∨ req.lock_mode_ = .INTENTION_SHARED := by
  unfold beginTuple at hmem
  dsimp only at hmem
  rcases hb : buildKey tab_name fed index_meta.cols with _ | key
  all_goals rw [hb] at hmem
  all_goals dsimp only at hmem
  · rcases hs : scanLoop f cols fed ih ih.entries.length
        (ih.entries.length - 0) 0 lt ctxOpt with ⟨sr, lt2, c2⟩
    have e1 : tabExt lt lt2 := by
      have := scanLoop_tabExt f cols fed ih ih.entries.length
        (ih.entries.length - 0) 0 lt ctxOpt
      rw [hs] at this
      exact this
    rw [hs] at hmem
    cases sr with
    | error e => exact e1 fd req hmem
    | ok v => exact e1 fd req (by rcases v with ⟨o, p⟩; exact hmem)
  · rcases hs : scanLoop f cols fed ih (ih.upper_bound index_meta.col_tot_len key)
        (ih.upper_bound index_meta.col_tot_len key
          - ih.lower_bound index_meta.col_tot_len key)
        (ih.lower_bound index_meta.col_tot_len key) lt ctxOpt with ⟨sr, lt2, c2⟩
    have e1 : tabExt lt lt2 := by
      have := scanLoop_tabExt f cols fed ih (ih.upper_bound index_meta.col_tot_len key)
        (ih.upper_bound index_meta.col_tot_len key
          - ih.lower_bound index_meta.col_tot_len key)
        (ih.lower_bound index_meta.col_tot_len key) lt ctxOpt
      rw [hs] at this
      exact this
    rw [hs] at hmem
    cases sr with
    | error e => exact e1 fd req hmem
    | ok v => exact e1 fd req (by rcases v with ⟨o, p⟩; exact hmem)

/-- Counterexample to C6 as stated: a complete, successful beginTuple
(equality condition on a one-column int index, cursor positioned on the
matching record) acquires only a table INTENTION_SHARED and a record SHARED
lock — the table-granularity queue holds no SHARED request, so no
table-level S lock is ever acquired. -/
theorem claim_C6_counterexample :
    beginTuple (⟨"t", 4, 1, RM_NO_PAGE, [⟨1, RM_NO_PAGE, [true], [[7, 0, 0, 0]]⟩]⟩ : RmFile)
        [] (some ⟨some ⟨1, .GROWING, [], []⟩, true⟩) "t"
        [⟨⟨"t", "a"⟩, .OP_EQ, true, ⟨"t", "a"⟩, [7, 0, 0, 0]⟩]
        [⟨"t", "a", .TYPE_INT, 4, 0⟩]
        ⟨[⟨"t", "a", .TYPE_INT, 4, 0⟩], 4⟩
        ⟨[([7, 0, 0, 0], ⟨1, 0⟩)]⟩
      = (.ok (some ⟨1, 0⟩, 0, 1),
         [(.table "t", [⟨1, .INTENTION_SHARED, true⟩]),
          (.record "t" ⟨1, 0⟩, [⟨1, .SHARED, true⟩])],
         some ⟨some ⟨1, .GROWING, [.table "t", .record "t" ⟨1, 0⟩], []⟩, true⟩)
    ∧ ∀ req ∈ queueOf
        [((.table "t" : LockDataId), [(⟨1, .INTENTION_SHARED, true⟩ : LockRequest)]),
         (.record "t" ⟨1, 0⟩, [⟨1, .SHARED, true⟩])] (.table "t"),
        req.lock_mode_ ≠ .SHARED := by
  exact ⟨rfl, by decide⟩

/-- Witness for the amended C6: in the scenario of the counterexample, the
one request beginTuple adds at table granularity is new and its mode is
INTENTION_SHARED. -/
theorem claim_C6_witness :
    (⟨1, .INTENTION_SHARED, true⟩ : LockRequest) ∈ queueOf
        (beginTuple
          (⟨"t", 4, 1, RM_NO_PAGE, [⟨1, RM_NO_PAGE, [true], [[7, 0, 0, 0]]⟩]⟩ : RmFile)
          [] (some ⟨some ⟨1, .GROWING, [], []⟩, true⟩) "t"
          [⟨⟨"t", "a"⟩, .OP_EQ, true, ⟨"t", "a"⟩, [7, 0, 0, 0]⟩]
          [⟨"t", "a", .TYPE_INT, 4, 0⟩]
          ⟨[⟨"t", "a", .TYPE_INT, 4, 0⟩], 4⟩
          ⟨[([7, 0, 0, 0], ⟨1, 0⟩)]⟩).2.1 (.table "t")
    ∧ ((⟨1, .INTENTION_SHARED, true⟩ : LockRequest) ∈ queueOf ([] : LockTable) (.table "t")
       ∨ (⟨1, .INTENTION_SHARED, true⟩ : LockRequest).lock_mode_ = .INTENTION_SHARED) := by
  exact ⟨by decide, claim_C6_amended
    (⟨"t", 4, 1, RM_NO_PAGE, [⟨1, RM_NO_PAGE, [true], [[7, 0, 0, 0]]⟩]⟩ : RmFile)
    [] (some ⟨some ⟨1, .GROWING, [], []⟩, true⟩) "t"
    [⟨⟨"t", "a"⟩, .OP_EQ, true, ⟨"t", "a"⟩, [7, 0, 0, 0]⟩]
    [⟨"t", "a", .TYPE_INT, 4, 0⟩]
    ⟨[⟨"t", "a", .TYPE_INT, 4, 0⟩], 4⟩
    ⟨[([7, 0, 0, 0], ⟨1, 0⟩)]⟩ "t" ⟨1, .INTENTION_SHARED, true⟩ (by decide)⟩

/-! ## UpdateExecutor (claim C7) -/

/-- SetClause: set lhs_column = rhs_value. -/
structure SetClause where
  lhs : TabCol
  rhs : Value
deriving DecidableEq

/-- The open index handles of the storage manager (sm_manager_->ihs_),
keyed by the index's column-name list (get_index_name(tab, cols) is
injective in them for a fixed table); the mapped value is the handle's
entry list. -/
abbrev IdxState := List (List String × List (List Nat × Rid))

def getIh : IdxState → List String → Option (List (List Nat × Rid))
  | [], _ => none
  | (k, es) :: rest, key => if k = key then some es else getIh rest key

def setIh : IdxState → List String → List (List Nat × Rid) → IdxState
  | [], _, _ => []
  | (k, es) :: rest, key, es2 =>
    if k = key then (k, es2) :: rest else (k, es) :: setIh rest key es2

/-- The ihs_ key of an index. -/
def idxKeyNames (im : IndexMeta) : List String :=
  im.cols.map ColMeta.name

/-- IxIndexHandle::delete_entry, modelled from the spec: remove the (unique)
entry with this key. -/
def delete_entry : List (List Nat × Rid) → List Nat → List (List Nat × Rid)
  | [], _ => []
  | e :: rest, key => if e.1 = key then rest else e :: delete_entry rest key

/-- IxIndexHandle::insert_entry, modelled from the spec: insert the pair at
its position in key order. -/
def insert_entry : List (List Nat × Rid) → List Nat → Rid → List (List Nat × Rid)
  | [], key, rid => [(key, rid)]
  | e :: rest, key, rid =>
    if memcmpBytes key e.1 < 0 then (key, rid) :: e :: rest
    else e :: insert_entry rest key rid

/-- The affected test of UpdateExecutor::Next (executor_update.h:44-55): an
index is affected when some indexed column's name appears among the
set-clause left-hand sides. -/
def indexAffected (scs : List SetClause) (im : IndexMeta) : Bool :=
  im.cols.any fun c => scs.any fun sc => c.name = sc.lhs.col_name

/-- affected_indexes: the affected indexes of the table, in order. -/
def affected_indexes (idxs : List IndexMeta) (scs : List SetClause) :
    List IndexMeta :=
  idxs.filter (indexAffected scs)

/-- The composite-key building loop: concatenate, per index column, the
col.len record bytes at col.offset. -/
def buildIdxKey (im : IndexMeta) (rec : List Nat) : List Nat :=
  im.cols.foldr (fun c k => (rec.drop c.offset).take c.len ++ k) []

/-- TabMeta::get_col(col_name): first column of that name. -/
def get_col_by_name (cols : List ColMeta) (nm : String) : Option ColMeta :=
  cols.find? fun c => c.name = nm

/-- 4 little-endian bytes of an int (memcpy(dest, &int_val, 4)). -/
def int32Bytes (i : Int) : List Nat :=
  let u := (i % 4294967296).toNat
  [u % 256, u / 256 % 256, u / 65536 % 256, u / 16777216 % 256]

/-- 4 little-endian bytes of a float's raw bits. -/
def bits32Bytes (u : Nat) : List Nat :=
  [u % 256, u / 256 % 256, u / 65536 % 256, u / 16777216 % 256]

/-- memcpy(rec + off, src, src.length). -/
def writeBytesAt (rec : List Nat) (off : Nat) (src : List Nat) : List Nat :=
  rec.take off ++ src ++ rec.drop (off + src.length)

/-- One set clause applied to the record buffer (executor_update.h:75-90):
int and float serialize their 4 bytes at the column offset; strings zero
the column and copy min(size, len) bytes, which is exactly the
truncated/zero-padded copy. -/
def applyClause (cols : List ColMeta) (rec : List Nat) (sc : SetClause) :
    Except Err (List Nat) :=
  match get_col_by_name cols sc.lhs.col_name with
  | none => .error (.InternalError "get_col: column not found")
  | some c =>
    match c.ty with
    | .TYPE_INT => .ok (writeBytesAt rec c.offset (int32Bytes sc.rhs.int_val))
    | .TYPE_FLOAT => .ok (writeBytesAt rec c.offset (bits32Bytes sc.rhs.float_val_bits))
    | .TYPE_STRING => .ok (writeBytesAt rec c.offset (memcpyBytes c.len sc.rhs.str_val))

def applySetClauses (cols : List ColMeta) : List Nat → List SetClause → Except Err (List Nat)
  | rec, [] => .ok rec
  | rec, sc :: rest =>
    match applyClause cols rec sc with
    | .ok rec2 => applySetClauses cols rec2 rest
    | .error e => .error e

/-- Delete the old composite keys from every affected index
(executor_update.h:63-72); an ihs_.at miss throws, leaving the earlier
deletions applied. -/
def deleteOldKeys (rec : List Nat) : List IndexMeta → IdxState → IdxState × Option Err
  | [], ihs => (ihs, none)
  | im :: rest, ihs =>
    match getIh ihs (idxKeyNames im) with
    | none => (ihs, some (.InternalError "ihs_.at missing index"))
    | some es =>
      deleteOldKeys rec rest
        (setIh ihs (idxKeyNames im) (delete_entry es (buildIdxKey im rec)))

/-- Insert the new composite keys, bound to the same rid, into every
affected index (executor_update.h:96-106). -/
def insertNewKeys (rec : List Nat) (rid : Rid) :
    List IndexMeta → IdxState → IdxState × Option Err
  | [], ihs => (ihs, none)
  | im :: rest, ihs =>
    match getIh ihs (idxKeyNames im) with
    | none => (ihs, some (.InternalError "ihs_.at missing index"))
    | some es =>
      insertNewKeys rec rid rest
        (setIh ihs (idxKeyNames im) (insert_entry es (buildIdxKey im rec) rid))

/-- The per-rid body of UpdateExecutor::Next: read the record, delete the
old keys of the affected indexes, apply the set clauses to the buffer,
write the record back, insert the new keys. -/
def updateOne (cols : List ColMeta) (scs : List SetClause) (affected : List IndexMeta)
    (f : RmFile) (lt : LockTable) (c : Option Ctx) (ihs : IdxState) (rid : Rid) :
    Except Err Unit × RmFile × LockTable × Option Ctx × IdxState :=
  match get_record f lt c rid with
  | (.error e, f1, lt1, c1) => (.error e, f1, lt1, c1, ihs)
  | (.ok rec, f1, lt1, c1) =>
    match deleteOldKeys rec affected ihs with
    | (ihs1, some e) => (.error e, f1, lt1, c1, ihs1)
    | (ihs1, none) =>
      match applySetClauses cols rec scs with
      | .error e => (.error e, f1, lt1, c1, ihs1)
      | .ok rec2 =>
        match update_record f1 lt1 c1 rid rec2 with
        | (.error e, f2, lt2, c2) => (.error e, f2, lt2, c2, ihs1)
        | (.ok _, f2, lt2, c2) =>
          match insertNewKeys rec2 rid affected ihs1 with
          | (ihs2, some e) => (.error e, f2, lt2, c2, ihs2)
          | (ihs2, none) => (.ok (), f2, lt2, c2, ihs2)

/-- The rid loop of UpdateExecutor::Next, stopping at the first throw. -/
def updateLoop (cols : List ColMeta) (scs : List SetClause)
    (affected : List IndexMeta) :
    List Rid → RmFile → LockTable → Option Ctx → IdxState →
    Except Err Unit × RmFile × LockTable × Option Ctx × IdxState
  | [], f, lt, c, ihs => (.ok (), f, lt, c, ihs)
  | rid :: rest, f, lt, c, ihs =>
    match updateOne cols scs affected f lt c ihs rid with
    | (.ok _, f2, lt2, c2, ihs2) => updateLoop cols scs affected rest f2 lt2 c2 ihs2
    | (.error e, f2, lt2, c2, ihs2) => (.error e, f2, lt2, c2, ihs2)

/-- UpdateExecutor::Next (executor_update.h:40-109): compute the affected
indexes, then process every rid. -/
def updateNext (cols : List ColMeta) (scs : List SetClause) (idxs : List IndexMeta)
    (rids : List Rid) (f : RmFile) (lt : LockTable) (c : Option Ctx)
    (ihs : IdxState) :
    Except Err Unit × RmFile × LockTable × Option Ctx × IdxState :=
  updateLoop cols scs (affected_indexes idxs scs) rids f lt c ihs

/-- The maintenance the claim describes, as a pure recursion over the heap:
per rid, the pre-update bytes are the stored record, the post-update bytes
are the set clauses applied to them, the record is overwritten in place,
and each affected index drops the old composite key and gains the new one
bound to the same rid. -/
def specMaintain (cols : List ColMeta) (scs : List SetClause)
    (affected : List IndexMeta) :
    List Rid → RmFile → IdxState → RmFile × IdxState
  | [], f, ihs => (f, ihs)
  | rid :: rest, f, ihs =>
    let old := (f.getPage rid.page_no).readSlot f.record_size rid.slot_no
    match applySetClauses cols old scs with
    | .error _ => (f, ihs)
    | .ok new2 =>
      let f2 := f.setPage rid.page_no
        ((f.getPage rid.page_no).writeSlot f.record_size rid.slot_no new2)
      let ihs1 := (deleteOldKeys old affected ihs).1
      let ihs2 := (insertNewKeys new2 rid affected ihs1).1
      specMaintain cols scs affected rest f2 ihs2

theorem get_record_ok_out (f : RmFile) (lt : LockTable) (c : Option Ctx) (rid : Rid)
    (rec : List Nat) (f1 : RmFile) (lt1 : LockTable) (c1 : Option Ctx)
    (h : get_record f lt c rid = (.ok rec, f1, lt1, c1)) :
    rec = (f.getPage rid.page_no).readSlot f.record_size rid.slot_no ∧ f1 = f := by
  rcases hlp : lockPhase c lt (get_record_lockIds f.name rid) with ⟨lr, c2, lt2⟩
  unfold get_record at h
  rw [hlp] at h
  cases lr with
  | error e => simp at h
  | ok v =>
    dsimp only at h
    split at h
    · simp at h
    · split at h
      · simp at h
      · simp only [Prod.mk.injEq, Except.ok.injEq] at h
        exact ⟨h.1.symm, h.2.1.symm⟩

theorem getIh_setIh_ne (ihs : IdxState) (k k2 : List String)
    (es : List (List Nat × Rid)) (h : k2 ≠ k) :
    getIh (setIh ihs k es) k2 = getIh ihs k2 := by
  induction ihs with
  | nil => rfl
  | cons e rest ih =>
    unfold setIh
    by_cases hk : e.1 = k
    · rw [if_pos hk]
      show getIh ((e.1, es) :: rest) k2 = _
      unfold getIh
      rw [if_neg (fun hc => h (hc.symm.trans hk)),
        if_neg (fun hc => h (hc.symm.trans hk))]
    · rw [if_neg hk]
      show getIh ((e.1, e.2) :: setIh rest k es) k2 = getIh ((e.1, e.2) :: rest) k2
      unfold getIh
      by_cases hk2 : e.1 = k2
      · rw [if_pos hk2, if_pos hk2]
      · rw [if_neg hk2, if_neg hk2]
        exact ih

theorem deleteOldKeys_frame (rec : List Nat) (affected : List IndexMeta) :
    ∀ (ihs : IdxState) (k : List String), k ∉ affected.map idxKeyNames →
      getIh (deleteOldKeys rec affected ihs).1 k = getIh ihs k := by
  induction affected with
  | nil => exact fun ihs k _ => rfl
  | cons im rest ih =>
    intro ihs k hk
    have hk1 : k ≠ idxKeyNames im := fun he => hk (by rw [he]; exact List.mem_map_of_mem _ (List.mem_cons_self _ _))
    have hk2 : k ∉ rest.map idxKeyNames := fun hm => hk (by
      rcases List.mem_map.mp hm with ⟨im2, hm2, he2⟩
      exact he2 ▸ List.mem_map_of_mem _ (List.mem_cons_of_mem _ hm2))
    unfold deleteOldKeys
    rcases hg : getIh ihs (idxKeyNames im) with _ | es
    · rfl
    · dsimp only
      rw [ih _ k hk2, getIh_setIh_ne _ _ _ _ hk1]

theorem insertNewKeys_frame (rec : List Nat) (rid : Rid) (affected : List IndexMeta) :
    ∀ (ihs : IdxState) (k : List String), k ∉ affected.map idxKeyNames →
      getIh (insertNewKeys rec rid affected ihs).1 k = getIh ihs k := by
  induction affected with
  | nil => exact fun ihs k _ => rfl
  | cons im rest ih =>
    intro ihs k hk
    have hk1 : k ≠ idxKeyNames im := fun he => hk (by rw [he]; exact List.mem_map_of_mem _ (List.mem_cons_self _ _))
    have hk2 : k ∉ rest.map idxKeyNames := fun hm => hk (by
      rcases List.mem_map.mp hm with ⟨im2, hm2, he2⟩
      exact he2 ▸ List.mem_map_of_mem _ (List.mem_cons_of_mem _ hm2))
    unfold insertNewKeys
    rcases hg : getIh ihs (idxKeyNames im) with _ | es
    · rfl
    · dsimp only
      rw [ih _ k hk2, getIh_setIh_ne _ _ _ _ hk1]

theorem deleteOldKeys_ok_fst (rec : List Nat) (affected : List IndexMeta)
    (ihs ihs1 : IdxState) (h : deleteOldKeys rec affected ihs = (ihs1, none)) :
    (deleteOldKeys rec affected ihs).1 = ihs1 := by
  rw [h]

theorem updateOne_idx_frame (cols : List ColMeta) (scs : List SetClause)
    (affected : List IndexMeta) (f : RmFile) (lt : LockTable) (c : Option Ctx)
    (ihs : IdxState) (rid : Rid) (k : List String)
    (hk : k ∉ affected.map idxKeyNames) :
    getIh (updateOne cols scs affected f lt c ihs rid).2.2.2.2 k = getIh ihs k := by
  unfold updateOne
  rcases hg : get_record f lt c rid with ⟨gr, f1, lt1, c1⟩
  cases gr with
  | error e => rfl
  | ok rec =>
    dsimp only
    rcases hdel : deleteOldKeys rec affected ihs with ⟨ihs1, de⟩
    have hihs1 : getIh ihs1 k = getIh ihs k := by
      have := deleteOldKeys_frame rec affected ihs k hk
      rw [hdel] at this
      exact this
    cases de with
    | some e => exact hihs1
    | none =>
      dsimp only
      rcases happ : applySetClauses cols rec scs with e | rec2
      · exact hihs1
      · dsimp only
        rcases hupd : update_record f1 lt1 c1 rid rec2 with ⟨ur, f2, lt2, c2⟩
        cases ur with
        | error e => exact hihs1
        | ok u =>
          dsimp only
          rcases hins : insertNewKeys rec2 rid affected ihs1 with ⟨ihs2, ie⟩
          have hihs2 : getIh ihs2 k = getIh ihs1 k := by
            have := insertNewKeys_frame rec2 rid affected ihs1 k hk
            rw [hins] at this
            exact this
          cases ie with
          | some e => exact hihs2.trans hihs1
          | none => exact hihs2.trans hihs1

theorem updateLoop_idx_frame (cols : List ColMeta) (scs : List SetClause)
    (affected : List IndexMeta) (rids : List Rid) :
    ∀ (f : RmFile) (lt : LockTable) (c : Option Ctx) (ihs : IdxState)
      (k : List String), k ∉ affected.map idxKeyNames →
      getIh (updateLoop cols scs affected rids f lt c ihs).2.2.2.2 k = getIh ihs k := by
  induction rids with
  | nil => exact fun f lt c ihs k _ => rfl
  | cons rid rest ih =>
    intro f lt c ihs k hk
    unfold updateLoop
    rcases hone : updateOne cols scs affected f lt c ihs rid with ⟨r1, f2, lt2, c2, ihs2⟩
    have h1 : getIh ihs2 k = getIh ihs k := by
      have := updateOne_idx_frame cols scs affected f lt c ihs rid k hk
      rw [hone] at this
      exact this
    cases r1 with
    | error e => exact h1
    | ok u => exact (ih f2 lt2 c2 ihs2 k hk).trans h1

/-- The success path of updateOne matches one step of specMaintain. -/
theorem updateOne_spec (cols : List ColMeta) (scs : List SetClause)
    (affected : List IndexMeta) (f : RmFile) (lt : LockTable) (c : Option Ctx)
    (ihs : IdxState) (rid : Rid) (f2 : RmFile) (lt2 : LockTable) (c2 : Option Ctx)
    (ihs2 : IdxState)
    (h : updateOne cols scs affected f lt c ihs rid = (.ok (), f2, lt2, c2, ihs2)) :
    applySetClauses cols
        ((f.getPage rid.page_no).readSlot f.record_size rid.slot_no) scs
      = .ok ((applySetClauses cols
          ((f.getPage rid.page_no).readSlot f.record_size rid.slot_no) scs).toOption.getD [])
    ∧ f2 = f.setPage rid.page_no
        ((f.getPage rid.page_no).writeSlot f.record_size rid.slot_no
          ((applySetClauses cols
            ((f.getPage rid.page_no).readSlot f.record_size rid.slot_no) scs).toOption.getD []))
    ∧ ihs2 = (insertNewKeys
        ((applySetClauses cols
          ((f.getPage rid.page_no).readSlot f.record_size rid.slot_no) scs).toOption.getD [])
        rid affected
        (deleteOldKeys ((f.getPage rid.page_no).readSlot f.record_size rid.slot_no)
          affected ihs).1).1 := by
  unfold updateOne at h
  rcases hg : get_record f lt c rid with ⟨gr, f1, lt1, c1⟩
  rw [hg] at h
  cases gr with
  | error e => simp at h
  | ok rec =>
    dsimp only at h
    obtain ⟨hrec, hf1⟩ := get_record_ok_out f lt c rid rec f1 lt1 c1 hg
    rcases hdel : deleteOldKeys rec affected ihs with ⟨ihs1, de⟩
    rw [hdel] at h
    cases de with
    | some e => simp at h
    | none =>
      dsimp only at h
      rcases happ : applySetClauses cols rec scs with e | rec2
      all_goals rw [happ] at h
      · simp at h
      · dsimp only at h
        rcases hupd : update_record f1 lt1 c1 rid rec2 with ⟨ur, f3, lt3, c3⟩
        rw [hupd] at h
        cases ur with
        | error e => simp at h
        | ok u =>
          dsimp only at h
          rcases hins : insertNewKeys rec2 rid affected ihs1 with ⟨ihs2x, ie⟩
          rw [hins] at h
          cases ie with
          | some e => simp at h
          | none =>
            simp only [Prod.mk.injEq] at h
            obtain ⟨-, hf2, -, -, hihs2⟩ := h
            rw [hf1] at hupd
            obtain ⟨-, -, hf3⟩ := update_record_ok_inv f lt1 c1 rid rec2 f3 lt3 c3 hupd
            rw [← hrec, happ]
            have hget : ((Except.ok rec2 : Except Err (List Nat)).toOption.getD [])
                = rec2 := rfl
            rw [hget]
            refine ⟨rfl, ?_, ?_⟩
            · rw [← hf2, hf3]
            · rw [← hihs2, hdel]
              show ihs2x = (insertNewKeys rec2 rid affected ihs1).1
              rw [hins]

/-- A fully successful rid loop equals the pure maintenance recursion. -/
theorem updateLoop_spec (cols : List ColMeta) (scs : List SetClause)
    (affected : List IndexMeta) (rids : List Rid) :
    ∀ (f : RmFile) (lt : LockTable) (c : Option Ctx) (ihs : IdxState)
      (f' : RmFile) (lt' : LockTable) (c' : Option Ctx) (ihs' : IdxState),
      updateLoop cols scs affected rids f lt c ihs = (.ok (), f', lt', c', ihs') →
      (f', ihs') = specMaintain cols scs affected rids f ihs := by
  induction rids with
  | nil =>
    intro f lt c ihs f' lt' c' ihs' h
    unfold updateLoop at h
    simp only [Prod.mk.injEq] at h
    obtain ⟨-, hf, -, -, hi⟩ := h
    rw [← hf, ← hi]
    rfl
  | cons rid rest ih =>
    intro f lt c ihs f' lt' c' ihs' h
    unfold updateLoop at h
    rcases hone : updateOne cols scs affected f lt c ihs rid with ⟨r1, f2, lt2, c2, ihs2⟩
    rw [hone] at h
    cases r1 with
    | error e => simp at h
    | ok u =>
      dsimp only at h
      cases u
      obtain ⟨happ, hf2, hihs2⟩ :=
        updateOne_spec cols scs affected f lt c ihs rid f2 lt2 c2 ihs2 hone
      unfold specMaintain
      dsimp only
      rw [happ]
      dsimp only
      rw [← hf2, ← hihs2]
      exact ih f2 lt2 c2 ihs2 f' lt' c' ihs' h

/-- Claim C7: exactly the indexes with a column named in a set clause are
maintained.  (1) the computed affected set is the claim's predicate over
tab_.indexes; (2) an index with no column among the set-clause targets is
left completely unchanged, whether the call succeeds or throws; (3) on
success, the final heap and index states equal the pure per-rid
maintenance: for each processed rid in order, delete the old composite key
built from the pre-update record bytes from each affected index and insert
the new composite key built from the updated bytes, bound to the same
rid. -/
theorem claim_C7 (cols : List ColMeta) (scs : List SetClause) (idxs : List IndexMeta)
    (rids : List Rid) (f : RmFile) (lt : LockTable) (c : Option Ctx) (ihs : IdxState) :
    (∀ im : IndexMeta, im ∈ affected_indexes idxs scs
        ↔ im ∈ idxs ∧ ∃ cm ∈ im.cols, ∃ sc ∈ scs, cm.name = sc.lhs.col_name)
    ∧ (∀ im ∈ idxs, ¬ (∃ cm ∈ im.cols, ∃ sc ∈ scs, cm.name = sc.lhs.col_name) →
        getIh (updateNext cols scs idxs rids f lt c ihs).2.2.2.2 (idxKeyNames im)
          = getIh ihs (idxKeyNames im))
    ∧ (∀ (f' : RmFile) (lt' : LockTable) (c' : Option Ctx) (ihs' : IdxState),
        updateNext cols scs idxs rids f lt c ihs = (.ok (), f', lt', c', ihs') →
        (f', ihs') = specMaintain cols scs (affected_indexes idxs scs) rids f ihs) := by
  refine ⟨?_, ?_, ?_⟩
  · intro im
    rw [show affected_indexes idxs scs = idxs.filter (indexAffected scs) from rfl,
      List.mem_filter]
    constructor
    · rintro ⟨h1, h2⟩
      refine ⟨h1, ?_⟩
      simpa [indexAffected, List.any_eq_true] using h2
    · rintro ⟨h1, h2⟩
      refine ⟨h1, ?_⟩
      simpa [indexAffected, List.any_eq_true] using h2
  · intro im hmem hnot
    refine updateLoop_idx_frame cols scs (affected_indexes idxs scs) rids f lt c ihs _ ?_
    intro hk
    rcases List.mem_map.mp hk with ⟨im2, hm2, he2⟩
    have haff : indexAffected scs im2 = true := (List.mem_filter.mp hm2).2
    apply hnot
    simp only [indexAffected, List.any_eq_true, decide_eq_true_eq] at haff
    obtain ⟨cm2, hcm2, sc, hsc, hname⟩ := haff
    have h1 : cm2.name ∈ im2.cols.map ColMeta.name := List.mem_map_of_mem _ hcm2
    rw [show (im2.cols.map ColMeta.name) = idxKeyNames im2 from rfl, he2] at h1
    rcases List.mem_map.mp h1 with ⟨cm, hcm, he3⟩
    exact ⟨cm, hcm, sc, hsc, he3.trans hname⟩
  · intro f' lt' c' ihs' h
    exact updateLoop_spec cols scs (affected_indexes idxs scs) rids f lt c ihs
      f' lt' c' ihs' h

/-- Witness for C7: updating the int column a from 7 to 9 on a one-record
table with an index on a (affected) and an index on b (not affected): the
b index is untouched and the final states equal the pure maintenance. -/
theorem claim_C7_witness :
    getIh (updateNext [⟨"t", "a", .TYPE_INT, 4, 0⟩]
        [⟨⟨"t", "a"⟩, ⟨9, 0, []⟩⟩]
        [⟨[⟨"t", "a", .TYPE_INT, 4, 0⟩], 4⟩, ⟨[⟨"t", "b", .TYPE_INT, 4, 4⟩], 4⟩]
        [⟨1, 0⟩]
        ⟨"t", 4, 1, RM_NO_PAGE, [⟨1, RM_NO_PAGE, [true], [[7, 0, 0, 0]]⟩]⟩
        [] none
        [(["a"], [([7, 0, 0, 0], ⟨1, 0⟩)]), (["b"], [([1, 2, 3, 4], ⟨1, 0⟩)])]).2.2.2.2
      ["b"]
      = getIh [(["a"], [([7, 0, 0, 0], ⟨1, 0⟩)]),
          (["b"], [([1, 2, 3, 4], ⟨1, 0⟩)])] ["b"]
    ∧ ((⟨"t", 4, 1, RM_NO_PAGE, [⟨1, RM_NO_PAGE, [true], [[9, 0, 0, 0]]⟩]⟩ : RmFile),
        ([(["a"], [([9, 0, 0, 0], ⟨1, 0⟩)]),
          (["b"], [([1, 2, 3, 4], ⟨1, 0⟩)])] : IdxState))
      = specMaintain [⟨"t", "a", .TYPE_INT, 4, 0⟩]
          [⟨⟨"t", "a"⟩, ⟨9, 0, []⟩⟩]
          (affected_indexes
            [⟨[⟨"t", "a", .TYPE_INT, 4, 0⟩], 4⟩, ⟨[⟨"t", "b", .TYPE_INT, 4, 4⟩], 4⟩]
            [⟨⟨"t", "a"⟩, ⟨9, 0, []⟩⟩])
          [⟨1, 0⟩]
          ⟨"t", 4, 1, RM_NO_PAGE, [⟨1, RM_NO_PAGE, [true], [[7, 0, 0, 0]]⟩]⟩
          [(["a"], [([7, 0, 0, 0], ⟨1, 0⟩)]), (["b"], [([1, 2, 3, 4], ⟨1, 0⟩)])] := by
  refine ⟨(claim_C7 [⟨"t", "a", .TYPE_INT, 4, 0⟩]
      [⟨⟨"t", "a"⟩, ⟨9, 0, []⟩⟩]
      [⟨[⟨"t", "a", .TYPE_INT, 4, 0⟩], 4⟩, ⟨[⟨"t", "b", .TYPE_INT, 4, 4⟩], 4⟩]
      [⟨1, 0⟩]
      ⟨"t", 4, 1, RM_NO_PAGE, [⟨1, RM_NO_PAGE, [true], [[7, 0, 0, 0]]⟩]⟩
      [] none
      [(["a"], [([7, 0, 0, 0], ⟨1, 0⟩)]), (["b"], [([1, 2, 3, 4], ⟨1, 0⟩)])]).2.1
      ⟨[⟨"t", "b", .TYPE_INT, 4, 4⟩], 4⟩ (by decide) (by decide),
    (claim_C7 [⟨"t", "a", .TYPE_INT, 4, 0⟩]
      [⟨⟨"t", "a"⟩, ⟨9, 0, []⟩⟩]
      [⟨[⟨"t", "a", .TYPE_INT, 4, 0⟩], 4⟩, ⟨[⟨"t", "b", .TYPE_INT, 4, 4⟩], 4⟩]
      [⟨1, 0⟩]
      ⟨"t", 4, 1, RM_NO_PAGE, [⟨1, RM_NO_PAGE, [true], [[7, 0, 0, 0]]⟩]⟩
      [] none
      [(["a"], [([7, 0, 0, 0], ⟨1, 0⟩)]), (["b"], [([1, 2, 3, 4], ⟨1, 0⟩)])]).2.2
      ⟨"t", 4, 1, RM_NO_PAGE, [⟨1, RM_NO_PAGE, [true], [[9, 0, 0, 0]]⟩]⟩
      [] none
      [(["a"], [([9, 0, 0, 0], ⟨1, 0⟩)]), (["b"], [([1, 2, 3, 4], ⟨1, 0⟩)])] rfl⟩

end RmDb
